import Mathlib

/-!
# Traffic simulator: routing core

A shallow embedding of `src/trafficsimulator.cpp` (vehicle profiles, weather, the road
network with its base-edge table, the rush-hour and weather rewrites, the CSV export rows
and the Dijkstra search of `Graph::shortestPath`), followed by theorems about it.

Conventions of the embedding:
* a `double` value is the rational number it denotes; `toDouble` rounds a rational to the
  nearest `double` (ties to even), and `dmul`, `ddiv`, `dadd` are the rounded operations.
  The vehicle profiles, `toggleEmergency` and the query in machine arithmetic
  (`getWeatherMultiplierMachine` ... `shortestPathMachine`) use them, together with the
  conversion `castInt` and the 32-bit sum `wrapInt`: this is the arithmetic of the program;
* the reference model (`timeCost`, `relaxEdge`, `dijkstraLoop`, `shortestPath`, with
  `weatherEdge` and `applyWeatherEffects`) follows the same source lines with exact rational
  arithmetic and unbounded integers (`Int`), `INT_MAX` kept as the "infinity" sentinel the
  search uses; the machine search on a network is the reference search on the network of
  machine costs (`costGraph`) as long as every sum `dist.at(u) + timeCost` stays in the
  range of `int` (`sumsInRange`, `dijkstraLoop_costGraph`);
* `relaxEdge32`, `relaxEdges32`, `dijkstraLoop32` and `shortestPath32` are the reference
  search with that sum reduced into the 32-bit two's-complement range (`wrapInt`), for
  inputs on which it leaves the range;
* `std::map` is an association list with key-ordered insertion (`mapInsert`) and
  first-match lookup (`mapFind`);
* `std::priority_queue` with `greater<pair<int,string>>` is a list from which the
  least pair is removed (`pqPop`);
* the `while` loops of the search take a step budget (`fuel`); running out of budget is
  reported separately from every result of the program;
* a failing `map::at` is reported as `Outcome.outOfRange`;
* console output, sounds, sleeping and timers are not modelled.
-/

namespace TrafficSim

/-! ## Constants -/

/-- The constant `MAX_CONGESTION`. -/
def MAX_CONGESTION : Nat := 5

/-- The constant `EMERGENCY_SPEED_BOOST` (1.5). -/
def EMERGENCY_SPEED_BOOST : ℚ := 3 / 2

/-- The value `numeric_limits<int>::max()` for a 32-bit `int`. -/
def INT_MAX : Int := 2147483647

/-- The value `numeric_limits<int>::min()` for a 32-bit `int`. -/
def INT_MIN : Int := -2147483648

/-! ## Double-precision arithmetic -/

/-- The integer nearest to a non-negative rational, the even one of the two when it lies
halfway between them. -/
def roundHalfEven (q : ℚ) : Int :=
  if q - ⌊q⌋ < 1 / 2 then ⌊q⌋
  else if 1 / 2 < q - ⌊q⌋ then ⌊q⌋ + 1
  else if ⌊q⌋ % 2 = 0 then ⌊q⌋ else ⌊q⌋ + 1

/-- The number of binary digits of `n`, found in at most `fuel` halvings. -/
def bitLength : Nat → Nat → Nat
  | 0, _ => 0
  | fuel + 1, n => if n = 0 then 0 else bitLength fuel (n / 2) + 1

/-- The least exponent `e' ≥ e` with `x < 2 ^ (53 + e')`, looked for in at most `fuel`
steps. -/
def expSearch (x : ℚ) : Nat → Int → Int
  | 0, e => e
  | fuel + 1, e => if x < (2 : ℚ) ^ (53 + e) then e else expSearch x fuel (e + 1)

/-- The exponent of the unit in the last place of the `double` nearest to `x ≥ 0`: the `e`
with `2 ^ (52 + e) ≤ x < 2 ^ (53 + e)`, and -1074 for the subnormal numbers. The search
starts from an estimate taken from the lengths of numerator and denominator. -/
def doubleExponent (x : ℚ) : Int :=
  expSearch x 3 (max (-1074)
    ((bitLength x.num.natAbs x.num.natAbs : Int) - (bitLength x.den x.den : Int) - 53))

/-- The `double` (IEEE 754 binary64, round to nearest, ties to even) nearest to the rational
`x`, as a rational. Overflow to infinity is not modelled: it needs a value of 2^1024 or
more. -/
def toDouble (x : ℚ) : ℚ :=
  if 0 ≤ x then (roundHalfEven (x / (2 : ℚ) ^ doubleExponent x) : ℚ) * (2 : ℚ) ^ doubleExponent x
  else -((roundHalfEven (-x / (2 : ℚ) ^ doubleExponent (-x)) : ℚ) * (2 : ℚ) ^ doubleExponent (-x))

/-- The product of two `double` values. -/
def dmul (a b : ℚ) : ℚ := toDouble (a * b)

/-- The quotient of two `double` values. -/
def ddiv (a b : ℚ) : ℚ := toDouble (a / b)

/-- The sum of two `double` values. -/
def dadd (a b : ℚ) : ℚ := toDouble (a + b)

/-! ## Strings -/

/-- Lexicographic comparison of character sequences, as `std::string::operator<`. -/
def charsLt : List Char → List Char → Bool
  | [], [] => false
  | [], _ :: _ => true
  | _ :: _, [] => false
  | a :: as, b :: bs =>
    if a.toNat < b.toNat then true
    else if b.toNat < a.toNat then false
    else charsLt as bs

/-- The order `std::map<string, _>` keeps its keys in. -/
def strLt (a b : String) : Bool := charsLt a.data b.data

/-- The order `std::map<pair<string,string>, _>` keeps its keys in. -/
def pairLt (a b : String × String) : Bool :=
  strLt a.1 b.1 || (decide (a.1 = b.1) && strLt a.2 b.2)

/-- Whether `pat` is a prefix of the character sequence. -/
def isPrefixChars : List Char → List Char → Bool
  | [], _ => true
  | _ :: _, [] => false
  | p :: ps, c :: cs => decide (p = c) && isPrefixChars ps cs

/-- Whether `pat` occurs somewhere in the character sequence. -/
def containsChars (pat : List Char) : List Char → Bool
  | [] => isPrefixChars pat []
  | c :: cs => isPrefixChars pat (c :: cs) || containsChars pat cs

/-- The test `s.find(pat) != string::npos`. -/
def hasSubstr (s pat : String) : Bool := containsChars pat.data s.data

/-- Cuts a character sequence at every comma. -/
def splitOnComma : List Char → List (List Char)
  | [] => [[]]
  | c :: cs =>
    if c = ',' then [] :: splitOnComma cs
    else
      match splitOnComma cs with
      | [] => [[c]]
      | t :: ts => (c :: t) :: ts

/-- The tokens `while (getline(ss, allowed, ','))` yields: the pieces between commas,
without a final empty piece (at end of input `getline` extracts nothing and fails). -/
def getlineTokens (s : List Char) : List (List Char) :=
  let ts := splitOnComma s
  if ts.getLast? = some [] then ts.dropLast else ts

/-! ## Association lists standing for `std::map` -/

/-- Lookup `m.find(k)` / `m.at(k)` / `m.count(k)`: the value stored under `k`, if any. -/
def mapFind {κ α : Type} [DecidableEq κ] : List (κ × α) → κ → Option α
  | [], _ => none
  | (k', v) :: rest, k => if k = k' then some v else mapFind rest k

/-- Assignment `m[k] = v`: replaces the value under `k` or inserts it in key order. -/
def mapInsert {κ α : Type} [DecidableEq κ] (lt : κ → κ → Bool) (k : κ) (v : α) :
    List (κ × α) → List (κ × α)
  | [] => [(k, v)]
  | (k', v') :: rest =>
    if k = k' then (k, v) :: rest
    else if lt k k' then (k, v) :: (k', v') :: rest
    else (k', v') :: mapInsert lt k v rest

/-! ## Vehicles -/

/-- The enumeration `VehicleType`. -/
inductive VehicleType
  | CAR | BIKE | BUS | AMBULANCE | POLICE | FIRE_TRUCK
  deriving DecidableEq

/-- The struct `Vehicle`. -/
structure Vehicle where
  type : VehicleType
  name : String
  speedMultiplier : ℚ
  fuelRate : ℚ
  emergency : Bool
  emoji : String
  allowedRoads : String
  deriving DecidableEq

/-- The constructor `Vehicle::Vehicle(VehicleType t, bool emerg)`; the literals are the
`double` values the compiler stores for them. -/
def Vehicle.make (t : VehicleType) (emerg : Bool) : Vehicle :=
  let base : Vehicle :=
    match t with
    | .CAR => ⟨t, "Car", 1, toDouble (7 / 10), emerg, "🚗", "General,Highway,Bridge,Tunnel"⟩
    | .BIKE =>
      ⟨t, "Bike", toDouble (12 / 10), toDouble (3 / 10), emerg, "🏍️",
        "General,Bike Lane,Highway,Bridge,Tunnel"⟩
    | .BUS =>
      ⟨t, "Bus", toDouble (7 / 10), 15 / 10, emerg, "🚌", "General,Bus Lane,Highway,Bridge,Tunnel"⟩
    | .AMBULANCE =>
      ⟨t, "Ambulance", 1, 1, emerg, "🚑", "General,Emergency,Highway,Bridge,Tunnel"⟩
    | .POLICE =>
      ⟨t, "Police", 1, toDouble (11 / 10), emerg, "🚓", "General,Emergency,Highway,Bridge,Tunnel"⟩
    | .FIRE_TRUCK =>
      ⟨t, "Fire Truck", 1, toDouble (18 / 10), emerg, "🚒",
        "General,Emergency,Highway,Bridge,Tunnel"⟩
  if emerg then { base with speedMultiplier := dmul base.speedMultiplier EMERGENCY_SPEED_BOOST }
  else base

/-- The method `Vehicle::toggleEmergency`: the stored multiplier is multiplied or divided in
place, in `double` arithmetic. -/
def Vehicle.toggleEmergency (v : Vehicle) : Vehicle :=
  let emergency := !v.emergency
  if emergency then
    { v with emergency := emergency,
             speedMultiplier := dmul v.speedMultiplier EMERGENCY_SPEED_BOOST }
  else
    { v with emergency := emergency,
             speedMultiplier := ddiv v.speedMultiplier EMERGENCY_SPEED_BOOST }

/-- The method `Vehicle::canUseRoad`. -/
def Vehicle.canUseRoad (v : Vehicle) (roadType : String) : Bool :=
  if hasSubstr v.allowedRoads "All" then true
  else (getlineTokens v.allowedRoads.data).any (fun allowed => decide (allowed = roadType.data))

/-! ## Weather -/

/-- The enumeration `WeatherType`. -/
inductive WeatherType
  | SUNNY | RAIN | SNOW | FOG | STORM
  deriving DecidableEq

/-- The function `getWeatherMultiplier`, reading the global `currentWeather`. -/
def getWeatherMultiplier (currentWeather : WeatherType) : ℚ :=
  match currentWeather with
  | .SUNNY => 1
  | .RAIN => 85 / 100
  | .SNOW => 7 / 10
  | .FOG => 8 / 10
  | .STORM => 6 / 10

/-! ## Incidents -/

/-- The struct `IncidentMonitor::Incident`. -/
structure Incident where
  location : String
  type : String
  severity : Int
  timestamp : Int
  roadType : String
  deriving DecidableEq

/-! ## The road network -/

/-- The struct `Graph::Edge`. -/
structure Edge where
  destination : String
  weight : ℚ
  signalDelay : Int
  blocked : Bool
  congestion : Int
  roadType : String
  deriving DecidableEq

/-- The constructor `Edge(d, w, sd, rt)`: not blocked, no congestion. -/
def Edge.make (d : String) (w : ℚ) (sd : Int) (rt : String) : Edge :=
  ⟨d, w, sd, false, 0, rt⟩

/-- The data members `adjList` and `baseEdges` of `Graph`. -/
structure Graph where
  adjList : List (String × List Edge)
  baseEdges : List ((String × String) × Edge)
  deriving DecidableEq

/-- A freshly constructed `Graph`. -/
def Graph.empty : Graph := ⟨[], []⟩

/-- The statement `adjList[u].push_back(e)`. -/
def pushEdge (adj : List (String × List Edge)) (u : String) (e : Edge) :
    List (String × List Edge) :=
  mapInsert strLt u ((mapFind adj u).getD [] ++ [e]) adj

/-- The method `Graph::addRoad`. -/
def addRoad (g : Graph) (u v : String) (w sd : Int) (roadType : String) : Graph :=
  let adj1 := pushEdge g.adjList u (Edge.make v w sd roadType)
  let adj2 := pushEdge adj1 v (Edge.make u w sd roadType)
  let base1 := mapInsert pairLt (u, v) (Edge.make v w sd roadType) g.baseEdges
  let base2 := mapInsert pairLt (v, u) (Edge.make u w sd roadType) base1
  ⟨adj2, base2⟩

/-- Case 1 of `Graph::mainMenu` after the numbers are parsed: the input checks, the default
road type, then `addRoad`. A rejected input leaves the network as it is. -/
def menuAddRoad (g : Graph) (u v : String) (w sd : Int) (type : String) : Graph :=
  if u = "" then g
  else if v = "" then g
  else if u = v then g
  else if w < INT_MIN ∨ INT_MAX < w then g
  else if w ≤ 0 then g
  else if sd < INT_MIN ∨ INT_MAX < sd then g
  else if sd < 0 then g
  else addRoad g u v w sd (if type = "" then "General" else type)

/-- The lookup of an edge's original weight that `applyWeatherEffects`, the rush-hour case,
`exportToCSV` and the distance total of `shortestPath` all perform: the base edge under
`{node, destination}`, else the one under `{destination, node}`, else 0. -/
def originalWeight (g : Graph) (node destination : String) : ℚ :=
  match mapFind g.baseEdges (node, destination) with
  | some b => b.weight
  | none =>
    match mapFind g.baseEdges (destination, node) with
    | some b => b.weight
    | none => 0

/-- The body of the edge loop of `Graph::applyWeatherEffects` for one edge of `node`. -/
def weatherEdge (weatherMult : ℚ) (g : Graph) (node : String) (edge : Edge) : Edge :=
  let originalBaseWeight := originalWeight g node edge.destination
  let originalBaseWeight := if originalBaseWeight = 0 then edge.weight else originalBaseWeight
  { edge with weight := originalBaseWeight / weatherMult }

/-- The body of `Graph::applyWeatherEffects` for a given value of `weatherMult`. -/
def applyWeatherMult (weatherMult : ℚ) (g : Graph) : Graph :=
  { g with
    adjList := g.adjList.map (fun nodePair =>
      (nodePair.1, nodePair.2.map (weatherEdge weatherMult g nodePair.1))) }

/-- The method `Graph::applyWeatherEffects`. -/
def applyWeatherEffects (currentWeather : WeatherType) (g : Graph) : Graph :=
  applyWeatherMult (getWeatherMultiplier currentWeather) g

/-- The inner loop of the rush-hour case over the edges of one node; `rand k` is the value
of the `k`-th call of `rand()` made by the whole operation. -/
def rushHourEdges (g : Graph) (rand : Nat → Nat) (node : String) : Nat → List Edge → List Edge
  | _, [] => []
  | k, edge :: rest =>
    let original := originalWeight g node edge.destination
    let original := if original = 0 then edge.weight else original
    { edge with weight := original * (3 / 2),
                congestion := ((rand k % MAX_CONGESTION + 1 : Nat) : Int) }
      :: rushHourEdges g rand node (k + 1) rest

/-- The outer loop of the rush-hour case over the nodes. -/
def rushHourNodes (g : Graph) (rand : Nat → Nat) :
    Nat → List (String × List Edge) → List (String × List Edge)
  | _, [] => []
  | k, nodePair :: rest =>
    (nodePair.1, rushHourEdges g rand nodePair.1 k nodePair.2)
      :: rushHourNodes g rand (k + nodePair.2.length) rest

/-- Case 4 of `Graph::mainMenu` (apply rush hour conditions). -/
def applyRushHour (rand : Nat → Nat) (g : Graph) : Graph :=
  { g with adjList := rushHourNodes g rand 0 g.adjList }

/-- One data line of the file `exportToCSV` writes. -/
structure CsvRow where
  source : String
  destination : String
  roadType : String
  originalWeight : ℚ
  currentWeight : ℚ
  signalDelay : Int
  blocked : Bool
  congestion : Int
  deriving DecidableEq

/-- The data lines of `Graph::exportToCSV`, in the order written. -/
def exportToCSV (g : Graph) : List CsvRow :=
  g.adjList.flatMap (fun node =>
    node.2.map (fun edge =>
      { source := node.1, destination := edge.destination, roadType := edge.roadType,
        originalWeight := originalWeight g node.1 edge.destination,
        currentWeight := edge.weight, signalDelay := edge.signalDelay,
        blocked := edge.blocked, congestion := edge.congestion }))

/-- The method `Graph::getRoadTypeDisplayName`. -/
def getRoadTypeDisplayName (node : String) : String :=
  if hasSubstr node "Highway" then "Highway"
  else if hasSubstr node "Bridge" then "Bridge"
  else if hasSubstr node "Bike" then "Bike Lane"
  else if hasSubstr node "Bus" then "Bus Lane"
  else if hasSubstr node "Tunnel" then "Tunnel"
  else if hasSubstr node "Airport" then "Airport Access"
  else if hasSubstr node "Hospital" then "Hospital Access"
  else "General"

/-- The method `Graph::getTollFee`. -/
def getTollFee (roadType : String) : Int :=
  if roadType = "Highway" then 5
  else if roadType = "Bridge" then 3
  else if roadType = "Tunnel" then 7
  else 0

/-! ## The route search -/

/-- The incident test inside the edge loop of `shortestPath`: some stored incident lies at
the edge's destination, at `u`, or (when a base edge `{u, destination}` exists) at the
display name of `u`, and its road type is the edge's, is "All", or occurs in the edge's. -/
def isBlockedByIncident (g : Graph) (incidents : List Incident) (u : String) (edge : Edge) :
    Bool :=
  incidents.any (fun incident =>
    (decide (incident.location = edge.destination) || decide (incident.location = u) ||
      ((mapFind g.baseEdges (u, edge.destination)).isSome &&
        decide (incident.location = getRoadTypeDisplayName u))) &&
    (decide (incident.roadType = edge.roadType) || decide (incident.roadType = "All") ||
      hasSubstr edge.roadType incident.roadType))

/-- The conversion `static_cast<int>(x)`: truncation toward zero. -/
def truncToInt (x : ℚ) : Int := Int.tdiv x.num x.den

/-- The value `timeCost` computed for an edge in `shortestPath`. -/
def timeCost (edge : Edge) (vehicle : Vehicle) : Int :=
  let effectiveWeight := edge.weight
  let effectiveWeight := effectiveWeight * (1 + (edge.congestion : ℚ) * (1 / 10))
  truncToInt ((effectiveWeight + (edge.signalDelay : ℚ)) / vehicle.speedMultiplier)

/-- Whether the edge loop of `shortestPath` goes on to relax the edge (it is not blocked,
not blocked by an incident, and the vehicle may use its road type). -/
def edgeUsable (g : Graph) (incidents : List Incident) (vehicle : Vehicle) (u : String)
    (edge : Edge) : Bool :=
  !(edge.blocked || isBlockedByIncident g incidents u edge) && vehicle.canUseRoad edge.roadType

/-- The order of `greater<pair<int,string>>`'s priority queue: by time, then by name. -/
def pqLt (a b : Int × String) : Bool :=
  decide (a.1 < b.1) || (decide (a.1 = b.1) && strLt a.2 b.2)

/-- The least entry among `best` and the entries of the list. -/
def pqMin : Int × String → List (Int × String) → Int × String
  | best, [] => best
  | best, x :: xs => pqMin (if pqLt x best then x else best) xs

/-- The pair `pq.top(); pq.pop()`: the least entry and the queue without it. -/
def pqPop : List (Int × String) → Option ((Int × String) × List (Int × String))
  | [] => none
  | x :: xs => some (pqMin x xs, (x :: xs).erase (pqMin x xs))

/-- The scratch state of one query: `dist`, `parent` and `pq`. -/
structure Search where
  dist : List (String × Int)
  parent : List (String × String)
  pq : List (Int × String)
  deriving DecidableEq

/-- How a loop of the search ended. -/
inductive Run (α : Type)
  | fuelOut : Run α
  | thrown : Run α
  | ok : α → Run α
  deriving DecidableEq

/-- The body of the edge loop of `shortestPath` for one edge; `none` when a `dist.at`
throws. -/
def relaxEdge (g : Graph) (incidents : List Incident) (vehicle : Vehicle) (u : String)
    (st : Search) (edge : Edge) : Option Search :=
  if edge.blocked || isBlockedByIncident g incidents u edge then some st
  else if !vehicle.canUseRoad edge.roadType then some st
  else
    match mapFind st.dist u, mapFind st.dist edge.destination with
    | some du, some dv =>
      if du + timeCost edge vehicle < dv then
        some { dist := mapInsert strLt edge.destination (du + timeCost edge vehicle) st.dist,
               parent := mapInsert strLt edge.destination u st.parent,
               pq := st.pq ++ [(du + timeCost edge vehicle, edge.destination)] }
      else some st
    | _, _ => none

/-- The edge loop `for (auto& edge : adjList.at(u))` of `shortestPath`. -/
def relaxEdges (g : Graph) (incidents : List Incident) (vehicle : Vehicle) (u : String) :
    List Edge → Search → Option Search
  | [], st => some st
  | edge :: rest, st =>
    match relaxEdge g incidents vehicle u st edge with
    | none => none
    | some st1 => relaxEdges g incidents vehicle u rest st1

/-- The loop `while (!pq.empty())` of `shortestPath`, run for at most `fuel` iterations.
The read `dist[u]` never inserts: every queued name is a key of `dist`. -/
def dijkstraLoop (g : Graph) (incidents : List Incident) (vehicle : Vehicle) (dest : String) :
    Nat → Search → Run Search
  | fuel, st =>
    match pqPop st.pq with
    | none => .ok st
    | some (current, rest) =>
      match fuel with
      | 0 => .fuelOut
      | fuel + 1 =>
        let st1 : Search := { st with pq := rest }
        if current.2 = dest then .ok st1
        else if current.1 > (mapFind st1.dist current.2).getD 0 then
          dijkstraLoop g incidents vehicle dest fuel st1
        else
          match mapFind g.adjList current.2 with
          | none => .thrown
          | some edges =>
            match relaxEdges g incidents vehicle current.2 edges st1 with
            | none => .thrown
            | some st2 => dijkstraLoop g incidents vehicle dest fuel st2

/-- The loop `for (string v = dest; v != src; v = parent.at(v)) path.push_back(v)`, run for
at most `fuel` iterations. -/
def walkParents (parent : List (String × String)) (src : String) : Nat → String → Run (List String)
  | fuel, v =>
    if v = src then .ok []
    else
      match fuel with
      | 0 => .fuelOut
      | fuel + 1 =>
        match mapFind parent v with
        | none => .thrown
        | some p =>
          match walkParents parent src fuel p with
          | .ok rest => .ok (v :: rest)
          | .fuelOut => .fuelOut
          | .thrown => .thrown

/-- The totals loop of `shortestPath` over the segments of the path: the distance and toll
of the first edge from each node to the next one; `none` when `adjList.at` throws. -/
def segmentTotals (g : Graph) : List String → Option (ℚ × Int)
  | [] => some (0, 0)
  | [_] => some (0, 0)
  | a :: b :: rest =>
    match mapFind g.adjList a with
    | none => none
    | some edges =>
      match segmentTotals g (b :: rest) with
      | none => none
      | some (totalDistance, totalToll) =>
        match edges.find? (fun edge => decide (edge.destination = b)) with
        | none => some (totalDistance, totalToll)
        | some edge =>
          let toll := getTollFee edge.roadType
          some (originalWeight g a edge.destination + totalDistance,
                (if toll > 0 then toll else 0) + totalToll)

/-- What a successful query reports. -/
structure RouteResult where
  path : List String
  totalTime : Int
  totalToll : Int
  totalDistance : ℚ
  deriving DecidableEq

/-- The ways `shortestPath` ends. -/
inductive Outcome
  | trivialRoute
  | unknownSource
  | unknownDestination
  | noPathFound
  | route (r : RouteResult)
  | outOfRange
  deriving DecidableEq

/-- The state a query reads and writes: the `Graph` members, the incident store of
`IncidentMonitor` and the global `currentWeather`. -/
structure World where
  graph : Graph
  incidents : List Incident
  currentWeather : WeatherType
  deriving DecidableEq

/-- The initial `dist` map: `INT_MAX` for every node, then `dist[src] = 0`. -/
def initDist (g : Graph) (src : String) : List (String × Int) :=
  mapInsert strLt src 0 (g.adjList.map (fun node => (node.1, INT_MAX)))

/-- The method `Graph::shortestPath`; `none` when a loop needs more than `fuel` iterations. -/
def shortestPath (fuel : Nat) (w : World) (src dest : String) (vehicle : Vehicle) :
    Option (Outcome × World) :=
  if src = dest then some (.trivialRoute, w)
  else if (mapFind w.graph.adjList src).isNone then some (.unknownSource, w)
  else if (mapFind w.graph.adjList dest).isNone then some (.unknownDestination, w)
  else
    let g := applyWeatherEffects w.currentWeather w.graph
    let w1 : World := { w with graph := g }
    match dijkstraLoop g w.incidents vehicle dest fuel ⟨initDist g src, [], [(0, src)]⟩ with
    | .fuelOut => none
    | .thrown => some (.outOfRange, w1)
    | .ok st =>
      match mapFind st.dist dest with
      | none => some (.outOfRange, w1)
      | some total =>
        if total = INT_MAX then some (.noPathFound, w1)
        else
          match walkParents st.parent src fuel dest with
          | .fuelOut => none
          | .thrown => some (.outOfRange, w1)
          | .ok rev =>
            let path := (rev ++ [src]).reverse
            match segmentTotals g path with
            | none => some (.outOfRange, w1)
            | some (totalDistance, totalToll) =>
              some (.route ⟨path, total, totalToll, totalDistance⟩, w1)

/-! ## Histories of operations and the notions the theorems speak about -/

/-- The list with the blocked flag of its `i`-th edge set to `b`. -/
def setBlockedAt (b : Bool) : Nat → List Edge → List Edge
  | _, [] => []
  | 0, edge :: rest => { edge with blocked := b } :: rest
  | i + 1, edge :: rest => edge :: setBlockedAt b i rest

/-- The network with the blocked flag of the `i`-th edge out of `u` set to `b`: the two
networks that a statement about blocking one edge compares. -/
def setEdgeBlocked (g : Graph) (u : String) (i : Nat) (b : Bool) : Graph :=
  { g with adjList := g.adjList.map (fun node =>
      (node.1, if node.1 = u then setBlockedAt b i node.2 else node.2)) }

/-- Modelled from the spec: `manualBlock(u, v, blocked)`, for which the source has no code
(nothing in it writes the flag `blocked`, which the search reads). It sets the blocked flag
of the edges from `u` to `v`. -/
def manualBlock (g : Graph) (u v : String) (blocked : Bool) : Graph :=
  { g with adjList := g.adjList.map (fun node =>
      (node.1, if node.1 = u then
        node.2.map (fun edge =>
          if edge.destination = v then { edge with blocked := blocked } else edge)
      else node.2)) }

/-- The operations that change a `Graph`: a direct call of `addRoad`, the add-road case of
the menu, the rush-hour case, a run of `applyWeatherEffects` (as made at the start of a
validated query) with the multiplier current at that moment, and a manual block. -/
inductive Op
  | addRoad (u v : String) (w sd : Int) (roadType : String)
  | menuAddRoad (u v : String) (w sd : Int) (type : String)
  | rushHour (rand : Nat → Nat)
  | weather (weatherMult : ℚ)
  | manualBlock (u v : String) (blocked : Bool)

/-- The effect of one operation. -/
def Op.apply (g : Graph) : Op → Graph
  | .addRoad u v w sd roadType => TrafficSim.addRoad g u v w sd roadType
  | .menuAddRoad u v w sd type => TrafficSim.menuAddRoad g u v w sd type
  | .rushHour rand => applyRushHour rand g
  | .weather weatherMult => applyWeatherMult weatherMult g
  | .manualBlock u v blocked => TrafficSim.manualBlock g u v blocked

/-- The network after a sequence of operations. -/
def runOps (g : Graph) (ops : List Op) : Graph := ops.foldl Op.apply g

/-- The node names an operation passes to `addRoad`. -/
def Op.names : Op → List String
  | .addRoad u v _ _ _ => [u, v]
  | .menuAddRoad u v _ _ _ => [u, v]
  | .rushHour _ => []
  | .weather _ => []
  | .manualBlock _ _ _ => []

/-- A direct `addRoad` call has a positive weight and a non-negative signal delay. -/
def Op.Positive : Op → Prop
  | .addRoad _ _ w sd _ => 0 < w ∧ 0 ≤ sd
  | _ => True

/-- The cost of a sequence of edges: the sum of their time costs. -/
def pathCost (vehicle : Vehicle) (p : List Edge) : Int :=
  (p.map (fun edge => timeCost edge vehicle)).sum

/-- An admissible path from `src`: consecutive edges of the network, each one usable
(not blocked, not blocked by an incident, of a road type the vehicle may use). -/
inductive IsPath (g : Graph) (incidents : List Incident) (vehicle : Vehicle) (src : String) :
    List Edge → String → Prop
  | nil : IsPath g incidents vehicle src [] src
  | snoc (p : List Edge) (u : String) (edges : List Edge) (edge : Edge) :
      IsPath g incidents vehicle src p u →
      mapFind g.adjList u = some edges → edge ∈ edges →
      edgeUsable g incidents vehicle u edge = true →
      IsPath g incidents vehicle src (p ++ [edge]) edge.destination

/-- Every edge leads to a node of the network. -/
def Graph.Closed (g : Graph) : Prop :=
  ∀ u edges edge, mapFind g.adjList u = some edges → edge ∈ edges →
    (mapFind g.adjList edge.destination).isSome = true

/-- No edge has a negative time cost for the vehicle. -/
def Graph.NonnegCosts (g : Graph) (vehicle : Vehicle) : Prop :=
  ∀ u edges edge, mapFind g.adjList u = some edges → edge ∈ edges → 0 ≤ timeCost edge vehicle

/-- Following `parent` from `v` reaches `src`. -/
inductive Rooted (parent : List (String × String)) (src : String) : String → Prop
  | root : Rooted parent src src
  | step {v p : String} : v ≠ src → mapFind parent v = some p → Rooted parent src p →
      Rooted parent src v

/-- The potential that bounds the remaining iterations of the search loop: the queue
length plus the sum of the recorded distances of the nodes. -/
def searchPotential (g : Graph) (st : Search) : Nat :=
  st.pq.length + ((g.adjList.map (fun node => ((mapFind st.dist node.1).getD 0).toNat)).sum)

/-- The facts about `dist` and `parent` that hold whenever the search loop is at its head
or has just left it. -/
structure SearchCore (g : Graph) (incidents : List Incident) (vehicle : Vehicle) (src : String)
    (st : Search) : Prop where
  keys : ∀ x, (mapFind st.dist x).isSome = (mapFind g.adjList x).isSome
  src0 : mapFind st.dist src = some 0
  nonneg : ∀ x d, mapFind st.dist x = some d → 0 ≤ d
  le_max : ∀ x d, mapFind st.dist x = some d → d ≤ INT_MAX
  walk : ∀ x d, mapFind st.dist x = some d → d < INT_MAX →
    ∃ p, IsPath g incidents vehicle src p x ∧ pathCost vehicle p = d
  par : ∀ v p, mapFind st.parent v = some p →
    ∃ dp dv, mapFind st.dist p = some dp ∧ mapFind st.dist v = some dv ∧ dp ≤ dv ∧ dv < INT_MAX
  rooted : ∀ v dv, mapFind st.dist v = some dv → dv < INT_MAX → Rooted st.parent src v

/-- The loop invariant of the search: the core facts, every queue entry is at least the
recorded distance of its node, and every reached node is queued with its distance or has
all its usable edges relaxed. -/
structure SearchInv (g : Graph) (incidents : List Incident) (vehicle : Vehicle) (src : String)
    (st : Search) extends SearchCore g incidents vehicle src st : Prop where
  queued : ∀ d u, (d, u) ∈ st.pq → ∃ du, mapFind st.dist u = some du ∧ du ≤ d ∧ d < INT_MAX
  relaxed : ∀ u du, mapFind st.dist u = some du → du < INT_MAX →
    (du, u) ∈ st.pq ∨
    ∀ edges edge, mapFind g.adjList u = some edges → edge ∈ edges →
      edgeUsable g incidents vehicle u edge = true →
      ∃ dv, mapFind st.dist edge.destination = some dv ∧ dv ≤ du + timeCost edge vehicle

/-- The network invariant kept by every operation whose `addRoad` weights satisfy `P`:
every base weight satisfies `P`, and every edge has a base edge under its own node pair
and leads to a node of the network. -/
structure Graph.WellBased (P : ℚ → Prop) (g : Graph) : Prop where
  base_ok : ∀ k b, mapFind g.baseEdges k = some b → P b.weight
  has_base : ∀ node ∈ g.adjList, ∀ edge ∈ node.2,
    (mapFind g.baseEdges (node.1, edge.destination)).isSome = true
  closed : ∀ node ∈ g.adjList, ∀ edge ∈ node.2,
    (mapFind g.adjList edge.destination).isSome = true

/-- No edge has a negative signal delay or a negative congestion level. -/
def Graph.NonnegFields (g : Graph) : Prop :=
  ∀ node ∈ g.adjList, ∀ edge ∈ node.2, 0 ≤ edge.signalDelay ∧ 0 ≤ edge.congestion

/-- The requirement on the weight of a direct `addRoad` call. -/
def Op.WeightOK (P : ℚ → Prop) : Op → Prop
  | .addRoad _ _ w _ _ => P (w : ℚ)
  | _ => True

/-- The two edges agree in everything but the weight. -/
def Edge.SameButWeight (e e' : Edge) : Prop :=
  e'.destination = e.destination ∧ e'.signalDelay = e.signalDelay ∧ e'.blocked = e.blocked ∧
    e'.congestion = e.congestion ∧ e'.roadType = e.roadType

/-- The two networks have the same base-edge table, the same nodes in the same order and,
position by position, edges that agree in everything but the weight. -/
def Graph.SameButWeights (g g' : Graph) : Prop :=
  g'.baseEdges = g.baseEdges ∧
  List.Forall₂ (fun node node' => node'.1 = node.1 ∧ List.Forall₂ Edge.SameButWeight node.2 node'.2)
    g.adjList g'.adjList

/-- The network of Scenario A: the single road `addRoad("A", "B", 100, 0, "General")`. -/
def scenarioA : Graph := addRoad Graph.empty "A" "B" 100 0 "General"

/-- The vehicle `Vehicle(CAR)`. -/
def car : Vehicle := Vehicle.make VehicleType.CAR false

/-- Two roads between the same nodes: `addRoad("A", "B", 100, 0)` then
`addRoad("A", "B", 200, 0)`. -/
def parallelRoads : Graph :=
  runOps Graph.empty [Op.addRoad "A" "B" 100 0 "General", Op.addRoad "A" "B" 200 0 "General"]

/-- A road of weight 100 followed by a direct `addRoad` call of weight 0 between the same
nodes. -/
def zeroWeightRoads : Graph :=
  runOps Graph.empty [Op.addRoad "A" "B" 100 0 "General", Op.addRoad "A" "B" 0 0 "General"]

/-- The state `st'` comes after `st` in a run of the edge loop: recorded distances only
shrink, a node whose distance shrank is queued with its new distance, and no queue entry
was dropped. -/
def Search.Refines (st st' : Search) : Prop :=
  (∀ x d, mapFind st.dist x = some d →
    ∃ d', mapFind st'.dist x = some d' ∧ d' ≤ d ∧ (d' = d ∨ (d', x) ∈ st'.pq)) ∧
  (∀ y ∈ st.pq, y ∈ st'.pq)

/-- What a validated query must report on the network `g` it searches: "no path" when
every admissible path costs at least `INT_MAX`, and otherwise a route whose total time is
the cost of an admissible path and is at most the cost of every admissible path. -/
def RouteSpec (g : Graph) (incidents : List Incident) (vehicle : Vehicle) (src dest : String)
    (out : Outcome) : Prop :=
  (out = Outcome.noPathFound ∧
    ∀ p, IsPath g incidents vehicle src p dest → INT_MAX ≤ pathCost vehicle p) ∨
  (∃ r, out = Outcome.route r ∧ r.totalTime < INT_MAX ∧
    (∃ p, IsPath g incidents vehicle src p dest ∧ pathCost vehicle p = r.totalTime) ∧
    ∀ p, IsPath g incidents vehicle src p dest → r.totalTime ≤ pathCost vehicle p)

/-- Three roads forming a triangle: A-B and B-C of weight 100, A-C of weight 300. -/
def triangleOps : List Op :=
  [Op.addRoad "A" "B" 100 0 "General", Op.addRoad "B" "C" 100 0 "General",
   Op.addRoad "A" "C" 300 0 "General"]

/-- The single road A-B whose weight is the largest `int`. -/
def maxWeightOps : List Op := [Op.addRoad "A" "B" 2147483647 0 "General"]

/-- The network of Scenario B: the road of Scenario A with the edge A->B blocked. -/
def scenarioBOps : List Op := [Op.addRoad "A" "B" 100 0 "General", Op.manualBlock "A" "B" true]

/-- The network of Scenario C: the single road A-B of type "Bus Lane". -/
def scenarioCOps : List Op := [Op.addRoad "A" "B" 100 0 "Bus Lane"]

/-- The vehicle `Vehicle(BIKE)`. -/
def bike : Vehicle := Vehicle.make VehicleType.BIKE false

/-- The age test of `showActiveIncidents`: `difftime(time(nullptr), i.timestamp) > 300`,
with `now` for the value of `time(nullptr)`. -/
def isExpired (now : Int) (i : Incident) : Bool := decide (now - i.timestamp > 300)

/-- The method `IncidentMonitor::showActiveIncidents` at time `now`: the incidents it
prints, in the order printed, and the store it leaves behind. -/
def showActiveIncidents (now : Int) (incidents : List Incident) : List Incident × List Incident :=
  if incidents.isEmpty then ([], incidents)
  else
    let kept := incidents.filter (fun i => !isExpired now i)
    (kept, kept)

/-- The vector `locations` of `generateIncident`. -/
def incidentLocations : List String :=
  ["Main St", "Highway 1", "Downtown", "Central Bridge", "Suburban Tunnel", "Industrial Zone"]

/-- The vector `types` of `generateIncident`. -/
def incidentTypes : List String :=
  ["🚧 Construction", "🚨 Accident", "💡 Smart Light Outage", "🔧 Roadwork", "🚇 Metro Delay",
   "💧 Flooding"]

/-- The vector `roadTypes` of `generateIncident`. -/
def incidentRoadTypes : List String :=
  ["General", "Bike Lane", "Bus Lane", "Emergency", "Highway", "Bridge", "Tunnel"]

/-- The method `IncidentMonitor::generateIncident` at time `now`; `rand k` is the value of
its `k`-th call of `rand()`. -/
def generateIncident (rand : Nat → Nat) (now : Int) (incidents : List Incident) : List Incident :=
  if rand 0 % 3 = 0 then
    incidents ++
      [{ location := incidentLocations.getD (rand 1 % incidentLocations.length) "",
         type := incidentTypes.getD (rand 2 % incidentTypes.length) "",
         severity := ((rand 3 % 3 + 1 : Nat) : Int),
         timestamp := now,
         roadType := incidentRoadTypes.getD (rand 4 % incidentRoadTypes.length) "" }]
  else incidents

/-- The calls of `Graph::addDefaultRoads`. -/
def defaultRoads : List Op :=
  [Op.addRoad "Downtown" "Midtown" 300 60 "Highway",
   Op.addRoad "Midtown" "Uptown" 400 80 "Highway",
   Op.addRoad "Downtown" "Airport" 500 120 "Highway",
   Op.addRoad "Downtown" "Market St" 120 30 "General",
   Op.addRoad "Market St" "City Hall" 90 20 "General",
   Op.addRoad "City Hall" "Uptown" 180 40 "General",
   Op.addRoad "Downtown" "Residential Area" 150 25 "General",
   Op.addRoad "Market St" "Industrial Zone" 250 50 "General",
   Op.addRoad "Midtown" "Bike Trail" 150 10 "Bike Lane",
   Op.addRoad "City Hall" "Bus Terminal" 200 30 "Bus Lane",
   Op.addRoad "Airport" "Emergency Hospital" 100 10 "Emergency",
   Op.addRoad "Uptown" "Suburban Tunnel" 350 70 "Tunnel",
   Op.addRoad "Residential Area" "Central Bridge" 200 40 "Bridge"]

/-- The count "Total Road Segments" of the statistics case of the menu: the sum of the
lengths of the adjacency lists. -/
def totalEdges (g : Graph) : Nat := (g.adjList.map (fun nodePair => nodePair.2.length)).sum

/-- Whether the operation is a direct call of `addRoad`. -/
def Op.isAddRoad : Op → Bool
  | .addRoad _ _ _ _ _ => true
  | _ => false

/-- The keys of the association list are in strictly increasing order, as those of a
`std::map` are. -/
def KeysSorted {α : Type} (m : List (String × α)) : Prop :=
  List.Pairwise (fun a b => strLt a.1 b.1 = true) m

/-- Draws of `rand()` that make `generateIncident` create an incident at "Downtown"
affecting "General" roads. -/
def downtownDraws : Nat → Nat
  | 1 => 2
  | 2 => 1
  | _ => 0

/-- The road A-B added twice, first as a "Bus Lane", then as a "Highway". -/
def busLaneThenHighway : List Op :=
  [Op.addRoad "A" "B" 100 0 "Bus Lane", Op.addRoad "A" "B" 100 0 "Highway"]

/-- The pieces joined again, with a comma between neighbours. -/
def joinWithCommas : List (List Char) → List Char
  | [] => []
  | [t] => t
  | t :: u :: rest => t ++ ',' :: joinWithCommas (u :: rest)

/-- The road types each vehicle kind lists in its `allowedRoads`. -/
def builtinRoads : VehicleType → List String
  | .CAR => ["General", "Highway", "Bridge", "Tunnel"]
  | .BIKE => ["General", "Bike Lane", "Highway", "Bridge", "Tunnel"]
  | .BUS => ["General", "Bus Lane", "Highway", "Bridge", "Tunnel"]
  | .AMBULANCE => ["General", "Emergency", "Highway", "Bridge", "Tunnel"]
  | .POLICE => ["General", "Emergency", "Highway", "Bridge", "Tunnel"]
  | .FIRE_TRUCK => ["General", "Emergency", "Highway", "Bridge", "Tunnel"]

/-- A vehicle whose `allowedRoads` is "Alley,General": no entry is "All". -/
def alleyVehicle : Vehicle :=
  ⟨VehicleType.CAR, "Car", 1, toDouble (7 / 10), false, "🚗", "Alley,General"⟩

/-- Every directed edge of the network has a mirror edge: an edge `x → y` in the list of `x`
comes with an edge `y → x` in the list of `y` that has the same weight, signal delay and road
type. -/
def Graph.Mirrored (g : Graph) : Prop :=
  ∀ x edges, mapFind g.adjList x = some edges → ∀ e ∈ edges,
    ∃ back, mapFind g.adjList e.destination = some back ∧
      ∃ m ∈ back, m.destination = x ∧ m.weight = e.weight ∧ m.signalDelay = e.signalDelay ∧
        m.roadType = e.roadType

/-- Two roads between the same pair of nodes and a loop road, added by direct calls. -/
def mixedRoads : List Op :=
  [Op.addRoad "A" "B" 100 0 "General", Op.addRoad "A" "B" 50 3 "Highway",
   Op.addRoad "C" "C" 7 1 "Bridge"]

/-- The vehicle `Vehicle(AMBULANCE, true)` of `EmergencyRoute`. -/
def ambulance : Vehicle := Vehicle.make VehicleType.AMBULANCE true

/-- The comparison operation for the rush-hour case, over the edges of one node: the same
draws of `rand()` give the same congestion levels, and the weights are left as they are. -/
def congestionOnlyEdges (rand : Nat → Nat) : Nat → List Edge → List Edge
  | _, [] => []
  | k, edge :: rest =>
    { edge with congestion := ((rand k % MAX_CONGESTION + 1 : Nat) : Int) }
      :: congestionOnlyEdges rand (k + 1) rest

/-- The comparison operation for the rush-hour case, over the nodes. -/
def congestionOnlyNodes (rand : Nat → Nat) :
    Nat → List (String × List Edge) → List (String × List Edge)
  | _, [] => []
  | k, nodePair :: rest =>
    (nodePair.1, congestionOnlyEdges rand k nodePair.2)
      :: congestionOnlyNodes rand (k + nodePair.2.length) rest

/-- The comparison operation for the rush-hour case: rush hour that only assigns the
congestion levels and leaves all edge weights untouched. -/
def congestionOnlyRushHour (rand : Nat → Nat) (g : Graph) : Graph :=
  { g with adjList := congestionOnlyNodes rand 0 g.adjList }

/-- The value a 32-bit two's-complement `int` holds for the mathematical result `x` of a sum:
`x` itself when it lies in the range of `int`, and `x` reduced modulo 2^32 into that range
otherwise. -/
def wrapInt (x : Int) : Int := (x + 2147483648) % 4294967296 - 2147483648

/-- The body of the edge loop of `shortestPath` for one edge, with the sum
`dist.at(u) + timeCost` computed in 32-bit `int` arithmetic; `none` when a `dist.at`
throws. -/
def relaxEdge32 (g : Graph) (incidents : List Incident) (vehicle : Vehicle) (u : String)
    (st : Search) (edge : Edge) : Option Search :=
  if edge.blocked || isBlockedByIncident g incidents u edge then some st
  else if !vehicle.canUseRoad edge.roadType then some st
  else
    match mapFind st.dist u, mapFind st.dist edge.destination with
    | some du, some dv =>
      if wrapInt (du + timeCost edge vehicle) < dv then
        some { dist := mapInsert strLt edge.destination (wrapInt (du + timeCost edge vehicle)) st.dist,
               parent := mapInsert strLt edge.destination u st.parent,
               pq := st.pq ++ [(wrapInt (du + timeCost edge vehicle), edge.destination)] }
      else some st
    | _, _ => none

/-- The edge loop of `shortestPath` in 32-bit `int` arithmetic. -/
def relaxEdges32 (g : Graph) (incidents : List Incident) (vehicle : Vehicle) (u : String) :
    List Edge → Search → Option Search
  | [], st => some st
  | edge :: rest, st =>
    match relaxEdge32 g incidents vehicle u st edge with
    | none => none
    | some st1 => relaxEdges32 g incidents vehicle u rest st1

/-- The loop `while (!pq.empty())` of `shortestPath` in 32-bit `int` arithmetic, run for at
most `fuel` iterations. -/
def dijkstraLoop32 (g : Graph) (incidents : List Incident) (vehicle : Vehicle) (dest : String) :
    Nat → Search → Run Search
  | fuel, st =>
    match pqPop st.pq with
    | none => .ok st
    | some (current, rest) =>
      match fuel with
      | 0 => .fuelOut
      | fuel + 1 =>
        let st1 : Search := { st with pq := rest }
        if current.2 = dest then .ok st1
        else if current.1 > (mapFind st1.dist current.2).getD 0 then
          dijkstraLoop32 g incidents vehicle dest fuel st1
        else
          match mapFind g.adjList current.2 with
          | none => .thrown
          | some edges =>
            match relaxEdges32 g incidents vehicle current.2 edges st1 with
            | none => .thrown
            | some st2 => dijkstraLoop32 g incidents vehicle dest fuel st2

/-- The method `Graph::shortestPath` with the sums of the search in 32-bit `int`
arithmetic; `none` when a loop needs more than `fuel` iterations. -/
def shortestPath32 (fuel : Nat) (w : World) (src dest : String) (vehicle : Vehicle) :
    Option (Outcome × World) :=
  if src = dest then some (.trivialRoute, w)
  else if (mapFind w.graph.adjList src).isNone then some (.unknownSource, w)
  else if (mapFind w.graph.adjList dest).isNone then some (.unknownDestination, w)
  else
    let g := applyWeatherEffects w.currentWeather w.graph
    let w1 : World := { w with graph := g }
    match dijkstraLoop32 g w.incidents vehicle dest fuel ⟨initDist g src, [], [(0, src)]⟩ with
    | .fuelOut => none
    | .thrown => some (.outOfRange, w1)
    | .ok st =>
      match mapFind st.dist dest with
      | none => some (.outOfRange, w1)
      | some total =>
        if total = INT_MAX then some (.noPathFound, w1)
        else
          match walkParents st.parent src fuel dest with
          | .fuelOut => none
          | .thrown => some (.outOfRange, w1)
          | .ok rev =>
            let path := (rev ++ [src]).reverse
            match segmentTotals g path with
            | none => some (.outOfRange, w1)
            | some (totalDistance, totalToll) =>
              some (.route ⟨path, total, totalToll, totalDistance⟩, w1)

/-- Three roads, one of them of the largest weight an `int` holds: A-B of weight 1, B-C of
weight 2147483647, B-D of weight 1. -/
def heavyRoadOps : List Op :=
  [Op.addRoad "A" "B" 1 0 "General", Op.addRoad "B" "C" 2147483647 0 "General",
   Op.addRoad "B" "D" 1 0 "General"]

/-! ## The query in machine arithmetic

The definitions of this section follow the same source lines as those of the route search
above, with every `double` operation rounded (`toDouble`), the conversion
`static_cast<int>` and the `int` sum `dist.at(u) + timeCost` taken in 32 bits. -/

/-- The function `getWeatherMultiplier`, its literals being the `double` values stored for
them. -/
def getWeatherMultiplierMachine (currentWeather : WeatherType) : ℚ :=
  match currentWeather with
  | .SUNNY => 1
  | .RAIN => toDouble (85 / 100)
  | .SNOW => toDouble (7 / 10)
  | .FOG => toDouble (8 / 10)
  | .STORM => toDouble (6 / 10)

/-- The body of the edge loop of `Graph::applyWeatherEffects` for one edge of `node`, the
division being the one of `double`. -/
def weatherEdgeMachine (weatherMult : ℚ) (g : Graph) (node : String) (edge : Edge) : Edge :=
  let originalBaseWeight := originalWeight g node edge.destination
  let originalBaseWeight := if originalBaseWeight = 0 then edge.weight else originalBaseWeight
  { edge with weight := ddiv originalBaseWeight weatherMult }

/-- The body of `Graph::applyWeatherEffects` in `double` arithmetic, for a given value of
`weatherMult`. -/
def applyWeatherMultMachine (weatherMult : ℚ) (g : Graph) : Graph :=
  { g with
    adjList := g.adjList.map (fun nodePair =>
      (nodePair.1, nodePair.2.map (weatherEdgeMachine weatherMult g nodePair.1))) }

/-- The method `Graph::applyWeatherEffects` in `double` arithmetic. -/
def applyWeatherEffectsMachine (currentWeather : WeatherType) (g : Graph) : Graph :=
  applyWeatherMultMachine (getWeatherMultiplierMachine currentWeather) g

/-- The `double` value `(effectiveWeight + edge.signalDelay) / vehicle.speedMultiplier` that
`shortestPath` converts to `timeCost`, every operation rounded. -/
def costDouble (edge : Edge) (vehicle : Vehicle) : ℚ :=
  let effectiveWeight := edge.weight
  let effectiveWeight :=
    dmul effectiveWeight (dadd 1 (dmul (edge.congestion : ℚ) (toDouble (1 / 10))))
  ddiv (dadd effectiveWeight (edge.signalDelay : ℚ)) vehicle.speedMultiplier

/-- The conversion `static_cast<int>(x)` of a `double` to a 32-bit `int`: truncation toward
zero when the result fits; otherwise the conversion is undefined in C++, and the value
given here is the one the x86-64 conversion instruction returns. -/
def castInt (x : ℚ) : Int :=
  if INT_MIN ≤ truncToInt x ∧ truncToInt x ≤ INT_MAX then truncToInt x else INT_MIN

/-- The value `timeCost` computed for an edge in `shortestPath`, in machine arithmetic. -/
def timeCostMachine (edge : Edge) (vehicle : Vehicle) : Int :=
  castInt (costDouble edge vehicle)

/-- The body of the edge loop of `shortestPath` for one edge in machine arithmetic; `none`
when a `dist.at` throws. -/
def relaxEdgeMachine (g : Graph) (incidents : List Incident) (vehicle : Vehicle) (u : String)
    (st : Search) (edge : Edge) : Option Search :=
  if edge.blocked || isBlockedByIncident g incidents u edge then some st
  else if !vehicle.canUseRoad edge.roadType then some st
  else
    match mapFind st.dist u, mapFind st.dist edge.destination with
    | some du, some dv =>
      if wrapInt (du + timeCostMachine edge vehicle) < dv then
        some { dist := mapInsert strLt edge.destination
                 (wrapInt (du + timeCostMachine edge vehicle)) st.dist,
               parent := mapInsert strLt edge.destination u st.parent,
               pq := st.pq ++ [(wrapInt (du + timeCostMachine edge vehicle), edge.destination)] }
      else some st
    | _, _ => none

/-- The edge loop of `shortestPath` in machine arithmetic. -/
def relaxEdgesMachine (g : Graph) (incidents : List Incident) (vehicle : Vehicle) (u : String) :
    List Edge → Search → Option Search
  | [], st => some st
  | edge :: rest, st =>
    match relaxEdgeMachine g incidents vehicle u st edge with
    | none => none
    | some st1 => relaxEdgesMachine g incidents vehicle u rest st1

/-- The loop `while (!pq.empty())` of `shortestPath` in machine arithmetic, run for at most
`fuel` iterations. -/
def dijkstraLoopMachine (g : Graph) (incidents : List Incident) (vehicle : Vehicle)
    (dest : String) : Nat → Search → Run Search
  | fuel, st =>
    match pqPop st.pq with
    | none => .ok st
    | some (current, rest) =>
      match fuel with
      | 0 => .fuelOut
      | fuel + 1 =>
        let st1 : Search := { st with pq := rest }
        if current.2 = dest then .ok st1
        else if current.1 > (mapFind st1.dist current.2).getD 0 then
          dijkstraLoopMachine g incidents vehicle dest fuel st1
        else
          match mapFind g.adjList current.2 with
          | none => .thrown
          | some edges =>
            match relaxEdgesMachine g incidents vehicle current.2 edges st1 with
            | none => .thrown
            | some st2 => dijkstraLoopMachine g incidents vehicle dest fuel st2

/-- The totals loop of `shortestPath` in machine arithmetic, from the totals accumulated so
far: `totalDistance += segmentDistance` is a rounded `double` sum, taken segment by segment
in the order of the path. -/
def segmentTotalsMachine (g : Graph) : List String → ℚ × Int → Option (ℚ × Int)
  | [], totals => some totals
  | [_], totals => some totals
  | a :: b :: rest, totals =>
    match mapFind g.adjList a with
    | none => none
    | some edges =>
      match edges.find? (fun edge => decide (edge.destination = b)) with
      | none => segmentTotalsMachine g (b :: rest) totals
      | some edge =>
        let toll := getTollFee edge.roadType
        segmentTotalsMachine g (b :: rest)
          (dadd totals.1 (originalWeight g a edge.destination),
           totals.2 + (if toll > 0 then toll else 0))

/-- The method `Graph::shortestPath` in machine arithmetic; `none` when a loop needs more
than `fuel` iterations. -/
def shortestPathMachine (fuel : Nat) (w : World) (src dest : String) (vehicle : Vehicle) :
    Option (Outcome × World) :=
  if src = dest then some (.trivialRoute, w)
  else if (mapFind w.graph.adjList src).isNone then some (.unknownSource, w)
  else if (mapFind w.graph.adjList dest).isNone then some (.unknownDestination, w)
  else
    let g := applyWeatherEffectsMachine w.currentWeather w.graph
    let w1 : World := { w with graph := g }
    match dijkstraLoopMachine g w.incidents vehicle dest fuel ⟨initDist g src, [], [(0, src)]⟩ with
    | .fuelOut => none
    | .thrown => some (.outOfRange, w1)
    | .ok st =>
      match mapFind st.dist dest with
      | none => some (.outOfRange, w1)
      | some total =>
        if total = INT_MAX then some (.noPathFound, w1)
        else
          match walkParents st.parent src fuel dest with
          | .fuelOut => none
          | .thrown => some (.outOfRange, w1)
          | .ok rev =>
            let path := (rev ++ [src]).reverse
            match segmentTotalsMachine g path (0, 0) with
            | none => some (.outOfRange, w1)
            | some (totalDistance, totalToll) =>
              some (.route ⟨path, total, totalToll, totalDistance⟩, w1)

/-- The cost of a sequence of edges in machine arithmetic, as an exact sum. -/
def pathCostMachine (vehicle : Vehicle) (p : List Edge) : Int :=
  (p.map (fun edge => timeCostMachine edge vehicle)).sum

/-- Every edge's time cost for the vehicle fits an `int`: the conversion
`static_cast<int>` is defined for it. -/
def Graph.CostsFit (g : Graph) (vehicle : Vehicle) : Prop :=
  ∀ u edges edge, mapFind g.adjList u = some edges → edge ∈ edges →
    truncToInt (costDouble edge vehicle) ≤ INT_MAX

/-- Whether the sum `dist.at(u) + timeCost` that one pass of the edge-loop body takes stays
in the range of `int` (a pass that skips the edge takes no sum). -/
def edgeInRange (g : Graph) (incidents : List Incident) (vehicle : Vehicle) (u : String)
    (st : Search) (edge : Edge) : Bool :=
  if edge.blocked || isBlockedByIncident g incidents u edge then true
  else if !vehicle.canUseRoad edge.roadType then true
  else
    match mapFind st.dist u with
    | some du =>
      decide (INT_MIN ≤ du + timeCostMachine edge vehicle) &&
        decide (du + timeCostMachine edge vehicle ≤ INT_MAX)
    | none => true

/-- Whether every sum taken by the edge loop over `edges`, started in `st`, stays in the
range of `int`. -/
def edgesInRange (g : Graph) (incidents : List Incident) (vehicle : Vehicle) (u : String) :
    List Edge → Search → Bool
  | [], _ => true
  | edge :: rest, st =>
    edgeInRange g incidents vehicle u st edge &&
      match relaxEdgeMachine g incidents vehicle u st edge with
      | none => true
      | some st1 => edgesInRange g incidents vehicle u rest st1

/-- Whether every sum `dist.at(u) + timeCost` taken in the first `fuel` iterations of the
search loop, started in `st`, stays in the range of `int`: int arithmetic does not
overflow. -/
def sumsInRange (g : Graph) (incidents : List Incident) (vehicle : Vehicle) (dest : String) :
    Nat → Search → Bool
  | fuel, st =>
    match pqPop st.pq with
    | none => true
    | some (current, rest) =>
      match fuel with
      | 0 => true
      | fuel + 1 =>
        let st1 : Search := { st with pq := rest }
        if current.2 = dest then true
        else if current.1 > (mapFind st1.dist current.2).getD 0 then
          sumsInRange g incidents vehicle dest fuel st1
        else
          match mapFind g.adjList current.2 with
          | none => true
          | some edges =>
            edgesInRange g incidents vehicle current.2 edges st1 &&
              match relaxEdgesMachine g incidents vehicle current.2 edges st1 with
              | none => true
              | some st2 => sumsInRange g incidents vehicle dest fuel st2

/-- The edge with its machine time cost for the vehicle as its weight, and no congestion or
signal delay: the exact cost of this edge at speed 1 is the machine cost of the given
one. -/
def costEdge (vehicle : Vehicle) (edge : Edge) : Edge :=
  { edge with weight := (timeCostMachine edge vehicle : ℚ), congestion := 0, signalDelay := 0 }

/-- The network with every edge replaced by its `costEdge`. -/
def costGraph (vehicle : Vehicle) (g : Graph) : Graph :=
  { g with adjList := g.adjList.map (fun nodePair =>
      (nodePair.1, nodePair.2.map (costEdge vehicle))) }

/-- The vehicle with the speed multiplier 1 and everything else as given. -/
def unitSpeed (vehicle : Vehicle) : Vehicle := { vehicle with speedMultiplier := 1 }

/-- Whether the loop ended within its step budget without a failing lookup. -/
def Run.isOk {α : Type} : Run α → Bool
  | .ok _ => true
  | _ => false

/-! ## Theorems -/

/-! ### Association lists -/

theorem mapFind_mapInsert {κ α : Type} [DecidableEq κ] (lt : κ → κ → Bool) (k : κ) (v : α)
    (m : List (κ × α)) (k' : κ) :
    mapFind (mapInsert lt k v m) k' = if k' = k then some v else mapFind m k' := by
  induction m with
  | nil => simp [mapInsert, mapFind]
  | cons hd tl ih =>
    obtain ⟨k0, v0⟩ := hd
    simp only [mapInsert]
    by_cases h1 : k = k0
    · subst h1
      simp only [if_true, mapFind]
      split <;> rfl
    · simp only [h1, if_false]
      by_cases h2 : lt k k0 = true
      · simp only [h2, if_true, mapFind]
      · simp only [h2, mapFind, ih]
        by_cases h3 : k' = k0
        · subst h3
          have : ¬ k' = k := fun h => h1 h.symm
          simp [this]
        · simp [h3]

theorem mapFind_map_snd {κ α β : Type} [DecidableEq κ] (f : κ → α → β) (m : List (κ × α))
    (k : κ) :
    mapFind (m.map (fun p => (p.1, f p.1 p.2))) k = (mapFind m k).map (f k) := by
  induction m with
  | nil => rfl
  | cons hd tl ih =>
    obtain ⟨k0, v0⟩ := hd
    simp only [List.map, mapFind]
    by_cases h : k = k0
    · subst h; simp
    · simp [h, ih]

theorem mapFind_mem {κ α : Type} [DecidableEq κ] (m : List (κ × α)) (k : κ) (v : α)
    (h : mapFind m k = some v) : (k, v) ∈ m := by
  induction m with
  | nil => simp [mapFind] at h
  | cons hd tl ih =>
    obtain ⟨k0, v0⟩ := hd
    simp only [mapFind] at h
    by_cases h1 : k = k0
    · subst h1
      simp only [if_true, Option.some.injEq] at h
      subst h
      exact List.mem_cons_self _ _
    · simp only [h1, if_false] at h
      exact List.mem_cons_of_mem _ (ih h)

theorem mapFind_pushEdge (adj : List (String × List Edge)) (u : String) (e : Edge) (x : String) :
    mapFind (pushEdge adj u e) x
      = if x = u then some ((mapFind adj u).getD [] ++ [e]) else mapFind adj x := by
  simp [pushEdge, mapFind_mapInsert]

theorem mapFind_rushHourNodes (g : Graph) (rand : Nat → Nat) (adj : List (String × List Edge))
    (k : Nat) (x : String) :
    ∃ k', mapFind (rushHourNodes g rand k adj) x
      = (mapFind adj x).map (rushHourEdges g rand x k') := by
  induction adj generalizing k with
  | nil => exact ⟨0, rfl⟩
  | cons hd tl ih =>
    obtain ⟨n, es⟩ := hd
    simp only [rushHourNodes, mapFind]
    by_cases h : x = n
    · subst h
      exact ⟨k, by simp⟩
    · simp only [h, if_false]
      exact ih _

theorem mapFind_applyWeatherMult (m : ℚ) (g : Graph) (x : String) :
    mapFind (applyWeatherMult m g).adjList x
      = (mapFind g.adjList x).map (List.map (weatherEdge m g x)) := by
  simp only [applyWeatherMult]
  exact mapFind_map_snd (fun n es => es.map (weatherEdge m g n)) g.adjList x

theorem mapFind_setEdgeBlocked (g : Graph) (u : String) (i : Nat) (b : Bool) (x : String) :
    mapFind (setEdgeBlocked g u i b).adjList x
      = (mapFind g.adjList x).map (fun es => if x = u then setBlockedAt b i es else es) := by
  simp only [setEdgeBlocked]
  exact mapFind_map_snd (fun n es => if n = u then setBlockedAt b i es else es) g.adjList x

theorem mem_setBlockedAt (b : Bool) (i : Nat) (es : List Edge) (e' : Edge)
    (h : e' ∈ setBlockedAt b i es) : ∃ e ∈ es, e' = e ∨ e' = { e with blocked := b } := by
  induction es generalizing i with
  | nil => simp [setBlockedAt] at h
  | cons hd tl ih =>
    cases i with
    | zero =>
      simp only [setBlockedAt, List.mem_cons] at h
      rcases h with h | h
      · exact ⟨hd, List.mem_cons_self _ _, Or.inr h⟩
      · exact ⟨e', List.mem_cons_of_mem _ h, Or.inl rfl⟩
    | succ j =>
      simp only [setBlockedAt, List.mem_cons] at h
      rcases h with h | h
      · exact ⟨hd, List.mem_cons_self _ _, Or.inl h⟩
      · obtain ⟨e, he, hh⟩ := ih j h
        exact ⟨e, List.mem_cons_of_mem _ he, hh⟩

theorem mapFind_manualBlock (g : Graph) (u v : String) (b : Bool) (x : String) :
    mapFind (manualBlock g u v b).adjList x
      = (mapFind g.adjList x).map (fun es =>
          if x = u then es.map (fun edge =>
            if edge.destination = v then { edge with blocked := b } else edge)
          else es) := by
  simp only [manualBlock]
  exact mapFind_map_snd (fun n es => if n = u then es.map (fun edge =>
    if edge.destination = v then { edge with blocked := b } else edge) else es) g.adjList x

theorem mem_manualBlock (g : Graph) (u v : String) (b : Bool)
    (node : String × List Edge) (hn : node ∈ (manualBlock g u v b).adjList) (e' : Edge)
    (he : e' ∈ node.2) :
    ∃ node0 ∈ g.adjList, node0.1 = node.1 ∧ ∃ e ∈ node0.2, e' = e ∨ e' = { e with blocked := b } := by
  simp only [manualBlock, List.mem_map] at hn
  obtain ⟨node0, hn0, rfl⟩ := hn
  simp only at he
  split_ifs at he
  · simp only [List.mem_map] at he
    obtain ⟨e, he0, hh⟩ := he
    refine ⟨node0, hn0, rfl, e, he0, ?_⟩
    split_ifs at hh
    · exact Or.inr hh.symm
    · exact Or.inl hh.symm
  · exact ⟨node0, hn0, rfl, e', he, Or.inl rfl⟩

theorem addRoad_adjList_find (g : Graph) (u v : String) (w sd : Int) (rt : String) (x : String)
    (hu : x ≠ u) (hv : x ≠ v) :
    mapFind (addRoad g u v w sd rt).adjList x = mapFind g.adjList x := by
  simp [addRoad, mapFind_pushEdge, hu, hv]

theorem menuAddRoad_cases (g : Graph) (u v : String) (w sd : Int) (type : String) :
    menuAddRoad g u v w sd type = g ∨
    (0 < w ∧ 0 ≤ sd ∧
      menuAddRoad g u v w sd type = addRoad g u v w sd (if type = "" then "General" else type)) := by
  unfold menuAddRoad
  split_ifs <;> first | exact Or.inl rfl | (right; refine ⟨by omega, by omega, rfl⟩)

theorem Op.apply_find_isSome (g : Graph) (op : Op) (x : String) (hx : x ∉ op.names) :
    (mapFind (op.apply g).adjList x).isSome = (mapFind g.adjList x).isSome := by
  cases op with
  | addRoad u v w sd rt =>
    simp only [Op.names, List.mem_cons, List.mem_singleton, not_or, List.not_mem_nil,
      or_false] at hx
    simp only [Op.apply]
    rw [addRoad_adjList_find g u v w sd rt x hx.1 hx.2]
  | menuAddRoad u v w sd type =>
    simp only [Op.names, List.mem_cons, List.mem_singleton, not_or, List.not_mem_nil,
      or_false] at hx
    simp only [Op.apply]
    rcases menuAddRoad_cases g u v w sd type with h | ⟨_, _, h⟩
    · rw [h]
    · rw [h, addRoad_adjList_find g u v w sd _ x hx.1 hx.2]
  | rushHour rand =>
    simp only [Op.apply, applyRushHour]
    obtain ⟨k', hk⟩ := mapFind_rushHourNodes g rand g.adjList 0 x
    rw [hk]; simp
  | weather m =>
    simp only [Op.apply, mapFind_applyWeatherMult]
    simp
  | manualBlock u v b =>
    simp only [Op.apply, mapFind_manualBlock]
    simp

theorem runOps_find_none (ops : List Op) (g : Graph) (x : String)
    (hx : x ∉ ops.flatMap Op.names) (hg : mapFind g.adjList x = none) :
    mapFind (runOps g ops).adjList x = none := by
  induction ops generalizing g with
  | nil => simpa [runOps] using hg
  | cons op rest ih =>
    simp only [List.flatMap_cons, List.mem_append, not_or] at hx
    have h1 := Op.apply_find_isSome g op x hx.1
    rw [hg] at h1
    simp only [runOps, List.foldl_cons]
    apply ih (op.apply g) hx.2
    simpa using h1

/-- C2: a query whose source and destination are the same name ends with the
identical-source-and-destination error for every network, vehicle and name, whatever the
step budget (no search step is run), and the state is returned as it was. -/
theorem shortestPath_same_node (fuel : Nat) (w : World) (x : String) (vehicle : Vehicle) :
    shortestPath fuel w x x vehicle = some (Outcome.trivialRoute, w) := by
  simp [shortestPath]

/-- C3: for a network built by any operations from the empty one, a query between two
different names of which at least one was never passed to `addRoad` ends with the
unknown-node error (for the source when the source is not a node, else for the
destination), whatever the step budget, and the state is returned as it was. -/
theorem shortestPath_unknown_node (ops : List Op) (incidents : List Incident)
    (currentWeather : WeatherType) (fuel : Nat) (src dest : String) (vehicle : Vehicle)
    (hne : src ≠ dest)
    (hunknown : src ∉ ops.flatMap Op.names ∨ dest ∉ ops.flatMap Op.names) :
    shortestPath fuel ⟨runOps Graph.empty ops, incidents, currentWeather⟩ src dest vehicle
      = some (if (mapFind (runOps Graph.empty ops).adjList src).isNone then Outcome.unknownSource
              else Outcome.unknownDestination,
              ⟨runOps Graph.empty ops, incidents, currentWeather⟩) ∧
    (src ∉ ops.flatMap Op.names → (mapFind (runOps Graph.empty ops).adjList src).isNone = true) := by
  have hsrc : src ∉ ops.flatMap Op.names → mapFind (runOps Graph.empty ops).adjList src = none :=
    fun h => runOps_find_none ops Graph.empty src h rfl
  refine ⟨?_, fun h => by simp [hsrc h]⟩
  unfold shortestPath
  simp only [hne, if_false]
  by_cases hs : (mapFind (runOps Graph.empty ops).adjList src).isNone = true
  · simp [hs]
  · simp only [hs, if_false]
    have hd : mapFind (runOps Graph.empty ops).adjList dest = none := by
      rcases hunknown with h | h
      · exact absurd (by simp [hsrc h]) hs
      · exact runOps_find_none ops Graph.empty dest h rfl
    simp [hd]

/-- C3 at the road TestA-TestB of the unit tests, queried for the unknown destination
"NonExistent" with no step budget at all. -/
theorem shortestPath_unknown_node_witness :
    shortestPath 0 ⟨runOps Graph.empty [Op.addRoad "TestA" "TestB" 100 0 "General"], [],
        WeatherType.SUNNY⟩ "TestA" "NonExistent" (Vehicle.make VehicleType.CAR false)
      = some (if (mapFind (runOps Graph.empty [Op.addRoad "TestA" "TestB" 100 0 "General"]).adjList
                "TestA").isNone then Outcome.unknownSource else Outcome.unknownDestination,
              ⟨runOps Graph.empty [Op.addRoad "TestA" "TestB" 100 0 "General"], [],
                WeatherType.SUNNY⟩) ∧
    ("TestA" ∉ [Op.addRoad "TestA" "TestB" 100 0 "General"].flatMap Op.names →
      (mapFind (runOps Graph.empty [Op.addRoad "TestA" "TestB" 100 0 "General"]).adjList
        "TestA").isNone = true) :=
  shortestPath_unknown_node [Op.addRoad "TestA" "TestB" 100 0 "General"] [] WeatherType.SUNNY 0
    "TestA" "NonExistent" (Vehicle.make VehicleType.CAR false) (by decide) (Or.inr (by decide))

theorem Graph.sameButWeights_refl (g : Graph) : g.SameButWeights g := by
  refine ⟨rfl, ?_⟩
  rw [List.forall₂_same]
  intro node _
  refine ⟨rfl, ?_⟩
  rw [List.forall₂_same]
  intro e _
  exact ⟨rfl, rfl, rfl, rfl, rfl⟩

theorem applyWeatherMult_sameButWeights (m : ℚ) (g : Graph) :
    g.SameButWeights (applyWeatherMult m g) := by
  refine ⟨rfl, ?_⟩
  simp only [applyWeatherMult]
  rw [List.forall₂_map_right_iff, List.forall₂_same]
  intro node _
  refine ⟨rfl, ?_⟩
  rw [List.forall₂_map_right_iff, List.forall₂_same]
  intro e _
  exact ⟨rfl, rfl, rfl, rfl, rfl⟩

/-- C9 (as amended): a query never touches the incident store, the current weather or the
base-edge table, and leaves every edge's destination, signal delay, blocked flag,
congestion and road type as they were. A query that fails validation (same names, unknown
source, unknown destination) returns the whole state unchanged; every other query returns
the network rewritten by `applyWeatherEffects`, which recomputes the edge weights. -/
theorem shortestPath_frame (fuel : Nat) (w : World) (src dest : String) (vehicle : Vehicle)
    (out : Outcome) (w' : World)
    (h : shortestPath fuel w src dest vehicle = some (out, w')) :
    w'.incidents = w.incidents ∧ w'.currentWeather = w.currentWeather ∧
    w.graph.SameButWeights w'.graph ∧
    ((out = Outcome.trivialRoute ∨ out = Outcome.unknownSource ∨ out = Outcome.unknownDestination)
      → w' = w) ∧
    ((out = Outcome.noPathFound ∨ out = Outcome.outOfRange ∨ ∃ r, out = Outcome.route r)
      → w'.graph = applyWeatherEffects w.currentWeather w.graph) := by
  unfold shortestPath at h
  have hW : w.graph.SameButWeights (applyWeatherEffects w.currentWeather w.graph) :=
    applyWeatherMult_sameButWeights _ _
  split_ifs at h with h1 h2 h3
  · cases h; exact ⟨rfl, rfl, Graph.sameButWeights_refl _, fun _ => rfl, by simp⟩
  · cases h; exact ⟨rfl, rfl, Graph.sameButWeights_refl _, fun _ => rfl, by simp⟩
  · cases h; exact ⟨rfl, rfl, Graph.sameButWeights_refl _, fun _ => rfl, by simp⟩
  · simp only at h
    split at h
    · cases h
    · cases h; exact ⟨rfl, rfl, hW, by simp, by simp⟩
    · split at h
      · cases h; exact ⟨rfl, rfl, hW, by simp, by simp⟩
      · split_ifs at h
        · cases h; exact ⟨rfl, rfl, hW, by simp, by simp⟩
        · split at h
          · cases h
          · cases h; exact ⟨rfl, rfl, hW, by simp, by simp⟩
          · split at h
            · cases h; exact ⟨rfl, rfl, hW, by simp, by simp⟩
            · cases h; exact ⟨rfl, rfl, hW, by simp, by simp⟩

/-- C9 (as amended) at Scenario A under STORM weather: the query returns the network
rewritten by the weather, which agrees with the old one in everything but the weights. -/
theorem shortestPath_frame_witness :
    shortestPath 5 ⟨scenarioA, [], WeatherType.STORM⟩ "A" "B" car
      = some (Outcome.route ⟨["A", "B"], 166, 0, 100⟩,
              ⟨applyWeatherEffects WeatherType.STORM scenarioA, [], WeatherType.STORM⟩) ∧
    scenarioA.SameButWeights (applyWeatherEffects WeatherType.STORM scenarioA) :=
  ⟨by decide!,
   (shortestPath_frame 5 ⟨scenarioA, [], WeatherType.STORM⟩ "A" "B" car
      (Outcome.route ⟨["A", "B"], 166, 0, 100⟩)
      ⟨applyWeatherEffects WeatherType.STORM scenarioA, [], WeatherType.STORM⟩
      (by decide!)).2.2.1⟩

/-- C9 (the claim as stated fails): under STORM weather a successful query on the network
of the single road A-B (weight 100) returns a network in which the weight of the edge A->B
is 500/3, not 100 as it was before the call. -/
theorem shortestPath_changes_weights :
    mapFind scenarioA.adjList "A" = some [⟨"B", 100, 0, false, 0, "General"⟩] ∧
    ∃ out w', shortestPath 5 ⟨scenarioA, [], WeatherType.STORM⟩ "A" "B" car = some (out, w') ∧
      mapFind w'.graph.adjList "A" = some [⟨"B", 500 / 3, 0, false, 0, "General"⟩] ∧
      w'.graph ≠ scenarioA :=
  ⟨by decide!, Outcome.route ⟨["A", "B"], 166, 0, 100⟩,
   ⟨applyWeatherEffects WeatherType.STORM scenarioA, [], WeatherType.STORM⟩,
   by decide!, by decide!, by decide!⟩

/-! ### The network invariant under the operations -/

theorem mem_mapInsert {κ α : Type} [DecidableEq κ] (lt : κ → κ → Bool) (k : κ) (v : α)
    (m : List (κ × α)) (p : κ × α) (h : p ∈ mapInsert lt k v m) : p = (k, v) ∨ p ∈ m := by
  induction m with
  | nil => simpa [mapInsert] using h
  | cons hd tl ih =>
    obtain ⟨k0, v0⟩ := hd
    simp only [mapInsert] at h
    split_ifs at h with h1 h2
    · rcases List.mem_cons.mp h with h | h
      · exact Or.inl h
      · exact Or.inr (List.mem_cons_of_mem _ h)
    · rcases List.mem_cons.mp h with h | h
      · exact Or.inl h
      · exact Or.inr h
    · rcases List.mem_cons.mp h with h | h
      · exact Or.inr (h ▸ List.mem_cons_self _ _)
      · rcases ih h with h | h
        · exact Or.inl h
        · exact Or.inr (List.mem_cons_of_mem _ h)

theorem mem_pushEdge (adj : List (String × List Edge)) (u0 : String) (e0 : Edge)
    (node : String × List Edge) (e : Edge) (hn : node ∈ pushEdge adj u0 e0) (he : e ∈ node.2) :
    (node.1 = u0 ∧ e = e0) ∨ ∃ node0 ∈ adj, node0.1 = node.1 ∧ e ∈ node0.2 := by
  rcases mem_mapInsert _ _ _ _ _ hn with h | h
  · subst h
    simp only [List.mem_append, List.mem_singleton] at he
    rcases he with he | he
    · right
      cases hf : mapFind adj u0 with
      | none => simp [hf] at he
      | some old =>
        simp only [hf, Option.getD_some] at he
        exact ⟨(u0, old), mapFind_mem _ _ _ hf, rfl, he⟩
    · exact Or.inl ⟨rfl, he⟩
  · exact Or.inr ⟨node, h, rfl, he⟩

theorem mem_rushHourEdges (g : Graph) (rand : Nat → Nat) (n : String) (k : Nat) (es : List Edge)
    (e' : Edge) (h : e' ∈ rushHourEdges g rand n k es) :
    ∃ e ∈ es, ∃ j, e' = { e with
      weight := (if originalWeight g n e.destination = 0 then e.weight
                 else originalWeight g n e.destination) * (3 / 2),
      congestion := ((rand j % MAX_CONGESTION + 1 : Nat) : Int) } := by
  induction es generalizing k with
  | nil => simp [rushHourEdges] at h
  | cons hd tl ih =>
    simp only [rushHourEdges, List.mem_cons] at h
    rcases h with h | h
    · exact ⟨hd, List.mem_cons_self _ _, k, h⟩
    · obtain ⟨e, he, j, hj⟩ := ih _ h
      exact ⟨e, List.mem_cons_of_mem _ he, j, hj⟩

theorem mem_rushHourNodes (g : Graph) (rand : Nat → Nat) (k : Nat)
    (adj : List (String × List Edge)) (node' : String × List Edge)
    (h : node' ∈ rushHourNodes g rand k adj) :
    ∃ node ∈ adj, ∃ j, node' = (node.1, rushHourEdges g rand node.1 j node.2) := by
  induction adj generalizing k with
  | nil => simp [rushHourNodes] at h
  | cons hd tl ih =>
    simp only [rushHourNodes, List.mem_cons] at h
    rcases h with h | h
    · exact ⟨hd, List.mem_cons_self _ _, k, h⟩
    · obtain ⟨node, hn, j, hj⟩ := ih _ h
      exact ⟨node, List.mem_cons_of_mem _ hn, j, hj⟩

theorem addRoad_wellBased (P : ℚ → Prop) (g : Graph) (u v : String) (w sd : Int) (rt : String)
    (hw : P (w : ℚ)) (hg : g.WellBased P) : (addRoad g u v w sd rt).WellBased P := by
  have hbase : ∀ k, (mapFind g.baseEdges k).isSome = true →
      (mapFind (addRoad g u v w sd rt).baseEdges k).isSome = true := by
    intro k hk
    simp only [addRoad, mapFind_mapInsert]
    split_ifs <;> simp [hk]
  have hadj : ∀ x, (mapFind g.adjList x).isSome = true →
      (mapFind (addRoad g u v w sd rt).adjList x).isSome = true := by
    intro x hx
    simp only [addRoad, mapFind_pushEdge]
    split_ifs <;> simp [hx]
  have hedge : ∀ node ∈ (addRoad g u v w sd rt).adjList, ∀ e ∈ node.2,
      (node.1 = u ∧ e.destination = v) ∨ (node.1 = v ∧ e.destination = u) ∨
        ∃ node0 ∈ g.adjList, node0.1 = node.1 ∧ e ∈ node0.2 := by
    intro node hn e he
    simp only [addRoad] at hn
    rcases mem_pushEdge _ _ _ node e hn he with ⟨h1, h2⟩ | ⟨node1, hn1, h1, he1⟩
    · exact Or.inr (Or.inl ⟨h1, by rw [h2]; rfl⟩)
    · rcases mem_pushEdge _ _ _ node1 e hn1 he1 with ⟨h3, h4⟩ | ⟨node0, hn0, h3, he0⟩
      · exact Or.inl ⟨h1 ▸ h3, by rw [h4]; rfl⟩
      · exact Or.inr (Or.inr ⟨node0, hn0, h3.trans h1, he0⟩)
  refine ⟨?_, ?_, ?_⟩
  · intro k b hk
    simp only [addRoad, mapFind_mapInsert] at hk
    split_ifs at hk
    · cases hk; simpa [Edge.make] using hw
    · cases hk; simpa [Edge.make] using hw
    · exact hg.base_ok k b hk
  · intro node hn e he
    rcases hedge node hn e he with ⟨h1, h2⟩ | ⟨h1, h2⟩ | ⟨node0, hn0, h1, he0⟩
    · simp only [addRoad, mapFind_mapInsert, h1, h2]
      split_ifs <;> simp
    · simp only [addRoad, mapFind_mapInsert, h1, h2]
      split_ifs <;> simp
    · rw [← h1]
      exact hbase _ (hg.has_base node0 hn0 e he0)
  · intro node hn e he
    rcases hedge node hn e he with ⟨_, h2⟩ | ⟨_, h2⟩ | ⟨node0, hn0, _, he0⟩
    · simp [addRoad, mapFind_pushEdge, h2]
    · simp only [addRoad, mapFind_pushEdge, h2]
      split_ifs <;> simp
    · exact hadj _ (hg.closed node0 hn0 e he0)

theorem applyWeatherMult_wellBased (P : ℚ → Prop) (m : ℚ) (g : Graph) (hg : g.WellBased P) :
    (applyWeatherMult m g).WellBased P := by
  refine ⟨hg.base_ok, ?_, ?_⟩
  · intro node hn e he
    simp only [applyWeatherMult, List.mem_map] at hn
    obtain ⟨node0, hn0, rfl⟩ := hn
    simp only [List.mem_map] at he
    obtain ⟨e0, he0, rfl⟩ := he
    exact hg.has_base node0 hn0 e0 he0
  · intro node hn e he
    simp only [applyWeatherMult, List.mem_map] at hn
    obtain ⟨node0, hn0, rfl⟩ := hn
    simp only [List.mem_map] at he
    obtain ⟨e0, he0, rfl⟩ := he
    rw [mapFind_applyWeatherMult]
    simpa [weatherEdge] using hg.closed node0 hn0 e0 he0

theorem applyRushHour_wellBased (P : ℚ → Prop) (rand : Nat → Nat) (g : Graph)
    (hg : g.WellBased P) : (applyRushHour rand g).WellBased P := by
  have hmem : ∀ node ∈ (applyRushHour rand g).adjList, ∀ e ∈ node.2,
      ∃ node0 ∈ g.adjList, node0.1 = node.1 ∧ ∃ e0 ∈ node0.2, e0.destination = e.destination := by
    intro node hn e he
    obtain ⟨node0, hn0, j, rfl⟩ := mem_rushHourNodes g rand 0 g.adjList node hn
    obtain ⟨e0, he0, i, rfl⟩ := mem_rushHourEdges g rand _ _ _ e he
    exact ⟨node0, hn0, rfl, e0, he0, rfl⟩
  refine ⟨hg.base_ok, ?_, ?_⟩
  · intro node hn e he
    obtain ⟨node0, hn0, h1, e0, he0, h2⟩ := hmem node hn e he
    rw [← h1, ← h2]
    exact hg.has_base node0 hn0 e0 he0
  · intro node hn e he
    obtain ⟨node0, hn0, _, e0, he0, h2⟩ := hmem node hn e he
    obtain ⟨k', hk⟩ := mapFind_rushHourNodes g rand g.adjList 0 e.destination
    simp only [applyRushHour, hk, Option.isSome_map']
    rw [← h2]
    exact hg.closed node0 hn0 e0 he0

theorem manualBlock_wellBased (P : ℚ → Prop) (u v : String) (b : Bool) (g : Graph)
    (hg : g.WellBased P) : (manualBlock g u v b).WellBased P := by
  refine ⟨hg.base_ok, ?_, ?_⟩
  · intro node hn e he
    obtain ⟨node0, hn0, h1, e0, he0, h2⟩ := mem_manualBlock g u v b node hn e he
    have h3 : e.destination = e0.destination := by rcases h2 with h | h <;> rw [h]
    rw [← h1, h3]
    exact hg.has_base node0 hn0 e0 he0
  · intro node hn e he
    obtain ⟨node0, hn0, _, e0, he0, h2⟩ := mem_manualBlock g u v b node hn e he
    have h3 : e.destination = e0.destination := by rcases h2 with h | h <;> rw [h]
    rw [mapFind_manualBlock, h3]
    simpa using hg.closed node0 hn0 e0 he0

theorem Op.apply_wellBased (P : ℚ → Prop) (hP : ∀ w : Int, 0 < w → P (w : ℚ)) (g : Graph)
    (op : Op) (hop : op.WeightOK P) (hg : g.WellBased P) : (op.apply g).WellBased P := by
  cases op with
  | addRoad u v w sd rt => exact addRoad_wellBased P g u v w sd rt hop hg
  | menuAddRoad u v w sd type =>
    simp only [Op.apply]
    rcases menuAddRoad_cases g u v w sd type with h | ⟨hw, _, h⟩
    · rw [h]; exact hg
    · rw [h]; exact addRoad_wellBased P g u v w sd _ (hP w hw) hg
  | rushHour rand => exact applyRushHour_wellBased P rand g hg
  | weather m => exact applyWeatherMult_wellBased P m g hg
  | manualBlock u v b => exact manualBlock_wellBased P u v b g hg

theorem runOps_wellBased (P : ℚ → Prop) (hP : ∀ w : Int, 0 < w → P (w : ℚ)) (ops : List Op)
    (g : Graph) (hops : ∀ op ∈ ops, op.WeightOK P) (hg : g.WellBased P) :
    (runOps g ops).WellBased P := by
  induction ops generalizing g with
  | nil => exact hg
  | cons op rest ih =>
    simp only [runOps, List.foldl_cons]
    exact ih (op.apply g) (fun o ho => hops o (List.mem_cons_of_mem _ ho))
      (Op.apply_wellBased P hP g op (hops op (List.mem_cons_self _ _)) hg)

theorem Graph.empty_wellBased (P : ℚ → Prop) : Graph.empty.WellBased P :=
  ⟨fun _ _ h => by simp [Graph.empty, mapFind] at h,
   fun _ h => by simp [Graph.empty] at h, fun _ h => by simp [Graph.empty] at h⟩

theorem originalWeight_ok (P : ℚ → Prop) (g : Graph) (hg : g.WellBased P)
    (node : String × List Edge) (hn : node ∈ g.adjList) (e : Edge) (he : e ∈ node.2) :
    P (originalWeight g node.1 e.destination) := by
  have h := hg.has_base node hn e he
  cases hb : mapFind g.baseEdges (node.1, e.destination) with
  | none => simp [hb] at h
  | some b =>
    simp only [originalWeight, hb]
    exact hg.base_ok _ b hb

/-! ### The weather rewrite -/

theorem applyWeatherMult_idem_of_wellBased (m : ℚ) (g : Graph)
    (hg : g.WellBased (fun q => q ≠ 0)) :
    applyWeatherMult m (applyWeatherMult m g) = applyWeatherMult m g := by
  have key : (applyWeatherMult m (applyWeatherMult m g)).adjList = (applyWeatherMult m g).adjList := by
    simp only [applyWeatherMult, List.map_map]
    apply List.map_congr_left
    intro node hn
    simp only [Function.comp, List.map_map, Prod.mk.injEq, true_and]
    apply List.map_congr_left
    intro e he
    have h0 := originalWeight_ok _ g hg node hn e he
    simp only [Function.comp, weatherEdge]
    have h1 : originalWeight { adjList := List.map (fun nodePair => (nodePair.1, List.map (weatherEdge m g nodePair.1) nodePair.2)) g.adjList, baseEdges := g.baseEdges } node.1 e.destination
        = originalWeight g node.1 e.destination := rfl
    simp only [h1, h0, if_false]
  calc applyWeatherMult m (applyWeatherMult m g)
      = ⟨(applyWeatherMult m (applyWeatherMult m g)).adjList, g.baseEdges⟩ := rfl
    _ = ⟨(applyWeatherMult m g).adjList, g.baseEdges⟩ := by rw [key]
    _ = applyWeatherMult m g := rfl

/-- C6 (as amended): in every network state reached from the empty network by direct
`addRoad` calls of non-zero weight, add-road requests of the menu (which accepts positive
weights only), rush-hour applications and earlier weather rewrites, rewriting the weights
for a weather multiplier m > 0 twice in a row gives exactly the network that rewriting them
once gives (weights as exact rationals). -/
theorem applyWeather_twice (ops : List Op) (hops : ∀ op ∈ ops, op.WeightOK (fun q => q ≠ 0))
    (m : ℚ) (_hm : 0 < m) :
    applyWeatherMult m (applyWeatherMult m (runOps Graph.empty ops))
      = applyWeatherMult m (runOps Graph.empty ops) :=
  applyWeatherMult_idem_of_wellBased m _
    (runOps_wellBased _ (fun w hw => by exact_mod_cast (ne_of_gt hw)) ops Graph.empty hops
      (Graph.empty_wellBased _))

/-- C6 (as amended) at a history with a rejected menu request, a rush hour, parallel roads
and an earlier weather rewrite, for the STORM multiplier. -/
theorem applyWeather_twice_witness :
    applyWeatherMult (6 / 10) (applyWeatherMult (6 / 10) (runOps Graph.empty
        [Op.addRoad "A" "B" 100 0 "General", Op.menuAddRoad "A" "B" 0 0 "General",
         Op.rushHour (fun k => k), Op.addRoad "A" "B" 200 5 "Highway", Op.weather (7 / 10)]))
      = applyWeatherMult (6 / 10) (runOps Graph.empty
        [Op.addRoad "A" "B" 100 0 "General", Op.menuAddRoad "A" "B" 0 0 "General",
         Op.rushHour (fun k => k), Op.addRoad "A" "B" 200 5 "Highway", Op.weather (7 / 10)]) :=
  applyWeather_twice
    [Op.addRoad "A" "B" 100 0 "General", Op.menuAddRoad "A" "B" 0 0 "General",
     Op.rushHour (fun k => k), Op.addRoad "A" "B" 200 5 "Highway", Op.weather (7 / 10)]
    (by
      intro op hop
      simp only [List.mem_cons, List.mem_singleton, List.not_mem_nil, or_false] at hop
      rcases hop with h | h | h | h | h <;> subst h <;> simp [Op.WeightOK])
    (6 / 10) (by norm_num)

/-- C6 (the claim as stated fails): after `addRoad("A","B",100,0)` and the direct call
`addRoad("A","B",0,0)` the base weight of A-B is 0, the rewrite falls back on the current
weight, and under the STORM multiplier the edge of weight 100 gets 500/3 after one rewrite
and 2500/9 after two. -/
theorem applyWeather_twice_compounds :
    mapFind (applyWeatherEffects WeatherType.STORM zeroWeightRoads).adjList "A"
      = some [⟨"B", 500 / 3, 0, false, 0, "General"⟩, ⟨"B", 0, 0, false, 0, "General"⟩] ∧
    mapFind (applyWeatherEffects WeatherType.STORM
        (applyWeatherEffects WeatherType.STORM zeroWeightRoads)).adjList "A"
      = some [⟨"B", 2500 / 9, 0, false, 0, "General"⟩, ⟨"B", 0, 0, false, 0, "General"⟩] ∧
    applyWeatherMult (6 / 10) (applyWeatherMult (6 / 10) zeroWeightRoads)
      ≠ applyWeatherMult (6 / 10) zeroWeightRoads := by
  refine ⟨by decide!, by decide!, by decide!⟩

/-- C7 (evaluation at the failing input): after `addRoad("A","B",100,0)` and
`addRoad("A","B",200,0)` the weather rewrite under SUNNY weather (multiplier 1) gives both
edges A->B the weight 200, also the edge that was created with weight 100. -/
theorem applyWeather_parallel_roads :
    mapFind parallelRoads.adjList "A"
      = some [⟨"B", 100, 0, false, 0, "General"⟩, ⟨"B", 200, 0, false, 0, "General"⟩] ∧
    mapFind (applyWeatherEffects WeatherType.SUNNY parallelRoads).adjList "A"
      = some [⟨"B", 200, 0, false, 0, "General"⟩, ⟨"B", 200, 0, false, 0, "General"⟩] := by
  refine ⟨by decide!, by decide!⟩

/-- C8 (evaluation at the failing input): after `addRoad("A","B",100,0)` and
`addRoad("A","B",200,0)` every exported row reports the original weight 200, also the rows
of the two edges created with weight 100 (whose current weight is still 100). -/
theorem exportToCSV_parallel_roads :
    exportToCSV parallelRoads
      = [⟨"A", "B", "General", 200, 100, 0, false, 0⟩, ⟨"A", "B", "General", 200, 200, 0, false, 0⟩,
         ⟨"B", "A", "General", 200, 100, 0, false, 0⟩, ⟨"B", "A", "General", 200, 200, 0, false, 0⟩] := by
  decide!

/-! ### The priority queue -/

theorem pqMin_mem (b : Int × String) (xs : List (Int × String)) : pqMin b xs ∈ b :: xs := by
  induction xs generalizing b with
  | nil => simp [pqMin]
  | cons x xs ih =>
    simp only [pqMin]
    have h := ih (if pqLt x b = true then x else b)
    rcases List.mem_cons.mp h with h | h
    · rw [h]
      split_ifs
      · exact List.mem_cons_of_mem _ (List.mem_cons_self _ _)
      · exact List.mem_cons_self _ _
    · exact List.mem_cons_of_mem _ (List.mem_cons_of_mem _ h)

theorem pqMin_le (b : Int × String) (xs : List (Int × String)) :
    ∀ y ∈ b :: xs, (pqMin b xs).1 ≤ y.1 := by
  induction xs generalizing b with
  | nil => intro y hy; simp only [List.mem_singleton] at hy; subst hy; exact le_refl _
  | cons x xs ih =>
    intro y hy
    simp only [pqMin]
    have h := ih (if pqLt x b = true then x else b)
    have hb : (if pqLt x b = true then x else b).1 ≤ b.1 ∧
        (if pqLt x b = true then x else b).1 ≤ x.1 := by
      by_cases hlt : pqLt x b = true
      · rw [if_pos hlt]
        simp only [pqLt, Bool.or_eq_true, decide_eq_true_eq, Bool.and_eq_true] at hlt
        refine ⟨?_, le_refl _⟩
        rcases hlt with h1 | ⟨h1, _⟩ <;> omega
      · rw [if_neg hlt]
        simp only [pqLt, Bool.or_eq_true, decide_eq_true_eq, Bool.and_eq_true, not_or] at hlt
        exact ⟨le_refl _, by omega⟩
    rcases List.mem_cons.mp hy with hy | hy
    · subst hy
      exact le_trans (h _ (List.mem_cons_self _ _)) hb.1
    · rcases List.mem_cons.mp hy with hy | hy
      · subst hy
        exact le_trans (h _ (List.mem_cons_self _ _)) hb.2
      · exact h y (List.mem_cons_of_mem _ hy)

theorem pqPop_some {pq : List (Int × String)} {c : Int × String} {rest : List (Int × String)}
    (h : pqPop pq = some (c, rest)) :
    c ∈ pq ∧ (∀ y ∈ pq, c.1 ≤ y.1) ∧ rest = pq.erase c := by
  cases pq with
  | nil => simp [pqPop] at h
  | cons x xs =>
    simp only [pqPop, Option.some.injEq, Prod.mk.injEq] at h
    obtain ⟨h1, h2⟩ := h
    subst h1
    exact ⟨pqMin_mem x xs, pqMin_le x xs, h2.symm⟩

theorem pqPop_none {pq : List (Int × String)} (h : pqPop pq = none) : pq = [] := by
  cases pq with
  | nil => rfl
  | cons x xs => simp [pqPop] at h

/-! ### The distance map -/

theorem mapFind_initDist (g : Graph) (src x : String) :
    mapFind (initDist g src) x
      = if x = src then some 0 else (mapFind g.adjList x).map (fun _ => INT_MAX) := by
  simp only [initDist, mapFind_mapInsert]
  split_ifs
  · rfl
  · exact mapFind_map_snd (fun _ _ => INT_MAX) g.adjList x

theorem pathCost_snoc (vehicle : Vehicle) (p : List Edge) (e : Edge) :
    pathCost vehicle (p ++ [e]) = pathCost vehicle p + timeCost e vehicle := by
  simp [pathCost]

theorem Search.refines_refl (st : Search) : st.Refines st :=
  ⟨fun _ d h => ⟨d, h, le_refl _, Or.inl rfl⟩, fun _ h => h⟩

theorem Search.refines_trans {a b c : Search} (h1 : a.Refines b) (h2 : b.Refines c) :
    a.Refines c := by
  refine ⟨?_, fun y hy => h2.2 y (h1.2 y hy)⟩
  intro x d hd
  obtain ⟨d1, hd1, hle1, hor1⟩ := h1.1 x d hd
  obtain ⟨d2, hd2, hle2, hor2⟩ := h2.1 x d1 hd1
  refine ⟨d2, hd2, le_trans hle2 hle1, ?_⟩
  rcases hor2 with h | h
  · rcases hor1 with h' | h'
    · exact Or.inl (h.trans h')
    · exact Or.inr (h ▸ h2.2 _ h')
  · exact Or.inr h

theorem rooted_insert_below {dist : List (String × Int)} {parent : List (String × String)}
    {src v u : String} {dv : Int}
    (hpar : ∀ x p, mapFind parent x = some p →
      ∃ dp dx, mapFind dist p = some dp ∧ mapFind dist x = some dx ∧ dp ≤ dx ∧ dx < INT_MAX)
    (hv : mapFind dist v = some dv) {y : String} (hy : Rooted parent src y) :
    (∃ dy, mapFind dist y = some dy ∧ dy < dv) → Rooted (mapInsert strLt v u parent) src y := by
  induction hy with
  | root => intro _; exact Rooted.root
  | @step y p hne hp _ ih =>
    rintro ⟨dy, hdy, hlt⟩
    have hyv : y ≠ v := by
      rintro rfl
      rw [hv] at hdy
      cases hdy
      exact lt_irrefl _ hlt
    obtain ⟨dp, dx, hdp, hdx, hle, _⟩ := hpar y p hp
    rw [hdy] at hdx
    cases hdx
    refine Rooted.step hne ?_ (ih ⟨dp, hdp, lt_of_le_of_lt hle hlt⟩)
    rw [mapFind_mapInsert, if_neg hyv]
    exact hp

theorem rooted_insert_other {parent : List (String × String)} {src v u : String}
    (hv : Rooted (mapInsert strLt v u parent) src v) {y : String} (hy : Rooted parent src y) :
    Rooted (mapInsert strLt v u parent) src y := by
  induction hy with
  | root => exact Rooted.root
  | @step y p hne hp _ ih =>
    by_cases hyv : y = v
    · rw [hyv]; exact hv
    · refine Rooted.step hne ?_ ih
      rw [mapFind_mapInsert, if_neg hyv]
      exact hp

/-! ### One edge of the edge loop -/

theorem relaxEdge_unusable (g : Graph) (incidents : List Incident) (vehicle : Vehicle)
    (u : String) (st : Search) (edge : Edge)
    (h : ¬ edgeUsable g incidents vehicle u edge = true) :
    relaxEdge g incidents vehicle u st edge = some st := by
  unfold relaxEdge
  by_cases h1 : (edge.blocked || isBlockedByIncident g incidents u edge) = true
  · rw [if_pos h1]
  · rw [if_neg h1]
    by_cases h2 : (!vehicle.canUseRoad edge.roadType) = true
    · rw [if_pos h2]
    · exfalso
      apply h
      simp only [Bool.not_eq_true] at h1 h2
      simp only [edgeUsable, h1, Bool.not_false, Bool.true_and]
      simpa using h2

theorem relaxEdge_usable (g : Graph) (incidents : List Incident) (vehicle : Vehicle)
    (u : String) (st : Search) (edge : Edge) (du dv : Int)
    (h : edgeUsable g incidents vehicle u edge = true)
    (hu : mapFind st.dist u = some du) (hv : mapFind st.dist edge.destination = some dv) :
    relaxEdge g incidents vehicle u st edge =
      if du + timeCost edge vehicle < dv then
        some { dist := mapInsert strLt edge.destination (du + timeCost edge vehicle) st.dist,
               parent := mapInsert strLt edge.destination u st.parent,
               pq := st.pq ++ [(du + timeCost edge vehicle, edge.destination)] }
      else some st := by
  simp only [edgeUsable, Bool.and_eq_true, Bool.not_eq_true'] at h
  unfold relaxEdge
  rw [if_neg (by simp [h.1]), if_neg (by simp [h.2]), hu, hv]

theorem potential_drop (g : Graph) (st : Search) (v : String) (d dv : Int)
    (parent' : List (String × String))
    (hv : mapFind st.dist v = some dv) (hkey : (mapFind g.adjList v).isSome = true)
    (h0 : 0 ≤ d) (hlt : d < dv) :
    searchPotential g ⟨mapInsert strLt v d st.dist, parent', st.pq ++ [(d, v)]⟩
      ≤ searchPotential g st := by
  obtain ⟨es, hes⟩ := Option.isSome_iff_exists.mp hkey
  have hmem := mapFind_mem _ _ _ hes
  have hsum := @List.sum_lt_sum _ _ _ _ _ _ _ _ g.adjList
    (fun node : String × List Edge =>
      ((mapFind (mapInsert strLt v d st.dist) node.1).getD 0).toNat)
    (fun node : String × List Edge => ((mapFind st.dist node.1).getD 0).toNat)
    (by
      intro node _
      simp only [mapFind_mapInsert]
      split_ifs with h
      · rw [h, hv]
        simp only [Option.getD_some]
        omega
      · exact le_refl _)
    ⟨(v, es), hmem, by
      simp only [mapFind_mapInsert, if_true, hv, Option.getD_some]
      omega⟩
  simp only [searchPotential, List.length_append, List.length_singleton]
  omega

theorem relaxEdge_spec {g : Graph} {incidents : List Incident} {vehicle : Vehicle} {src : String}
    (hclosed : g.Closed) (hcost : g.NonnegCosts vehicle)
    {st : Search} {u : String} {du : Int} {edges : List Edge} {edge : Edge}
    (hcore : SearchCore g incidents vehicle src st)
    (hq : ∀ d x, (d, x) ∈ st.pq → ∃ dx, mapFind st.dist x = some dx ∧ dx ≤ d ∧ d < INT_MAX)
    (hu : mapFind st.dist u = some du) (hdu : du < INT_MAX)
    (hes : mapFind g.adjList u = some edges) (he : edge ∈ edges) :
    ∃ st', relaxEdge g incidents vehicle u st edge = some st' ∧
      SearchCore g incidents vehicle src st' ∧
      (∀ d x, (d, x) ∈ st'.pq → ∃ dx, mapFind st'.dist x = some dx ∧ dx ≤ d ∧ d < INT_MAX) ∧
      mapFind st'.dist u = some du ∧
      st.Refines st' ∧
      (edgeUsable g incidents vehicle u edge = true →
        ∃ dv, mapFind st'.dist edge.destination = some dv ∧ dv ≤ du + timeCost edge vehicle) ∧
      searchPotential g st' ≤ searchPotential g st := by
  have hc := hcost u edges edge hes he
  have hdu0 := hcore.nonneg u du hu
  have hvkey : (mapFind g.adjList edge.destination).isSome = true := hclosed u edges edge hes he
  obtain ⟨dv, hdv⟩ : ∃ dv, mapFind st.dist edge.destination = some dv := by
    have := hcore.keys edge.destination
    rw [hvkey] at this
    exact Option.isSome_iff_exists.mp this
  have hdvmax := hcore.le_max _ dv hdv
  by_cases hus : edgeUsable g incidents vehicle u edge = true
  swap
  · exact ⟨st, relaxEdge_unusable g incidents vehicle u st edge hus, hcore, hq, hu,
      Search.refines_refl st, fun h => absurd h hus, le_refl _⟩
  by_cases hlt : du + timeCost edge vehicle < dv
  swap
  · refine ⟨st, ?_, hcore, hq, hu, Search.refines_refl st, fun _ => ⟨dv, hdv, by omega⟩, le_refl _⟩
    rw [relaxEdge_usable g incidents vehicle u st edge du dv hus hu hdv, if_neg hlt]
  -- the distance of the destination is lowered
  have hvsrc : edge.destination ≠ src := by
    intro h
    rw [h, hcore.src0] at hdv
    cases hdv
    omega
  have huv : u ≠ edge.destination := by
    intro h
    rw [← h, hu] at hdv
    cases hdv
    omega
  have hrv : Rooted (mapInsert strLt edge.destination u st.parent) src edge.destination := by
    refine Rooted.step hvsrc (by rw [mapFind_mapInsert, if_pos rfl]) ?_
    exact rooted_insert_below hcore.par hdv (hcore.rooted u du hu hdu) ⟨du, hu, by omega⟩
  refine ⟨⟨mapInsert strLt edge.destination (du + timeCost edge vehicle) st.dist,
    mapInsert strLt edge.destination u st.parent,
    st.pq ++ [(du + timeCost edge vehicle, edge.destination)]⟩, ?_, ?_, ?_, ?_, ?_, ?_, ?_⟩
  · rw [relaxEdge_usable g incidents vehicle u st edge du dv hus hu hdv, if_pos hlt]
  · refine ⟨?_, ?_, ?_, ?_, ?_, ?_, ?_⟩
    · intro x
      simp only [mapFind_mapInsert]
      split_ifs with h
      · rw [h, hvkey]; rfl
      · exact hcore.keys x
    · simp only [mapFind_mapInsert, if_neg (Ne.symm hvsrc)]
      exact hcore.src0
    · intro x d hx
      simp only [mapFind_mapInsert] at hx
      split_ifs at hx with h
      · cases hx; omega
      · exact hcore.nonneg x d hx
    · intro x d hx
      simp only [mapFind_mapInsert] at hx
      split_ifs at hx with h
      · cases hx; omega
      · exact hcore.le_max x d hx
    · intro x d hx hd
      simp only [mapFind_mapInsert] at hx
      split_ifs at hx with h
      · cases hx
        obtain ⟨p, hp, hpc⟩ := hcore.walk u du hu hdu
        refine ⟨p ++ [edge], ?_, ?_⟩
        · rw [h]; exact IsPath.snoc _ _ _ _ hp hes he hus
        · rw [pathCost_snoc, hpc]
      · exact hcore.walk x d hx hd
    · intro x p hx
      simp only [mapFind_mapInsert] at hx ⊢
      split_ifs at hx with h
      · cases hx
        refine ⟨du, du + timeCost edge vehicle, ?_, ?_, by omega, by omega⟩
        · rw [if_neg huv]; exact hu
        · rw [if_pos h]
      · obtain ⟨dp, dx, hdp, hdx, hle, hmax⟩ := hcore.par x p hx
        by_cases hpv : p = edge.destination
        · refine ⟨du + timeCost edge vehicle, dx, by rw [if_pos hpv], by rw [if_neg h]; exact hdx,
            ?_, hmax⟩
          rw [hpv, hdv] at hdp
          cases hdp
          omega
        · exact ⟨dp, dx, by rw [if_neg hpv]; exact hdp, by rw [if_neg h]; exact hdx, hle, hmax⟩
    · intro x d hx hd
      simp only [mapFind_mapInsert] at hx
      split_ifs at hx with h
      · rw [h]; exact hrv
      · exact rooted_insert_other hrv (hcore.rooted x d hx hd)
  · intro d x hdx
    simp only [List.mem_append, List.mem_singleton, Prod.mk.injEq] at hdx
    simp only [mapFind_mapInsert]
    rcases hdx with hdx | ⟨h1, h2⟩
    · obtain ⟨dx, hx, hle, hmax⟩ := hq d x hdx
      by_cases h : x = edge.destination
      · refine ⟨du + timeCost edge vehicle, by rw [if_pos h], ?_, hmax⟩
        rw [h, hdv] at hx
        cases hx
        omega
      · exact ⟨dx, by rw [if_neg h]; exact hx, hle, hmax⟩
    · exact ⟨du + timeCost edge vehicle, by rw [if_pos h2], by omega, by omega⟩
  · simp only [mapFind_mapInsert, if_neg huv]
    exact hu
  · refine ⟨?_, fun y hy => List.mem_append_left _ hy⟩
    intro x d hx
    simp only [mapFind_mapInsert]
    by_cases h : x = edge.destination
    · refine ⟨du + timeCost edge vehicle, by rw [if_pos h], ?_, Or.inr ?_⟩
      · rw [h, hdv] at hx
        cases hx
        omega
      · rw [h]
        exact List.mem_append_right _ (List.mem_singleton_self _)
    · exact ⟨d, by rw [if_neg h]; exact hx, le_refl _, Or.inl rfl⟩
  · intro _
    exact ⟨du + timeCost edge vehicle, by simp only [mapFind_mapInsert, if_true], le_refl _⟩
  · exact potential_drop g st edge.destination _ dv _ hdv hvkey (by omega) hlt

/-! ### The edge loop and the search loop -/

theorem relaxEdges_spec {g : Graph} {incidents : List Incident} {vehicle : Vehicle} {src : String}
    (hclosed : g.Closed) (hcost : g.NonnegCosts vehicle)
    (u : String) (du : Int) (edges : List Edge) (hdu : du < INT_MAX)
    (hes : mapFind g.adjList u = some edges) :
    ∀ (rest : List Edge) (st : Search), (∀ e ∈ rest, e ∈ edges) →
      SearchCore g incidents vehicle src st →
      (∀ d x, (d, x) ∈ st.pq → ∃ dx, mapFind st.dist x = some dx ∧ dx ≤ d ∧ d < INT_MAX) →
      mapFind st.dist u = some du →
      ∃ st', relaxEdges g incidents vehicle u rest st = some st' ∧
        SearchCore g incidents vehicle src st' ∧
        (∀ d x, (d, x) ∈ st'.pq → ∃ dx, mapFind st'.dist x = some dx ∧ dx ≤ d ∧ d < INT_MAX) ∧
        mapFind st'.dist u = some du ∧
        st.Refines st' ∧
        (∀ e ∈ rest, edgeUsable g incidents vehicle u e = true →
          ∃ dv, mapFind st'.dist e.destination = some dv ∧ dv ≤ du + timeCost e vehicle) ∧
        searchPotential g st' ≤ searchPotential g st := by
  intro rest
  induction rest with
  | nil =>
    intro st _ hcore hq hu
    exact ⟨st, rfl, hcore, hq, hu, Search.refines_refl st, fun _ h => by simp at h, le_refl _⟩
  | cons e tl ih =>
    intro st hsub hcore hq hu
    obtain ⟨st1, h1, hcore1, hq1, hu1, href1, hrel1, hpot1⟩ :=
      relaxEdge_spec hclosed hcost hcore hq hu hdu hes (hsub e (List.mem_cons_self _ _))
    obtain ⟨st2, h2, hcore2, hq2, hu2, href2, hrel2, hpot2⟩ :=
      ih st1 (fun x hx => hsub x (List.mem_cons_of_mem _ hx)) hcore1 hq1 hu1
    refine ⟨st2, ?_, hcore2, hq2, hu2, Search.refines_trans href1 href2, ?_, le_trans hpot2 hpot1⟩
    · simp only [relaxEdges, h1, h2]
    · intro x hx hus
      rcases List.mem_cons.mp hx with hx | hx
      · subst hx
        obtain ⟨dv, hdv, hle⟩ := hrel1 hus
        obtain ⟨dv2, hdv2, hle2, _⟩ := href2.1 _ dv hdv
        exact ⟨dv2, hdv2, le_trans hle2 hle⟩
      · exact hrel2 x hx hus

theorem lower_bound {g : Graph} {incidents : List Incident} {vehicle : Vehicle} {src : String}
    (hclosed : g.Closed) (hcost : g.NonnegCosts vehicle) {st : Search}
    (hinv : SearchInv g incidents vehicle src st) {p : List Edge} {v : String}
    (hp : IsPath g incidents vehicle src p v) :
    ∃ dv, mapFind st.dist v = some dv ∧
      (dv ≤ pathCost vehicle p ∨ ∃ y ∈ st.pq, y.1 ≤ pathCost vehicle p) := by
  induction hp with
  | nil => exact ⟨0, hinv.src0, Or.inl (by simp [pathCost])⟩
  | snoc p u edges edge _ hes he hus ih =>
    obtain ⟨du, hdu, hor⟩ := ih
    have hc := hcost u edges edge hes he
    have hvkey := hclosed u edges edge hes he
    obtain ⟨dv, hdv⟩ : ∃ dv, mapFind st.dist edge.destination = some dv := by
      have := hinv.keys edge.destination
      rw [hvkey] at this
      exact Option.isSome_iff_exists.mp this
    rw [pathCost_snoc]
    rcases hor with hle | ⟨y, hy, hle⟩
    · by_cases hmax : du < INT_MAX
      · rcases hinv.relaxed u du hdu hmax with hq | hrel
        · exact ⟨dv, hdv, Or.inr ⟨(du, u), hq, by simp only; omega⟩⟩
        · obtain ⟨dv', hdv', hle'⟩ := hrel edges edge hes he hus
          rw [hdv] at hdv'
          cases hdv'
          exact ⟨dv, hdv, Or.inl (by omega)⟩
      · have := hinv.le_max _ dv hdv
        exact ⟨dv, hdv, Or.inl (by omega)⟩
    · exact ⟨dv, hdv, Or.inr ⟨y, hy, by omega⟩⟩

theorem searchPotential_pop (g : Graph) (st : Search) (c : Int × String) (hc : c ∈ st.pq) :
    searchPotential g { st with pq := st.pq.erase c } + 1 = searchPotential g st := by
  have h := List.length_erase_of_mem hc
  have hpos : 0 < st.pq.length := List.length_pos_of_mem hc
  simp only [searchPotential, h]
  omega

theorem dijkstraLoop_spec {g : Graph} {incidents : List Incident} {vehicle : Vehicle}
    {src : String} (hclosed : g.Closed) (hcost : g.NonnegCosts vehicle) (dest : String) :
    ∀ (fuel : Nat) (st : Search), SearchInv g incidents vehicle src st →
      match dijkstraLoop g incidents vehicle dest fuel st with
      | Run.ok st' => SearchCore g incidents vehicle src st' ∧
          ∀ p, IsPath g incidents vehicle src p dest →
            ∃ dd, mapFind st'.dist dest = some dd ∧ dd ≤ pathCost vehicle p
      | Run.fuelOut => fuel < searchPotential g st
      | Run.thrown => False := by
  intro fuel
  induction fuel with
  | zero =>
    intro st hinv
    cases hpop : pqPop st.pq with
    | none =>
      rw [dijkstraLoop]
      simp only [hpop]
      refine ⟨hinv.toSearchCore, fun p hp => ?_⟩
      obtain ⟨dv, hdv, hor⟩ := lower_bound hclosed hcost hinv hp
      rcases hor with h | ⟨y, hy, _⟩
      · exact ⟨dv, hdv, h⟩
      · rw [pqPop_none hpop] at hy; simp at hy
    | some cr =>
      obtain ⟨c, rest⟩ := cr
      rw [dijkstraLoop]
      simp only [hpop]
      have := List.length_pos_of_mem (pqPop_some hpop).1
      simp only [searchPotential]
      omega
  | succ fuel ih =>
    intro st hinv
    cases hpop : pqPop st.pq with
    | none =>
      rw [dijkstraLoop]
      simp only [hpop]
      refine ⟨hinv.toSearchCore, fun p hp => ?_⟩
      obtain ⟨dv, hdv, hor⟩ := lower_bound hclosed hcost hinv hp
      rcases hor with h | ⟨y, hy, _⟩
      · exact ⟨dv, hdv, h⟩
      · rw [pqPop_none hpop] at hy; simp at hy
    | some cr =>
      obtain ⟨c, rest⟩ := cr
      obtain ⟨hcmem, hcmin, hrest⟩ := pqPop_some hpop
      obtain ⟨du, hdu, hdule, hcmax⟩ := hinv.queued c.1 c.2 hcmem
      have hcore1 : SearchCore g incidents vehicle src { st with pq := rest } :=
        ⟨hinv.keys, hinv.src0, hinv.nonneg, hinv.le_max, hinv.walk, hinv.par, hinv.rooted⟩
      have hq1 : ∀ d x, (d, x) ∈ rest →
          ∃ dx, mapFind st.dist x = some dx ∧ dx ≤ d ∧ d < INT_MAX := by
        intro d x hx
        rw [hrest] at hx
        exact hinv.queued d x (List.mem_of_mem_erase hx)
      have hpot1 : searchPotential g { st with pq := rest } + 1 = searchPotential g st := by
        rw [hrest]; exact searchPotential_pop g st c hcmem
      rw [dijkstraLoop]
      simp only [hpop]
      by_cases hdest : c.2 = dest
      · rw [if_pos hdest]
        refine ⟨hcore1, fun p hp => ?_⟩
        obtain ⟨dv, hdv, hor⟩ := lower_bound hclosed hcost hinv hp
        refine ⟨dv, hdv, ?_⟩
        rw [← hdest, hdu] at hdv
        cases hdv
        rcases hor with h | ⟨y, hy, hle⟩
        · exact h
        · have := hcmin y hy
          omega
      · rw [if_neg hdest]
        simp only [hdu, Option.getD_some]
        by_cases hstale : c.1 > du
        · rw [if_pos hstale]
          have hinv1 : SearchInv g incidents vehicle src { st with pq := rest } := by
            refine ⟨hcore1, hq1, ?_⟩
            intro x dx hx hmax
            rcases hinv.relaxed x dx hx hmax with h | h
            · left
              show (dx, x) ∈ rest
              rw [hrest]
              refine (List.mem_erase_of_ne ?_).mpr h
              intro heq
              have h1 : dx = c.1 := congrArg Prod.fst heq
              have h2 : x = c.2 := congrArg Prod.snd heq
              rw [h2, hdu] at hx
              cases hx
              omega
            · exact Or.inr h
          have := ih _ hinv1
          revert this
          cases dijkstraLoop g incidents vehicle dest fuel { st with pq := rest } with
          | ok st' => exact fun h => h
          | fuelOut => intro h; simp only at h ⊢; omega
          | thrown => exact fun h => h
        · rw [if_neg hstale]
          have hceq : c.1 = du := by omega
          obtain ⟨edges, hes⟩ : ∃ edges, mapFind g.adjList c.2 = some edges := by
            have := hinv.keys c.2
            rw [hdu] at this
            exact Option.isSome_iff_exists.mp this.symm
          obtain ⟨st2, h2, hcore2, hq2, hu2, href2, hrel2, hpot2⟩ :=
            relaxEdges_spec hclosed hcost c.2 du edges (by omega) hes edges
              { st with pq := rest } (fun _ h => h) hcore1 hq1 hdu
          simp only [hes, h2]
          have hinv2 : SearchInv g incidents vehicle src st2 := by
            refine ⟨hcore2, hq2, ?_⟩
            intro x dx hx hmax
            obtain ⟨dx1, hx1⟩ : ∃ dx1, mapFind st.dist x = some dx1 := by
              have h3 := hcore2.keys x
              rw [hx, ← hinv.keys x] at h3
              exact Option.isSome_iff_exists.mp h3.symm
            obtain ⟨d', hd', hle', hor'⟩ := href2.1 x dx1 hx1
            rw [hx] at hd'
            cases hd'
            rcases hor' with heq | hin
            swap
            · exact Or.inl hin
            subst heq
            by_cases hxu : x = c.2
            · right
              intro es e hes' he hus
              rw [hxu, hes] at hes'
              cases hes'
              rw [hxu, hdu] at hx1
              cases hx1
              rw [hxu] at hus
              exact hrel2 e he hus
            · rcases hinv.relaxed x dx hx1 hmax with h | h
              · left
                apply href2.2
                show (dx, x) ∈ rest
                rw [hrest]
                refine (List.mem_erase_of_ne ?_).mpr h
                intro heq
                exact hxu (congrArg Prod.snd heq)
              · right
                intro es e hes' he hus
                obtain ⟨dv, hdv, hle⟩ := h es e hes' he hus
                obtain ⟨dv2, hdv2, hle2, _⟩ := href2.1 _ dv hdv
                exact ⟨dv2, hdv2, le_trans hle2 hle⟩
          have := ih _ hinv2
          revert this
          cases dijkstraLoop g incidents vehicle dest fuel st2 with
          | ok st' => exact fun h => h
          | fuelOut => intro h; simp only at h ⊢; omega
          | thrown => exact fun h => h

/-! ### The whole query -/

theorem dijkstraLoop_mono (g : Graph) (incidents : List Incident) (vehicle : Vehicle)
    (dest : String) :
    ∀ (fuel : Nat) (st st' : Search), dijkstraLoop g incidents vehicle dest fuel st = Run.ok st' →
      ∀ fuel', fuel ≤ fuel' → dijkstraLoop g incidents vehicle dest fuel' st = Run.ok st' := by
  intro fuel
  induction fuel with
  | zero =>
    intro st st' h fuel' _
    rw [dijkstraLoop] at h ⊢
    cases hpop : pqPop st.pq with
    | none => simpa [hpop] using h
    | some cr => simp [hpop] at h
  | succ fuel ih =>
    intro st st' h fuel' hle
    obtain ⟨f', rfl⟩ : ∃ f', fuel' = f' + 1 := ⟨fuel' - 1, by omega⟩
    have hle' : fuel ≤ f' := by omega
    rw [dijkstraLoop] at h ⊢
    cases hpop : pqPop st.pq with
    | none => simpa [hpop] using h
    | some cr =>
      obtain ⟨c, rest⟩ := cr
      simp only [hpop] at h ⊢
      by_cases hdest : c.2 = dest
      · simpa [hdest] using h
      · simp only [hdest, if_false] at h ⊢
        split_ifs at h ⊢ with hstale
        · exact ih _ _ h _ hle'
        · cases hes : mapFind g.adjList c.2 with
          | none => simp [hes] at h
          | some edges =>
            simp only [hes] at h ⊢
            cases hrel : relaxEdges g incidents vehicle c.2 edges { st with pq := rest } with
            | none => simp [hrel] at h
            | some st2 =>
              simp only [hrel] at h ⊢
              exact ih _ _ h _ hle'

theorem walkParents_spec {dist : List (String × Int)} {parent : List (String × String)}
    {src : String}
    (hpar : ∀ x p, mapFind parent x = some p →
      ∃ dp dx, mapFind dist p = some dp ∧ mapFind dist x = some dx ∧ dp ≤ dx ∧ dx < INT_MAX)
    {v : String} (hv : Rooted parent src v) (hvd : (mapFind dist v).isSome = true) :
    ∃ n rev, (∀ fuel, n ≤ fuel → walkParents parent src fuel v = Run.ok rev) ∧
      (∀ fuel, walkParents parent src fuel v = Run.fuelOut ∨
        walkParents parent src fuel v = Run.ok rev) ∧
      (∀ x ∈ rev, (mapFind dist x).isSome = true) ∧
      (rev ++ [src]).head? = some v := by
  induction hv with
  | root =>
    refine ⟨0, [], fun fuel _ => ?_, fun fuel => Or.inr ?_, fun _ h => by simp at h, rfl⟩
    · rw [walkParents.eq_def]; simp
    · rw [walkParents.eq_def]; simp
  | @step v p hne hp _ ih =>
    obtain ⟨dp, dx, hdp, _, _, _⟩ := hpar v p hp
    obtain ⟨n, rev, hok, hor, hmem, _⟩ := ih (by simp [hdp])
    refine ⟨n + 1, v :: rev, ?_, ?_, ?_, rfl⟩
    · intro fuel hle
      obtain ⟨f, rfl⟩ : ∃ f, fuel = f + 1 := ⟨fuel - 1, by omega⟩
      rw [walkParents.eq_def]
      simp only [if_neg hne, hp, hok f (by omega)]
    · intro fuel
      cases fuel with
      | zero => left; rw [walkParents.eq_def]; simp [hne]
      | succ f =>
        rw [walkParents.eq_def]
        simp only [if_neg hne, hp]
        rcases hor f with h | h
        · left; rw [h]
        · right; rw [h]
    · intro x hx
      rcases List.mem_cons.mp hx with hx | hx
      · rw [hx]; exact hvd
      · exact hmem x hx

theorem segmentTotals_isSome (g : Graph) (path : List String)
    (h : ∀ x ∈ path, (mapFind g.adjList x).isSome = true) :
    ∃ t, segmentTotals g path = some t := by
  induction path with
  | nil => exact ⟨_, rfl⟩
  | cons a rest ih =>
    cases rest with
    | nil => exact ⟨_, rfl⟩
    | cons b rest =>
      obtain ⟨es, hes⟩ := Option.isSome_iff_exists.mp (h a (List.mem_cons_self _ _))
      obtain ⟨t, ht⟩ := ih (fun x hx => h x (List.mem_cons_of_mem _ hx))
      simp only [segmentTotals, hes, ht]
      cases List.find? (fun edge => decide (edge.destination = b)) es with
      | none => exact ⟨_, rfl⟩
      | some e => exact ⟨_, rfl⟩

theorem searchInv_init (g : Graph) (incidents : List Incident) (vehicle : Vehicle) (src : String)
    (hsrc : (mapFind g.adjList src).isSome = true) :
    SearchInv g incidents vehicle src ⟨initDist g src, [], [(0, src)]⟩ := by
  have hfind : ∀ x d, mapFind (initDist g src) x = some d →
      (x = src ∧ d = 0) ∨ d = INT_MAX := by
    intro x d h
    rw [mapFind_initDist] at h
    split_ifs at h with hx
    · cases h; exact Or.inl ⟨hx, rfl⟩
    · cases hm : mapFind g.adjList x with
      | none => simp [hm] at h
      | some es => simp [hm] at h; exact Or.inr h.symm
  refine ⟨⟨?_, ?_, ?_, ?_, ?_, ?_, ?_⟩, ?_, ?_⟩
  · intro x
    simp only [mapFind_initDist]
    split_ifs with hx
    · rw [hx, hsrc]; rfl
    · simp
  · simp [mapFind_initDist]
  · intro x d h
    rcases hfind x d h with ⟨_, h⟩ | h
    · rw [h]
    · rw [h]; decide
  · intro x d h
    rcases hfind x d h with ⟨_, h⟩ | h
    · rw [h]; decide
    · rw [h]
  · intro x d h hd
    rcases hfind x d h with ⟨h1, h2⟩ | h
    · exact ⟨[], h1 ▸ IsPath.nil, by rw [h2]; rfl⟩
    · omega
  · intro v p h
    simp [mapFind] at h
  · intro x d h hd
    rcases hfind x d h with ⟨h1, _⟩ | h
    · rw [h1]; exact Rooted.root
    · omega
  · intro d u h
    simp only [List.mem_singleton, Prod.mk.injEq] at h
    obtain ⟨rfl, rfl⟩ := h
    exact ⟨0, by simp [mapFind_initDist], le_refl _, by decide⟩
  · intro u du h hd
    rcases hfind u du h with ⟨h1, h2⟩ | h
    · left; rw [h1, h2]; simp
    · omega

theorem shortestPath_spec (w : World) (src dest : String) (vehicle : Vehicle)
    (hne : src ≠ dest)
    (hsrc : (mapFind w.graph.adjList src).isSome = true)
    (hdest : (mapFind w.graph.adjList dest).isSome = true)
    (hclosed : (applyWeatherEffects w.currentWeather w.graph).Closed)
    (hcost : (applyWeatherEffects w.currentWeather w.graph).NonnegCosts vehicle) :
    (∀ fuel out w', shortestPath fuel w src dest vehicle = some (out, w') →
      w' = { w with graph := applyWeatherEffects w.currentWeather w.graph } ∧
      RouteSpec (applyWeatherEffects w.currentWeather w.graph) w.incidents vehicle src dest out) ∧
    (∃ N, ∀ fuel, N ≤ fuel → ∃ out w', shortestPath fuel w src dest vehicle = some (out, w')) := by
  have hsrc' : (mapFind (applyWeatherEffects w.currentWeather w.graph).adjList src).isSome = true := by
    simp only [applyWeatherEffects, mapFind_applyWeatherMult, Option.isSome_map']; exact hsrc
  have hdest' : (mapFind (applyWeatherEffects w.currentWeather w.graph).adjList dest).isSome = true := by
    simp only [applyWeatherEffects, mapFind_applyWeatherMult, Option.isSome_map']; exact hdest
  have hinit := searchInv_init (applyWeatherEffects w.currentWeather w.graph) w.incidents vehicle src hsrc'
  have hspec := fun fuel => dijkstraLoop_spec hclosed hcost dest fuel _ hinit
  have hunfold : ∀ fuel, shortestPath fuel w src dest vehicle =
      match dijkstraLoop (applyWeatherEffects w.currentWeather w.graph) w.incidents vehicle dest fuel
          ⟨initDist (applyWeatherEffects w.currentWeather w.graph) src, [], [(0, src)]⟩ with
      | .fuelOut => none
      | .thrown => some (.outOfRange, { w with graph := applyWeatherEffects w.currentWeather w.graph })
      | .ok st =>
        match mapFind st.dist dest with
        | none => some (.outOfRange, { w with graph := applyWeatherEffects w.currentWeather w.graph })
        | some total =>
          if total = INT_MAX then
            some (.noPathFound, { w with graph := applyWeatherEffects w.currentWeather w.graph })
          else
            match walkParents st.parent src fuel dest with
            | .fuelOut => none
            | .thrown =>
              some (.outOfRange, { w with graph := applyWeatherEffects w.currentWeather w.graph })
            | .ok rev =>
              match segmentTotals (applyWeatherEffects w.currentWeather w.graph)
                  (rev ++ [src]).reverse with
              | none =>
                some (.outOfRange, { w with graph := applyWeatherEffects w.currentWeather w.graph })
              | some (totalDistance, totalToll) =>
                some (.route ⟨(rev ++ [src]).reverse, total, totalToll, totalDistance⟩,
                  { w with graph := applyWeatherEffects w.currentWeather w.graph }) := by
    intro fuel
    have h1 : (mapFind w.graph.adjList src).isNone = false := by
      cases hm : mapFind w.graph.adjList src with
      | none => simp [hm] at hsrc
      | some _ => rfl
    have h2 : (mapFind w.graph.adjList dest).isNone = false := by
      cases hm : mapFind w.graph.adjList dest with
      | none => simp [hm] at hdest
      | some _ => rfl
    rw [shortestPath]
    simp only [hne, if_false, h1, h2, Bool.false_eq_true]
  -- what the final state of the search loop gives
  have hfinal : ∀ st, SearchCore (applyWeatherEffects w.currentWeather w.graph) w.incidents vehicle src st →
      ∃ dd, mapFind st.dist dest = some dd ∧
        (dd ≠ INT_MAX → ∃ n rev t,
          (∀ fuel, n ≤ fuel → walkParents st.parent src fuel dest = Run.ok rev) ∧
          (∀ fuel, walkParents st.parent src fuel dest = Run.fuelOut ∨
            walkParents st.parent src fuel dest = Run.ok rev) ∧
          segmentTotals (applyWeatherEffects w.currentWeather w.graph) (rev ++ [src]).reverse = some t) := by
    intro st hcore
    obtain ⟨dd, hdd⟩ : ∃ dd, mapFind st.dist dest = some dd := by
      have := hcore.keys dest
      rw [hdest'] at this
      exact Option.isSome_iff_exists.mp this
    refine ⟨dd, hdd, fun hmax => ?_⟩
    have hlt : dd < INT_MAX := lt_of_le_of_ne (hcore.le_max _ _ hdd) hmax
    obtain ⟨n, rev, hok, hor, hmem, _⟩ :=
      walkParents_spec hcore.par (hcore.rooted dest dd hdd hlt) (by simp [hdd])
    obtain ⟨t, ht⟩ := segmentTotals_isSome (applyWeatherEffects w.currentWeather w.graph)
      (rev ++ [src]).reverse (by
        intro x hx
        simp only [List.mem_reverse, List.mem_append, List.mem_singleton] at hx
        rcases hx with hx | hx
        · rw [← hcore.keys x]; exact hmem x hx
        · rw [hx]; exact hsrc')
    exact ⟨n, rev, t, hok, hor, ht⟩
  constructor
  · intro fuel out w' h
    rw [hunfold fuel] at h
    have hs := hspec fuel
    revert h hs
    cases dijkstraLoop (applyWeatherEffects w.currentWeather w.graph) w.incidents vehicle dest fuel
        ⟨initDist (applyWeatherEffects w.currentWeather w.graph) src, [], [(0, src)]⟩ with
    | fuelOut => intro h; simp at h
    | thrown => intro _ hs; exact absurd hs (by simp)
    | ok st =>
      intro h hs
      simp only at hs h
      obtain ⟨hcore, hlow⟩ := hs
      obtain ⟨dd, hdd, hroute⟩ := hfinal st hcore
      simp only [hdd] at h
      by_cases hmax : dd = INT_MAX
      · rw [if_pos hmax] at h
        simp only [Option.some.injEq, Prod.mk.injEq] at h
        refine ⟨h.2.symm, Or.inl ⟨h.1.symm, fun p hp => ?_⟩⟩
        obtain ⟨dd', hdd', hle⟩ := hlow p hp
        rw [hdd] at hdd'
        cases hdd'
        omega
      · rw [if_neg hmax] at h
        obtain ⟨n, rev, t, _, hor, ht⟩ := hroute hmax
        rcases hor fuel with hw | hw
        · rw [hw] at h; simp at h
        · rw [hw] at h
          simp only [ht, Option.some.injEq, Prod.mk.injEq] at h
          have hlt : dd < INT_MAX := lt_of_le_of_ne (hcore.le_max _ _ hdd) hmax
          refine ⟨h.2.symm, Or.inr ⟨_, h.1.symm, hlt, hcore.walk dest dd hdd hlt, fun p hp => ?_⟩⟩
          obtain ⟨dd', hdd', hle⟩ := hlow p hp
          rw [hdd] at hdd'
          cases hdd'
          exact hle
  · -- enough fuel
    have hs := hspec (searchPotential (applyWeatherEffects w.currentWeather w.graph)
      ⟨initDist (applyWeatherEffects w.currentWeather w.graph) src, [], [(0, src)]⟩)
    revert hs
    cases hloop : dijkstraLoop (applyWeatherEffects w.currentWeather w.graph) w.incidents vehicle dest
        (searchPotential (applyWeatherEffects w.currentWeather w.graph)
          ⟨initDist (applyWeatherEffects w.currentWeather w.graph) src, [], [(0, src)]⟩)
        ⟨initDist (applyWeatherEffects w.currentWeather w.graph) src, [], [(0, src)]⟩ with
    | fuelOut => intro hs; simp only at hs; omega
    | thrown => intro hs; exact absurd hs (by simp)
    | ok st =>
      intro hs
      simp only at hs
      obtain ⟨hcore, _⟩ := hs
      obtain ⟨dd, hdd, hroute⟩ := hfinal st hcore
      by_cases hmax : dd = INT_MAX
      · refine ⟨searchPotential (applyWeatherEffects w.currentWeather w.graph)
          ⟨initDist (applyWeatherEffects w.currentWeather w.graph) src, [], [(0, src)]⟩,
          fun fuel hle => ?_⟩
        rw [hunfold fuel, dijkstraLoop_mono _ _ _ _ _ _ _ hloop fuel hle]
        simp only [hdd, if_pos hmax]
        exact ⟨_, _, rfl⟩
      · obtain ⟨n, rev, t, hok, _, ht⟩ := hroute hmax
        refine ⟨max (searchPotential (applyWeatherEffects w.currentWeather w.graph)
          ⟨initDist (applyWeatherEffects w.currentWeather w.graph) src, [], [(0, src)]⟩) n,
          fun fuel hle => ?_⟩
        rw [hunfold fuel, dijkstraLoop_mono _ _ _ _ _ _ _ hloop fuel (le_trans (le_max_left _ _) hle)]
        simp only [hdd, if_neg hmax, hok fuel (le_trans (le_max_right _ _) hle), ht]
        exact ⟨_, _, rfl⟩

/-! ### Networks built by the operations are fit for the search -/

theorem truncToInt_nonneg (q : ℚ) (h : 0 ≤ q) : 0 ≤ truncToInt q :=
  Int.tdiv_nonneg (Rat.num_nonneg.mpr h) (Int.ofNat_nonneg _)

theorem getWeatherMultiplier_pos (cw : WeatherType) : 0 < getWeatherMultiplier cw := by
  cases cw <;> simp only [getWeatherMultiplier] <;> norm_num

theorem addRoad_nonnegFields (g : Graph) (u v : String) (w sd : Int) (rt : String)
    (hsd : 0 ≤ sd) (hg : g.NonnegFields) : (addRoad g u v w sd rt).NonnegFields := by
  intro node hn e he
  simp only [addRoad] at hn
  rcases mem_pushEdge _ _ _ node e hn he with ⟨_, h2⟩ | ⟨node1, hn1, _, he1⟩
  · rw [h2]; exact ⟨hsd, le_refl _⟩
  · rcases mem_pushEdge _ _ _ node1 e hn1 he1 with ⟨_, h4⟩ | ⟨node0, hn0, _, he0⟩
    · rw [h4]; exact ⟨hsd, le_refl _⟩
    · exact hg node0 hn0 e he0

theorem Op.apply_nonnegFields (g : Graph) (op : Op) (hop : op.Positive) (hg : g.NonnegFields) :
    (op.apply g).NonnegFields := by
  cases op with
  | addRoad u v w sd rt => exact addRoad_nonnegFields g u v w sd rt hop.2 hg
  | menuAddRoad u v w sd type =>
    simp only [Op.apply]
    rcases menuAddRoad_cases g u v w sd type with h | ⟨_, hsd, h⟩
    · rw [h]; exact hg
    · rw [h]; exact addRoad_nonnegFields g u v w sd _ hsd hg
  | rushHour rand =>
    intro node hn e he
    obtain ⟨node0, hn0, j, rfl⟩ := mem_rushHourNodes g rand 0 g.adjList node hn
    obtain ⟨e0, he0, i, rfl⟩ := mem_rushHourEdges g rand _ _ _ e he
    exact ⟨(hg node0 hn0 e0 he0).1, Int.ofNat_nonneg _⟩
  | weather m =>
    intro node hn e he
    simp only [Op.apply, applyWeatherMult, List.mem_map] at hn
    obtain ⟨node0, hn0, rfl⟩ := hn
    simp only [List.mem_map] at he
    obtain ⟨e0, he0, rfl⟩ := he
    exact hg node0 hn0 e0 he0
  | manualBlock u v b =>
    intro node hn e he
    obtain ⟨node0, hn0, _, e0, he0, h2⟩ := mem_manualBlock g u v b node hn e he
    rcases h2 with h | h <;> rw [h] <;> exact hg node0 hn0 e0 he0

theorem runOps_nonnegFields (ops : List Op) (g : Graph) (hops : ∀ op ∈ ops, op.Positive)
    (hg : g.NonnegFields) : (runOps g ops).NonnegFields := by
  induction ops generalizing g with
  | nil => exact hg
  | cons op rest ih =>
    simp only [runOps, List.foldl_cons]
    exact ih (op.apply g) (fun o ho => hops o (List.mem_cons_of_mem _ ho))
      (Op.apply_nonnegFields g op (hops op (List.mem_cons_self _ _)) hg)

theorem Op.Positive.weightOK {op : Op} (h : op.Positive) : op.WeightOK (fun q => 0 < q) := by
  cases op with
  | addRoad u v w sd rt => exact Int.cast_pos.mpr h.1
  | menuAddRoad u v w sd type => trivial
  | rushHour rand => trivial
  | weather m => trivial
  | manualBlock u v b => trivial

theorem Graph.WellBased.toClosed {P : ℚ → Prop} {g : Graph} (hg : g.WellBased P) : g.Closed :=
  fun u edges edge hes he => hg.closed (u, edges) (mapFind_mem _ _ _ hes) edge he

theorem weather_nonnegCosts (g : Graph) (hg : g.WellBased (fun q => 0 < q))
    (hf : g.NonnegFields) (m : ℚ) (hm : 0 < m) (vehicle : Vehicle)
    (hv : 0 < vehicle.speedMultiplier) : (applyWeatherMult m g).NonnegCosts vehicle := by
  intro u edges edge hes he
  rw [mapFind_applyWeatherMult] at hes
  cases hes0 : mapFind g.adjList u with
  | none => simp [hes0] at hes
  | some es0 =>
    simp only [hes0, Option.map_some', Option.some.injEq] at hes
    subst hes
    simp only [List.mem_map] at he
    obtain ⟨e0, he0, rfl⟩ := he
    have hmem := mapFind_mem _ _ _ hes0
    have hpos : 0 < originalWeight g u e0.destination := originalWeight_ok _ g hg (u, es0) hmem e0 he0
    obtain ⟨hsd, hcg⟩ := hf (u, es0) hmem e0 he0
    apply truncToInt_nonneg
    simp only [weatherEdge, if_neg (ne_of_gt hpos)]
    have h1 : (0 : ℚ) ≤ (e0.signalDelay : ℚ) := by exact_mod_cast hsd
    have h2 : (0 : ℚ) ≤ (e0.congestion : ℚ) := by exact_mod_cast hcg
    have h3 : 0 < originalWeight g u e0.destination / m := div_pos hpos hm
    positivity

theorem runOps_fit (ops : List Op) (hops : ∀ op ∈ ops, op.Positive) (cw : WeatherType)
    (vehicle : Vehicle) (hv : 0 < vehicle.speedMultiplier) :
    (applyWeatherEffects cw (runOps Graph.empty ops)).Closed ∧
    (applyWeatherEffects cw (runOps Graph.empty ops)).NonnegCosts vehicle := by
  have hwb : (runOps Graph.empty ops).WellBased (fun q => 0 < q) :=
    runOps_wellBased _ (fun w hw => Int.cast_pos.mpr hw) ops Graph.empty
      (fun op hop => (hops op hop).weightOK) (Graph.empty_wellBased _)
  have hnf : (runOps Graph.empty ops).NonnegFields :=
    runOps_nonnegFields ops Graph.empty hops (fun _ h => by simp [Graph.empty] at h)
  exact ⟨(applyWeatherMult_wellBased _ _ _ hwb).toClosed,
    weather_nonnegCosts _ hwb hnf _ (getWeatherMultiplier_pos cw) vehicle hv⟩

/-! ### Blocking an edge -/

theorem setBlockedAt_map (b : Bool) (f : Edge → Edge)
    (hf : ∀ e, f { e with blocked := b } = { f e with blocked := b }) (i : Nat) (es : List Edge) :
    (setBlockedAt b i es).map f = setBlockedAt b i (es.map f) := by
  induction es generalizing i with
  | nil => cases i <;> rfl
  | cons hd tl ih =>
    cases i with
    | zero => simp [setBlockedAt, hf]
    | succ j => simp [setBlockedAt, ih]

theorem mem_setBlockedAt_false (i : Nat) (es : List Edge) (e : Edge)
    (h : e ∈ setBlockedAt true i es) (hb : e.blocked = false) : e ∈ setBlockedAt false i es := by
  induction es generalizing i with
  | nil => simp [setBlockedAt] at h
  | cons hd tl ih =>
    cases i with
    | zero =>
      simp only [setBlockedAt, List.mem_cons] at h ⊢
      rcases h with h | h
      · rw [h] at hb; simp at hb
      · exact Or.inr h
    | succ j =>
      simp only [setBlockedAt, List.mem_cons] at h ⊢
      rcases h with h | h
      · exact Or.inl h
      · exact Or.inr (ih j h)

theorem isPath_unblock (g : Graph) (incidents : List Incident) (vehicle : Vehicle) (u : String)
    (i : Nat) {src v : String} {p : List Edge}
    (hp : IsPath (setEdgeBlocked g u i true) incidents vehicle src p v) :
    IsPath (setEdgeBlocked g u i false) incidents vehicle src p v := by
  induction hp with
  | nil => exact IsPath.nil
  | snoc p x edges edge _ hes he hus ih =>
    rw [mapFind_setEdgeBlocked] at hes
    cases hes0 : mapFind g.adjList x with
    | none => simp [hes0] at hes
    | some es0 =>
      simp only [hes0, Option.map_some', Option.some.injEq] at hes
      have hb : edge.blocked = false := by
        simp only [edgeUsable, Bool.and_eq_true, Bool.not_eq_true', Bool.or_eq_false_iff] at hus
        exact hus.1.1
      refine IsPath.snoc p x (if x = u then setBlockedAt false i es0 else es0) edge ih ?_ ?_ hus
      · rw [mapFind_setEdgeBlocked, hes0]; rfl
      · subst hes
        split_ifs at he ⊢ with hx
        · exact mem_setBlockedAt_false i es0 edge he hb
        · exact he

theorem setEdgeBlocked_closed (g : Graph) (u : String) (i : Nat) (b : Bool) (hg : g.Closed) :
    (setEdgeBlocked g u i b).Closed := by
  intro x edges edge hes he
  rw [mapFind_setEdgeBlocked] at hes
  cases hes0 : mapFind g.adjList x with
  | none => simp [hes0] at hes
  | some es0 =>
    simp only [hes0, Option.map_some', Option.some.injEq] at hes
    subst hes
    have hmem : ∃ e0 ∈ es0, edge.destination = e0.destination := by
      split_ifs at he
      · obtain ⟨e0, he0, h⟩ := mem_setBlockedAt b i es0 edge he
        exact ⟨e0, he0, by rcases h with h | h <;> rw [h]⟩
      · exact ⟨edge, he, rfl⟩
    obtain ⟨e0, he0, hd⟩ := hmem
    rw [mapFind_setEdgeBlocked, hd]
    simpa using hg x es0 e0 hes0 he0

theorem setEdgeBlocked_nonnegCosts (g : Graph) (u : String) (i : Nat) (b : Bool)
    (vehicle : Vehicle) (hg : g.NonnegCosts vehicle) :
    (setEdgeBlocked g u i b).NonnegCosts vehicle := by
  intro x edges edge hes he
  rw [mapFind_setEdgeBlocked] at hes
  cases hes0 : mapFind g.adjList x with
  | none => simp [hes0] at hes
  | some es0 =>
    simp only [hes0, Option.map_some', Option.some.injEq] at hes
    subst hes
    have hmem : ∃ e0 ∈ es0, timeCost edge vehicle = timeCost e0 vehicle := by
      split_ifs at he
      · obtain ⟨e0, he0, h⟩ := mem_setBlockedAt b i es0 edge he
        exact ⟨e0, he0, by rcases h with h | h <;> (rw [h]; try rfl)⟩
      · exact ⟨edge, he, rfl⟩
    obtain ⟨e0, he0, hc⟩ := hmem
    rw [hc]
    exact hg x es0 e0 hes0 he0

/-! ### A single road -/

/-- C12 (evaluation at the failing input): after `addRoad("A","B",100,0,"Bus Lane")` and
`addRoad("A","B",100,0,"Highway")` a car, which may not use the "Bus Lane" edge, is routed
from A to B over the "Highway" edge (toll fee 5), yet the reported total toll is 0: the
totals loop takes the first edge from A to B, the "Bus Lane" one. -/
theorem toll_of_parallel_roads :
    mapFind (applyWeatherEffects WeatherType.SUNNY (runOps Graph.empty busLaneThenHighway)).adjList
        "A"
      = some [⟨"B", 100, 0, false, 0, "Bus Lane"⟩, ⟨"B", 100, 0, false, 0, "Highway"⟩] ∧
    car.canUseRoad "Bus Lane" = false ∧ car.canUseRoad "Highway" = true ∧
    getTollFee "Highway" = 5 ∧ getTollFee "Bus Lane" = 0 ∧
    (shortestPath 5 ⟨runOps Graph.empty busLaneThenHighway, [], WeatherType.SUNNY⟩ "A" "B" car).map
        Prod.fst
      = some (Outcome.route ⟨["A", "B"], 100, 0, 100⟩) := by
  refine ⟨by decide!, by decide!, by decide!, by decide!, by decide!, by decide!⟩

/-- C16 (evaluation at the failing input): on the default roads, with a stored incident at
"Downtown" affecting "General" roads that was created at time 0, a query made at time 1000
(the incident is 1000 seconds old) still sends a car from Downtown to Market St around the
incident, in 1170 seconds; with the incident removed from the store the direct road is
taken, in 150 seconds. -/
theorem expired_incident_still_blocks :
    generateIncident downtownDraws 0 [] = [⟨"Downtown", "🚨 Accident", 1, 0, "General"⟩] ∧
    isExpired 1000 ⟨"Downtown", "🚨 Accident", 1, 0, "General"⟩ = true ∧
    (shortestPath 100 ⟨runOps Graph.empty defaultRoads, generateIncident downtownDraws 0 [],
        WeatherType.SUNNY⟩ "Downtown" "Market St" car).map Prod.fst
      = some (Outcome.route
          ⟨["Downtown", "Midtown", "Uptown", "City Hall", "Market St"], 1170, 10, 970⟩) ∧
    (shortestPath 100 ⟨runOps Graph.empty defaultRoads, [], WeatherType.SUNNY⟩
        "Downtown" "Market St" car).map Prod.fst
      = some (Outcome.route ⟨["Downtown", "Market St"], 150, 0, 120⟩) := by
  refine ⟨by decide!, by decide!, by decide!, by decide!⟩

/-- C20 (evaluation at the failing input): after `addRoad("A","B",100,0)` and
`addRoad("A","B",200,0)` rush hour gives both edges A->B the weight 300 = 1.5 * 200, also
the edge that was created with weight 100 (the draws of `rand()` being 0, 1, 2, 3). -/
theorem rushHour_parallel_roads :
    mapFind (applyRushHour (fun k => k) parallelRoads).adjList "A"
      = some [⟨"B", 300, 0, false, 1, "General"⟩, ⟨"B", 300, 0, false, 2, "General"⟩] := by
  decide!

/-! ### Listing the active incidents -/

/-- C17 (as amended): at every time `now`, `showActiveIncidents` lists exactly the stored
incidents whose age is at most 300 seconds, in the order in which they are stored (so
oldest first when the store is in order of creation), and leaves exactly those incidents,
unaltered and in that order, in the store. -/
theorem showActiveIncidents_spec (now : Int) (incidents : List Incident) :
    (showActiveIncidents now incidents).1
      = incidents.filter (fun i => decide (now - i.timestamp ≤ 300)) ∧
    (showActiveIncidents now incidents).2 = (showActiveIncidents now incidents).1 ∧
    (∀ i, i ∈ (showActiveIncidents now incidents).1 ↔ i ∈ incidents ∧ now - i.timestamp ≤ 300) ∧
    List.Sublist (showActiveIncidents now incidents).1 incidents ∧
    (List.Pairwise (fun a b => a.timestamp ≤ b.timestamp) incidents →
      List.Pairwise (fun a b => a.timestamp ≤ b.timestamp) (showActiveIncidents now incidents).1) := by
  have hf : (fun i : Incident => !isExpired now i) = fun i => decide (now - i.timestamp ≤ 300) := by
    funext i
    simp only [isExpired]
    by_cases h : now - i.timestamp > 300
    · have h' : ¬ now - i.timestamp ≤ 300 := by omega
      simp [h, h']
    · have h' : now - i.timestamp ≤ 300 := by omega
      simp [h, h']
  have h1 : (showActiveIncidents now incidents).1
      = incidents.filter (fun i => decide (now - i.timestamp ≤ 300)) := by
    cases incidents with
    | nil => rfl
    | cons hd tl => simp only [showActiveIncidents, List.isEmpty_cons, hf]; rfl
  have h2 : (showActiveIncidents now incidents).2 = (showActiveIncidents now incidents).1 := by
    cases incidents with
    | nil => rfl
    | cons hd tl => rfl
  refine ⟨h1, h2, ?_, ?_, ?_⟩
  · intro i
    rw [h1]
    simp [List.mem_filter]
  · rw [h1]
    exact List.filter_sublist _
  · intro hs
    rw [h1]
    exact hs.sublist (List.filter_sublist _)

/-- C17 (the claim as stated fails): with two incidents stored in order of creation (at
times 0 and 10) and both active at time 20, the older one is listed first. -/
theorem showActiveIncidents_oldest_first :
    (showActiveIncidents 20
        [⟨"Downtown", "🚨 Accident", 1, 0, "General"⟩, ⟨"Main St", "🔧 Roadwork", 2, 10, "Bridge"⟩]).1
      = [⟨"Downtown", "🚨 Accident", 1, 0, "General"⟩, ⟨"Main St", "🔧 Roadwork", 2, 10, "Bridge"⟩] ∧
    ¬ List.Pairwise (fun a b : Incident => a.timestamp ≥ b.timestamp)
      (showActiveIncidents 20
        [⟨"Downtown", "🚨 Accident", 1, 0, "General"⟩, ⟨"Main St", "🔧 Roadwork", 2, 10, "Bridge"⟩]).1 := by
  refine ⟨by decide!, ?_⟩
  have h : (showActiveIncidents 20
        [⟨"Downtown", "🚨 Accident", 1, 0, "General"⟩, ⟨"Main St", "🔧 Roadwork", 2, 10, "Bridge"⟩]).1
      = [⟨"Downtown", "🚨 Accident", 1, 0, "General"⟩, ⟨"Main St", "🔧 Roadwork", 2, 10, "Bridge"⟩] := by
    decide!
  rw [h]
  intro hp
  have := (List.pairwise_cons.mp hp).1 _ (List.mem_singleton_self _)
  simp at this

/-! ### Substrings and comma-separated entries -/

theorem isPrefixChars_iff (pat s : List Char) : isPrefixChars pat s = true ↔ pat <+: s := by
  induction pat generalizing s with
  | nil => simp [isPrefixChars]
  | cons p ps ih =>
    cases s with
    | nil => simp [isPrefixChars]
    | cons c cs => simp [isPrefixChars, ih]

theorem containsChars_iff (pat s : List Char) : containsChars pat s = true ↔ pat <:+: s := by
  induction s with
  | nil => simp [containsChars, isPrefixChars_iff]
  | cons c cs ih =>
    simp only [containsChars, Bool.or_eq_true, isPrefixChars_iff, ih]
    exact List.infix_cons_iff.symm

theorem hasSubstr_iff (s pat : String) : hasSubstr s pat = true ↔ pat.data <:+: s.data :=
  containsChars_iff pat.data s.data

theorem splitOnComma_ne_nil (s : List Char) : splitOnComma s ≠ [] := by
  cases s with
  | nil => simp [splitOnComma]
  | cons c cs =>
    simp only [splitOnComma]
    split_ifs
    · simp
    · split <;> simp

theorem joinWithCommas_splitOnComma (s : List Char) : joinWithCommas (splitOnComma s) = s := by
  induction s with
  | nil => rfl
  | cons c cs ih =>
    simp only [splitOnComma]
    have hne := splitOnComma_ne_nil cs
    cases hsp : splitOnComma cs with
    | nil => exact absurd hsp hne
    | cons t ts =>
      rw [hsp] at ih
      split_ifs with hc
      · simp only [joinWithCommas, List.nil_append, ih, hc]
      · cases ts with
        | nil =>
          simp only [joinWithCommas] at ih ⊢
          rw [ih]
        | cons u rest =>
          simp only [joinWithCommas, List.cons_append] at ih ⊢
          rw [ih]

theorem splitOnComma_no_comma (s : List Char) : ∀ t ∈ splitOnComma s, ',' ∉ t := by
  induction s with
  | nil => simp [splitOnComma]
  | cons c cs ih =>
    intro t ht
    simp only [splitOnComma] at ht
    split_ifs at ht with hc
    · rcases List.mem_cons.mp ht with h | h
      · rw [h]; simp
      · exact ih t h
    · cases hsp : splitOnComma cs with
      | nil => exact absurd hsp (splitOnComma_ne_nil cs)
      | cons t0 ts =>
        rw [hsp] at ht ih
        rcases List.mem_cons.mp ht with h | h
        · rw [h]
          intro hmem
          rcases List.mem_cons.mp hmem with h1 | h1
          · exact hc h1.symm
          · exact ih t0 (List.mem_cons_self _ _) h1
        · exact ih t (List.mem_cons_of_mem _ h)

theorem canUseRoad_eq (v : Vehicle) (r : String) :
    v.canUseRoad r = true ↔
      "All".data <:+: v.allowedRoads.data ∨ r.data ∈ getlineTokens v.allowedRoads.data := by
  unfold Vehicle.canUseRoad
  by_cases h : hasSubstr v.allowedRoads "All" = true
  · simp only [h, if_true, true_iff]
    exact Or.inl ((hasSubstr_iff _ _).mp h)
  · have h' : ¬ "All".data <:+: v.allowedRoads.data := fun hh => h ((hasSubstr_iff _ _).mpr hh)
    rw [if_neg h, List.any_eq_true]
    simp only [decide_eq_true_eq]
    constructor
    · rintro ⟨a, ha, heq⟩
      exact Or.inr (heq ▸ ha)
    · rintro (hh | hr)
      · exact absurd hh h'
      · exact ⟨_, hr, rfl⟩

theorem make_allowedRoads (t : VehicleType) (emerg : Bool) :
    (Vehicle.make t emerg).allowedRoads = (Vehicle.make t false).allowedRoads := by
  cases t <;> cases emerg <;> rfl

theorem canUseRoad_builtin (t : VehicleType) (emerg : Bool) (r : String) :
    (Vehicle.make t emerg).canUseRoad r = true ↔ r ∈ builtinRoads t := by
  have hmem : ∀ (l : List String), r.data ∈ l.map String.data ↔ r ∈ l := by
    intro l
    simp only [List.mem_map]
    constructor
    · rintro ⟨s, hs, h⟩
      rw [← String.ext h]; exact hs
    · intro h; exact ⟨r, h, rfl⟩
  rw [canUseRoad_eq, make_allowedRoads]
  cases t
  · have h1 : ¬ "All".data <:+: (Vehicle.make VehicleType.CAR false).allowedRoads.data := by
      rw [← hasSubstr_iff]; decide!
    have h2 : getlineTokens (Vehicle.make VehicleType.CAR false).allowedRoads.data
        = (builtinRoads VehicleType.CAR).map String.data := by decide!
    rw [h2, hmem]; simp [h1]
  · have h1 : ¬ "All".data <:+: (Vehicle.make VehicleType.BIKE false).allowedRoads.data := by
      rw [← hasSubstr_iff]; decide!
    have h2 : getlineTokens (Vehicle.make VehicleType.BIKE false).allowedRoads.data
        = (builtinRoads VehicleType.BIKE).map String.data := by decide!
    rw [h2, hmem]; simp [h1]
  · have h1 : ¬ "All".data <:+: (Vehicle.make VehicleType.BUS false).allowedRoads.data := by
      rw [← hasSubstr_iff]; decide!
    have h2 : getlineTokens (Vehicle.make VehicleType.BUS false).allowedRoads.data
        = (builtinRoads VehicleType.BUS).map String.data := by decide!
    rw [h2, hmem]; simp [h1]
  · have h1 : ¬ "All".data <:+: (Vehicle.make VehicleType.AMBULANCE false).allowedRoads.data := by
      rw [← hasSubstr_iff]; decide!
    have h2 : getlineTokens (Vehicle.make VehicleType.AMBULANCE false).allowedRoads.data
        = (builtinRoads VehicleType.AMBULANCE).map String.data := by decide!
    rw [h2, hmem]; simp [h1]
  · have h1 : ¬ "All".data <:+: (Vehicle.make VehicleType.POLICE false).allowedRoads.data := by
      rw [← hasSubstr_iff]; decide!
    have h2 : getlineTokens (Vehicle.make VehicleType.POLICE false).allowedRoads.data
        = (builtinRoads VehicleType.POLICE).map String.data := by decide!
    rw [h2, hmem]; simp [h1]
  · have h1 : ¬ "All".data <:+: (Vehicle.make VehicleType.FIRE_TRUCK false).allowedRoads.data := by
      rw [← hasSubstr_iff]; decide!
    have h2 : getlineTokens (Vehicle.make VehicleType.FIRE_TRUCK false).allowedRoads.data
        = (builtinRoads VehicleType.FIRE_TRUCK).map String.data := by decide!
    rw [h2, hmem]; simp [h1]

/-- C18 (as amended): for every vehicle (any `allowedRoads` string) and every road type
`r`, `canUseRoad(r)` is true if and only if "All" occurs somewhere in `allowedRoads` (as a
substring, not necessarily as an entry) or `r` equals one of the entries `getline` yields:
the pieces of `allowedRoads` between its commas, a final empty piece left out. For the six
built-in kinds, with or without the emergency flag, it is exactly membership in the kind's
listed road types. -/
theorem canUseRoad_iff (v : Vehicle) (r : String) :
    (v.canUseRoad r = true ↔
      "All".data <:+: v.allowedRoads.data ∨ r.data ∈ getlineTokens v.allowedRoads.data) ∧
    joinWithCommas (splitOnComma v.allowedRoads.data) = v.allowedRoads.data ∧
    (∀ t ∈ splitOnComma v.allowedRoads.data, ',' ∉ t) ∧
    getlineTokens v.allowedRoads.data
      = (if (splitOnComma v.allowedRoads.data).getLast? = some []
         then (splitOnComma v.allowedRoads.data).dropLast else splitOnComma v.allowedRoads.data) ∧
    (∀ t emerg, (Vehicle.make t emerg).canUseRoad r = true ↔ r ∈ builtinRoads t) :=
  ⟨canUseRoad_eq v r, joinWithCommas_splitOnComma _, splitOnComma_no_comma _, rfl,
   fun t emerg => canUseRoad_builtin t emerg r⟩

/-- C18 (the claim as stated fails): a vehicle whose `allowedRoads` is "Alley,General" has
the entries "Alley" and "General", none of them "All" or "Highway", yet `canUseRoad` is
true for "Highway": the string "All" occurs inside "Alley". -/
theorem canUseRoad_alley :
    splitOnComma alleyVehicle.allowedRoads.data = ["Alley".data, "General".data] ∧
    "Highway".data ∉ splitOnComma alleyVehicle.allowedRoads.data ∧
    "All".data ∉ splitOnComma alleyVehicle.allowedRoads.data ∧
    alleyVehicle.canUseRoad "Highway" = true := by
  refine ⟨by decide!, by decide!, by decide!, by decide!⟩

/-! ### Incidents that block an edge -/

theorem displayName_not_location (u : String) : getRoadTypeDisplayName u ∉ incidentLocations := by
  unfold getRoadTypeDisplayName
  split_ifs <;> decide

theorem isBlockedByIncident_generated (g : Graph) (incidents : List Incident) (u : String)
    (edge : Edge) (hloc : ∀ i ∈ incidents, i.location ∈ incidentLocations) :
    isBlockedByIncident g incidents u edge = true ↔
      ∃ i ∈ incidents, (i.location = u ∨ i.location = edge.destination) ∧
        (i.roadType = edge.roadType ∨ i.roadType = "All" ∨
          i.roadType.data <:+: edge.roadType.data) := by
  simp only [isBlockedByIncident, List.any_eq_true, Bool.and_eq_true, Bool.or_eq_true,
    decide_eq_true_eq, hasSubstr_iff]
  constructor
  · rintro ⟨i, hi, hl, hrt⟩
    refine ⟨i, hi, ?_, by tauto⟩
    rcases hl with (h | h) | ⟨_, h⟩
    · exact Or.inr h
    · exact Or.inl h
    · exact absurd (h ▸ hloc i hi) (displayName_not_location u)
  · rintro ⟨i, hi, hl, hrt⟩
    exact ⟨i, hi, by tauto, by tauto⟩

/-- C15 (evaluation at the failing input): on the default roads, with the one stored
incident at "Downtown" affecting "General" roads that `generateIncident` created at time 0,
at time 1000 the incident is expired and the store holds no incident that is not, yet the
search treats the edge "Downtown" -> "Market St" (road type "General") as blocked by an
incident. On every store `generateIncident` can build, the test is the one the claim
states but for the age of the incident: the display name never matches. -/
theorem expired_incident_blocks_edge :
    generateIncident downtownDraws 0 [] = [⟨"Downtown", "🚨 Accident", 1, 0, "General"⟩] ∧
    (generateIncident downtownDraws 0 []).filter (fun i => !isExpired 1000 i) = [] ∧
    (mapFind (runOps Graph.empty defaultRoads).adjList "Downtown").map
        (fun edges => edges.filter (fun edge => decide (edge.destination = "Market St")))
      = some [⟨"Market St", 120, 30, false, 0, "General"⟩] ∧
    isBlockedByIncident (runOps Graph.empty defaultRoads) (generateIncident downtownDraws 0 [])
      "Downtown" ⟨"Market St", 120, 30, false, 0, "General"⟩ = true ∧
    (∀ (g : Graph) (rand : Nat → Nat) (now : Int) (u : String) (edge : Edge),
      isBlockedByIncident g (generateIncident rand now []) u edge = true ↔
        ∃ i ∈ generateIncident rand now [], (i.location = u ∨ i.location = edge.destination) ∧
          (i.roadType = edge.roadType ∨ i.roadType = "All" ∨
            i.roadType.data <:+: edge.roadType.data)) := by
  refine ⟨by decide!, by decide!, by decide!, by decide!, fun g rand now u edge => ?_⟩
  apply isBlockedByIncident_generated
  intro i hi
  simp only [generateIncident] at hi
  split_ifs at hi
  · simp only [List.nil_append, List.mem_singleton] at hi
    subst hi
    have hlt : rand 1 % incidentLocations.length < incidentLocations.length :=
      Nat.mod_lt _ (by decide)
    simp only [List.getD_eq_getElem?_getD, List.getElem?_eq_getElem hlt, Option.getD_some]
    exact List.getElem_mem _
  · simp at hi

/-! ### The key order of the adjacency list -/

theorem char_toNat_inj (a b : Char) (h : a.toNat = b.toNat) : a = b := by
  apply Char.ext
  apply UInt32.ext
  exact h

theorem charsLt_irrefl (a : List Char) : charsLt a a = false := by
  induction a with
  | nil => rfl
  | cons x xs ih => simp [charsLt, ih]

theorem charsLt_trans (a b c : List Char) (hab : charsLt a b = true) (hbc : charsLt b c = true) :
    charsLt a c = true := by
  induction a generalizing b c with
  | nil =>
    cases b with
    | nil => simp [charsLt] at hab
    | cons y ys =>
      cases c with
      | nil => simp [charsLt] at hbc
      | cons z zs => rfl
  | cons x xs ih =>
    cases b with
    | nil => simp [charsLt] at hab
    | cons y ys =>
      cases c with
      | nil => simp [charsLt] at hbc
      | cons z zs =>
        simp only [charsLt] at hab hbc ⊢
        by_cases hxy : x.toNat < y.toNat
        · by_cases hyz : y.toNat < z.toNat
          · rw [if_pos (by omega)]
          · rw [if_neg hyz] at hbc
            by_cases hzy : z.toNat < y.toNat
            · rw [if_pos hzy] at hbc
              cases hbc
            · rw [if_pos (by omega)]
        · rw [if_neg hxy] at hab
          by_cases hyx : y.toNat < x.toNat
          · rw [if_pos hyx] at hab
            cases hab
          · rw [if_neg hyx] at hab
            by_cases hyz : y.toNat < z.toNat
            · rw [if_pos (by omega)]
            · rw [if_neg hyz] at hbc
              by_cases hzy : z.toNat < y.toNat
              · rw [if_pos hzy] at hbc
                cases hbc
              · rw [if_neg hzy] at hbc
                rw [if_neg (by omega), if_neg (by omega)]
                exact ih _ _ hab hbc

theorem charsLt_total (a b : List Char) (hab : charsLt a b = false) (hba : charsLt b a = false) :
    a = b := by
  induction a generalizing b with
  | nil =>
    cases b with
    | nil => rfl
    | cons y ys => simp [charsLt] at hab
  | cons x xs ih =>
    cases b with
    | nil => simp [charsLt] at hba
    | cons y ys =>
      simp only [charsLt] at hab hba
      by_cases hxy : x.toNat < y.toNat
      · rw [if_pos hxy] at hab
        cases hab
      · by_cases hyx : y.toNat < x.toNat
        · rw [if_pos hyx] at hba
          cases hba
        · rw [if_neg hxy, if_neg hyx] at hab
          rw [if_neg hyx, if_neg hxy] at hba
          have hxy2 : x = y := char_toNat_inj x y (by omega)
          rw [hxy2, ih ys hab hba]

theorem strLt_irrefl (a : String) : strLt a a = false := charsLt_irrefl a.data

theorem strLt_trans (a b c : String) (hab : strLt a b = true) (hbc : strLt b c = true) :
    strLt a c = true := charsLt_trans _ _ _ hab hbc

theorem strLt_asymm (a b : String) (hab : strLt a b = true) : strLt b a = false := by
  cases h : strLt b a with
  | false => rfl
  | true =>
    have := strLt_trans a b a hab h
    rw [strLt_irrefl] at this
    cases this

theorem strLt_total (a b : String) (hne : a ≠ b) (hab : ¬ strLt a b = true) : strLt b a = true := by
  cases h : strLt b a with
  | true => rfl
  | false =>
    exfalso
    apply hne
    apply String.ext
    exact charsLt_total _ _ (by simpa [strLt] using hab) h

theorem mapInsert_sorted {α : Type} (k : String) (v : α) (m : List (String × α))
    (hm : KeysSorted m) : KeysSorted (mapInsert strLt k v m) := by
  induction m with
  | nil => simp [mapInsert, KeysSorted]
  | cons hd tl ih =>
    obtain ⟨k0, v0⟩ := hd
    have hm' := List.pairwise_cons.mp hm
    simp only [mapInsert]
    split_ifs with h1 h2
    · subst h1
      exact List.pairwise_cons.mpr ⟨hm'.1, hm'.2⟩
    · refine List.pairwise_cons.mpr ⟨?_, hm⟩
      intro x hx
      rcases List.mem_cons.mp hx with hx | hx
      · rw [hx]; exact h2
      · exact strLt_trans _ _ _ h2 (hm'.1 x hx)
    · refine List.pairwise_cons.mpr ⟨?_, ih hm'.2⟩
      intro x hx
      rcases mem_mapInsert _ _ _ _ _ hx with hx | hx
      · rw [hx]; exact strLt_total k k0 h1 h2
      · exact hm'.1 x hx

theorem mapFind_none_of_lt {α : Type} (k : String) (m : List (String × α))
    (h : ∀ x ∈ m, strLt k x.1 = true) : mapFind m k = none := by
  induction m with
  | nil => rfl
  | cons hd tl ih =>
    obtain ⟨k0, v0⟩ := hd
    have h0 : strLt k k0 = true := h (k0, v0) (List.mem_cons_self _ _)
    have hne : k ≠ k0 := by
      intro heq
      rw [heq, strLt_irrefl] at h0
      cases h0
    simp only [mapFind, if_neg hne]
    exact ih (fun x hx => h x (List.mem_cons_of_mem _ hx))

theorem lengthSum_mapInsert (k : String) (v : List Edge) (m : List (String × List Edge))
    (hm : KeysSorted m) :
    ((mapInsert strLt k v m).map (fun nodePair => nodePair.2.length)).sum
        + ((mapFind m k).getD []).length
      = (m.map (fun nodePair => nodePair.2.length)).sum + v.length := by
  induction m with
  | nil => simp [mapInsert, mapFind]
  | cons hd tl ih =>
    obtain ⟨k0, v0⟩ := hd
    have hm' := List.pairwise_cons.mp hm
    simp only [mapInsert, mapFind]
    split_ifs with h1 h2
    · simp only [List.map_cons, List.sum_cons, Option.getD_some]
      omega
    · have hnone : mapFind tl k = none :=
        mapFind_none_of_lt k tl (fun x hx => strLt_trans _ _ _ h2 (hm'.1 x hx))
      simp only [List.map_cons, List.sum_cons, hnone, Option.getD_none, List.length_nil]
      omega
    · have := ih hm'.2
      simp only [List.map_cons, List.sum_cons]
      omega

theorem pushEdge_sorted (adj : List (String × List Edge)) (u : String) (e : Edge)
    (h : KeysSorted adj) : KeysSorted (pushEdge adj u e) :=
  mapInsert_sorted _ _ _ h

theorem lengthSum_pushEdge (adj : List (String × List Edge)) (u : String) (e : Edge)
    (h : KeysSorted adj) :
    ((pushEdge adj u e).map (fun nodePair => nodePair.2.length)).sum
      = (adj.map (fun nodePair => nodePair.2.length)).sum + 1 := by
  have := lengthSum_mapInsert u ((mapFind adj u).getD [] ++ [e]) adj h
  simp only [List.length_append, List.length_singleton] at this
  simp only [pushEdge]
  omega

theorem addRoad_sorted (g : Graph) (u v : String) (w sd : Int) (rt : String)
    (h : KeysSorted g.adjList) : KeysSorted (addRoad g u v w sd rt).adjList :=
  pushEdge_sorted _ _ _ (pushEdge_sorted _ _ _ h)

theorem totalEdges_addRoad (g : Graph) (u v : String) (w sd : Int) (rt : String)
    (h : KeysSorted g.adjList) :
    totalEdges (addRoad g u v w sd rt) = totalEdges g + 2 := by
  simp only [totalEdges, addRoad]
  rw [lengthSum_pushEdge _ _ _ (pushEdge_sorted _ _ _ h), lengthSum_pushEdge _ _ _ h]

/-! ### Adding roads -/

theorem mapFind_addRoad (g : Graph) (u v : String) (w sd : Int) (rt : String) (x : String) :
    mapFind (addRoad g u v w sd rt).adjList x
      = if x = u ∨ x = v then
          some ((mapFind g.adjList x).getD []
            ++ (if x = u then [Edge.make v w sd rt] else [])
            ++ (if x = v then [Edge.make u w sd rt] else []))
        else mapFind g.adjList x := by
  simp only [addRoad, mapFind_pushEdge]
  by_cases hv : x = v
  · by_cases hu : x = u
    · subst hv
      subst hu
      simp
    · subst hv
      have hu' : ¬ u = x := fun h => hu h.symm
      simp [hu, hu']
  · by_cases hu : x = u
    · subst hu
      simp [hv]
    · simp [hu, hv]

theorem addRoad_ne (g : Graph) (u v : String) (w sd : Int) (rt : String) :
    addRoad g u v w sd rt ≠ g := by
  intro h
  have h1 := mapFind_addRoad g u v w sd rt u
  rw [h] at h1
  simp only [true_or, if_true] at h1
  have h2 := congrArg (fun o => (o.getD []).length) h1
  simp only [Option.getD_some, List.length_append, List.length_cons, List.length_nil] at h2
  split_ifs at h2
  · simp at h2
    omega
  · simp at h2

theorem runOps_sorted (ops : List Op) (g : Graph) (hops : ∀ op ∈ ops, op.isAddRoad = true)
    (hg : KeysSorted g.adjList) : KeysSorted (runOps g ops).adjList := by
  induction ops generalizing g with
  | nil => exact hg
  | cons op rest ih =>
    simp only [runOps, List.foldl_cons]
    have hop := hops op (List.mem_cons_self _ _)
    cases op with
    | addRoad u v w sd rt =>
      exact ih _ (fun o ho => hops o (List.mem_cons_of_mem _ ho)) (addRoad_sorted g u v w sd rt hg)
    | menuAddRoad _ _ _ _ _ => cases hop
    | rushHour _ => cases hop
    | weather _ => cases hop
    | manualBlock _ _ _ => cases hop

theorem totalEdges_runOps (ops : List Op) (g : Graph) (hops : ∀ op ∈ ops, op.isAddRoad = true)
    (hg : KeysSorted g.adjList) : totalEdges (runOps g ops) = totalEdges g + 2 * ops.length := by
  induction ops generalizing g with
  | nil => simp [runOps]
  | cons op rest ih =>
    simp only [runOps, List.foldl_cons]
    have hop := hops op (List.mem_cons_self _ _)
    cases op with
    | addRoad u v w sd rt =>
      have := ih (addRoad g u v w sd rt) (fun o ho => hops o (List.mem_cons_of_mem _ ho))
        (addRoad_sorted g u v w sd rt hg)
      simp only [runOps] at this
      simp only [Op.apply, this, totalEdges_addRoad g u v w sd rt hg, List.length_cons]
      omega
    | menuAddRoad _ _ _ _ _ => cases hop
    | rushHour _ => cases hop
    | weather _ => cases hop
    | manualBlock _ _ _ => cases hop

theorem mem_addRoad_old (g : Graph) (u v : String) (w sd : Int) (rt : String) (x : String)
    (edges : List Edge) (h : mapFind g.adjList x = some edges) :
    ∃ edges', mapFind (addRoad g u v w sd rt).adjList x = some edges' ∧ ∀ e ∈ edges, e ∈ edges' := by
  rw [mapFind_addRoad, h]
  by_cases hx : x = u ∨ x = v
  · rw [if_pos hx]
    refine ⟨_, rfl, fun e he => ?_⟩
    simp only [Option.getD_some, List.mem_append]
    exact Or.inl (Or.inl he)
  · rw [if_neg hx]
    exact ⟨_, rfl, fun e he => he⟩

theorem addRoad_mirrored (g : Graph) (u v : String) (w sd : Int) (rt : String)
    (hg : g.Mirrored) : (addRoad g u v w sd rt).Mirrored := by
  have hnew_u : ∃ l, mapFind (addRoad g u v w sd rt).adjList u = some l ∧
      Edge.make v w sd rt ∈ l := by
    rw [mapFind_addRoad]
    simp only [true_or, if_true]
    exact ⟨_, rfl, by simp⟩
  have hnew_v : ∃ l, mapFind (addRoad g u v w sd rt).adjList v = some l ∧
      Edge.make u w sd rt ∈ l := by
    rw [mapFind_addRoad]
    simp only [or_true, if_true]
    exact ⟨_, rfl, by simp⟩
  have hold : ∀ x edges, mapFind g.adjList x = some edges → ∀ e ∈ edges,
      ∃ back, mapFind (addRoad g u v w sd rt).adjList e.destination = some back ∧
        ∃ m ∈ back, m.destination = x ∧ m.weight = e.weight ∧
          m.signalDelay = e.signalDelay ∧ m.roadType = e.roadType := by
    intro x edges hx e he
    obtain ⟨back, hback, m, hm, hrest⟩ := hg x edges hx e he
    obtain ⟨back', hback', hsub⟩ := mem_addRoad_old g u v w sd rt _ back hback
    exact ⟨back', hback', m, hsub m hm, hrest⟩
  intro x edges hx e he
  rw [mapFind_addRoad] at hx
  by_cases hxuv : x = u ∨ x = v
  · rw [if_pos hxuv] at hx
    injection hx with hx
    rw [← hx] at he
    simp only [List.mem_append] at he
    rcases he with (he | he) | he
    · cases hf : mapFind g.adjList x with
      | none => rw [hf] at he; simp at he
      | some old =>
        rw [hf] at he
        exact hold x old hf e he
    · by_cases hxu : x = u
      · rw [if_pos hxu, List.mem_singleton] at he
        subst he
        obtain ⟨l, hl, hm⟩ := hnew_v
        exact ⟨l, hl, _, hm, hxu.symm, rfl, rfl, rfl⟩
      · rw [if_neg hxu] at he
        simp at he
    · by_cases hxv : x = v
      · rw [if_pos hxv, List.mem_singleton] at he
        subst he
        obtain ⟨l, hl, hm⟩ := hnew_u
        exact ⟨l, hl, _, hm, hxv.symm, rfl, rfl, rfl⟩
      · rw [if_neg hxv] at he
        simp at he
  · rw [if_neg hxuv] at hx
    exact hold x edges hx e he

theorem runOps_mirrored (ops : List Op) (g : Graph) (hops : ∀ op ∈ ops, op.isAddRoad = true)
    (hg : g.Mirrored) : (runOps g ops).Mirrored := by
  induction ops generalizing g with
  | nil => exact hg
  | cons op rest ih =>
    simp only [runOps, List.foldl_cons]
    have hop := hops op (List.mem_cons_self _ _)
    cases op with
    | addRoad u v w sd rt =>
      exact ih _ (fun o ho => hops o (List.mem_cons_of_mem _ ho)) (addRoad_mirrored g u v w sd rt hg)
    | menuAddRoad _ _ _ _ _ => cases hop
    | rushHour _ => cases hop
    | weather _ => cases hop
    | manualBlock _ _ _ => cases hop

/-- C13: a call `addRoad(u, v, w, sd, t)` on any network puts one new edge to `v` at the end of
the list of `u` and one new edge to `u` at the end of the list of `v`, both with weight `w`,
signal delay `sd`, road type `t`, not blocked and with congestion 0, whether or not a road
between `u` and `v` exists already; the edges that were there stay where they were, and the
lists of the other nodes are not touched. After `n` calls on a fresh network the lists hold
`2 n` edges in all, and every edge has a mirror edge with the same weight, delay and type. -/
theorem addRoad_appends_pair (g : Graph) (u v : String) (w sd : Int) (t : String)
    (ops : List Op) (hops : ∀ op ∈ ops, op.isAddRoad = true) :
    (∀ x, mapFind (addRoad g u v w sd t).adjList x
      = if x = u ∨ x = v then
          some ((mapFind g.adjList x).getD []
            ++ (if x = u then [⟨v, w, sd, false, 0, t⟩] else [])
            ++ (if x = v then [⟨u, w, sd, false, 0, t⟩] else []))
        else mapFind g.adjList x) ∧
    (KeysSorted g.adjList → totalEdges (addRoad g u v w sd t) = totalEdges g + 2) ∧
    totalEdges (runOps Graph.empty ops) = 2 * ops.length ∧
    (runOps Graph.empty ops).Mirrored := by
  refine ⟨fun x => mapFind_addRoad g u v w sd t x, totalEdges_addRoad g u v w sd t, ?_, ?_⟩
  · rw [totalEdges_runOps ops Graph.empty hops (by simp [KeysSorted, Graph.empty])]
    simp [totalEdges, Graph.empty]
  · exact runOps_mirrored ops Graph.empty hops
      (fun x edges hx => by simp [Graph.empty, mapFind] at hx)

theorem addRoad_appends_pair_witness :
    (∀ op ∈ mixedRoads, op.isAddRoad = true) ∧
    (∀ x, mapFind (addRoad (runOps Graph.empty mixedRoads) "A" "B" 20 2 "Tunnel").adjList x
      = if x = "A" ∨ x = "B" then
          some ((mapFind (runOps Graph.empty mixedRoads).adjList x).getD []
            ++ (if x = "A" then [⟨"B", 20, 2, false, 0, "Tunnel"⟩] else [])
            ++ (if x = "B" then [⟨"A", 20, 2, false, 0, "Tunnel"⟩] else []))
        else mapFind (runOps Graph.empty mixedRoads).adjList x) ∧
    (KeysSorted (runOps Graph.empty mixedRoads).adjList →
      totalEdges (addRoad (runOps Graph.empty mixedRoads) "A" "B" 20 2 "Tunnel")
        = totalEdges (runOps Graph.empty mixedRoads) + 2) ∧
    totalEdges (runOps Graph.empty mixedRoads) = 2 * mixedRoads.length ∧
    (runOps Graph.empty mixedRoads).Mirrored :=
  ⟨by decide, addRoad_appends_pair (runOps Graph.empty mixedRoads) "A" "B" 20 2 "Tunnel"
    mixedRoads (by decide)⟩

/-- C14 (amended): the checks are made by the menu's add-road case, not by `addRoad` itself.
The menu case leaves the network as it is whenever `u` is empty, `v` is empty, `u = v`,
`w ≤ 0` or `sd < 0`; when none of these holds and both numbers fit an `int`, it makes the call
`addRoad(u, v, w, sd, t)`, with "General" for an empty type, and that call changes the
network. -/
theorem menuAddRoad_validates (g : Graph) (u v : String) (w sd : Int) (type : String) :
    ((u = "" ∨ v = "" ∨ u = v ∨ w ≤ 0 ∨ sd < 0) → menuAddRoad g u v w sd type = g) ∧
    (menuAddRoad g u v w sd type ≠ g →
      u ≠ "" ∧ v ≠ "" ∧ u ≠ v ∧ 0 < w ∧ 0 ≤ sd) ∧
    (u ≠ "" → v ≠ "" → u ≠ v → 0 < w → 0 ≤ sd → w ≤ INT_MAX → sd ≤ INT_MAX →
      menuAddRoad g u v w sd type = addRoad g u v w sd (if type = "" then "General" else type) ∧
      menuAddRoad g u v w sd type ≠ g) := by
  have hmin : INT_MIN = -2147483648 := rfl
  refine ⟨?_, ?_, ?_⟩
  · intro h
    unfold menuAddRoad
    split_ifs <;> first | rfl | (exfalso; rcases h with h | h | h | h | h <;> contradiction)
  · intro h
    unfold menuAddRoad at h
    split_ifs at h <;> first | exact absurd rfl h | refine ⟨by assumption, by assumption, by assumption, by omega, by omega⟩
  · intro hu hv huv hw hsd hwmax hsdmax
    have heq : menuAddRoad g u v w sd type
        = addRoad g u v w sd (if type = "" then "General" else type) := by
      unfold menuAddRoad
      rw [if_neg hu, if_neg hv, if_neg huv, if_neg (by omega), if_neg (by omega),
        if_neg (by omega), if_neg (by omega)]
    exact ⟨heq, by rw [heq]; exact addRoad_ne _ _ _ _ _ _⟩

/-- C14 (amended) at the fresh network: the menu input A, B, 100, 0 with an empty type passes
the checks and adds the road as "General"; the same input with weight 0 is rejected. -/
theorem menuAddRoad_validates_witness :
    (menuAddRoad Graph.empty "A" "B" 100 0 ""
        = addRoad Graph.empty "A" "B" 100 0 (if "" = "" then "General" else "") ∧
      menuAddRoad Graph.empty "A" "B" 100 0 "" ≠ Graph.empty) ∧
    menuAddRoad Graph.empty "A" "B" 0 0 "" = Graph.empty :=
  ⟨(menuAddRoad_validates Graph.empty "A" "B" 100 0 "").2.2 (by decide) (by decide) (by decide)
      (by decide) (by decide) (by decide) (by decide),
   (menuAddRoad_validates Graph.empty "A" "B" 0 0 "").1 (Or.inr (Or.inr (Or.inr (Or.inl (by decide)))))⟩

/-- C14, counterexample: a direct call `addRoad("", "", -5, -1, "General")` on the fresh network
is not rejected; it stores two edges and two base edges. -/
theorem addRoad_accepts_invalid :
    addRoad Graph.empty "" "" (-5) (-1) "General"
      = ⟨[("", [⟨"", -5, -1, false, 0, "General"⟩, ⟨"", -5, -1, false, 0, "General"⟩])],
         [(("", ""), ⟨"", -5, -1, false, 0, "General"⟩)]⟩ ∧
    addRoad Graph.empty "" "" (-5) (-1) "General" ≠ Graph.empty := by
  refine ⟨by decide!, by decide!⟩

/-! ### What the weather rewrite leaves alone -/

/-- C21: for every network and every weather, `applyWeatherEffects` leaves the base-edge
table as it is and keeps the nodes, their order, and the number and order of the edges in
every list; every edge keeps its destination, signal delay, blocked flag, congestion and
road type: each list is the old list with nothing but the field `weight` replaced. -/
theorem applyWeatherEffects_frame (cw : WeatherType) (g : Graph) :
    (applyWeatherEffects cw g).baseEdges = g.baseEdges ∧
    (applyWeatherEffects cw g).adjList.map Prod.fst = g.adjList.map Prod.fst ∧
    (applyWeatherEffects cw g).adjList.map (fun nodePair => nodePair.2.length)
      = g.adjList.map (fun nodePair => nodePair.2.length) ∧
    g.SameButWeights (applyWeatherEffects cw g) ∧
    (∀ x, mapFind (applyWeatherEffects cw g).adjList x
      = (mapFind g.adjList x).map (fun edges => edges.map (fun edge =>
          { edge with weight := (weatherEdge (getWeatherMultiplier cw) g x edge).weight }))) := by
  refine ⟨rfl, ?_, ?_, applyWeatherMult_sameButWeights _ _, fun x => ?_⟩
  · simp [applyWeatherEffects, applyWeatherMult, List.map_map, Function.comp_def]
  · simp [applyWeatherEffects, applyWeatherMult, List.map_map, Function.comp_def]
  · rw [applyWeatherEffects, mapFind_applyWeatherMult]
    rfl

/-! ### Rush hour followed by a query -/

theorem weatherEdge_congr (m : ℚ) (g g' : Graph) (h : g'.baseEdges = g.baseEdges) (node : String)
    (edge : Edge) : weatherEdge m g' node edge = weatherEdge m g node edge := by
  simp only [weatherEdge, originalWeight, h]

theorem weather_rushHourEdges (m : ℚ) (g : Graph) (rand : Nat → Nat) (node : String)
    (k : Nat) (edges : List Edge)
    (h : ∀ edge ∈ edges, originalWeight g node edge.destination ≠ 0) :
    (rushHourEdges g rand node k edges).map (weatherEdge m g node)
      = (congestionOnlyEdges rand k edges).map (weatherEdge m g node) := by
  induction edges generalizing k with
  | nil => rfl
  | cons edge rest ih =>
    have hne := h edge (List.mem_cons_self _ _)
    simp only [rushHourEdges, congestionOnlyEdges, List.map_cons]
    rw [ih (k + 1) (fun e he => h e (List.mem_cons_of_mem _ he))]
    congr 1
    simp only [weatherEdge, if_neg hne]

theorem weather_rushHourNodes (m : ℚ) (g : Graph) (rand : Nat → Nat) (k : Nat)
    (adj : List (String × List Edge))
    (h : ∀ node ∈ adj, ∀ edge ∈ node.2, originalWeight g node.1 edge.destination ≠ 0) :
    (rushHourNodes g rand k adj).map
        (fun nodePair => (nodePair.1, nodePair.2.map (weatherEdge m g nodePair.1)))
      = (congestionOnlyNodes rand k adj).map
        (fun nodePair => (nodePair.1, nodePair.2.map (weatherEdge m g nodePair.1))) := by
  induction adj generalizing k with
  | nil => rfl
  | cons node rest ih =>
    simp only [rushHourNodes, congestionOnlyNodes, List.map_cons]
    rw [ih _ (fun n hn => h n (List.mem_cons_of_mem _ hn)),
      weather_rushHourEdges m g rand node.1 k node.2 (h node (List.mem_cons_self _ _))]

theorem weather_after_rushHour (m : ℚ) (g : Graph) (rand : Nat → Nat)
    (hg : g.WellBased (fun q => q ≠ 0)) :
    applyWeatherMult m (applyRushHour rand g) = applyWeatherMult m (congestionOnlyRushHour rand g) := by
  have h1 : ∀ node, weatherEdge m (applyRushHour rand g) node = weatherEdge m g node :=
    fun node => funext (fun edge => weatherEdge_congr m g _ rfl node edge)
  have h2 : ∀ node, weatherEdge m (congestionOnlyRushHour rand g) node = weatherEdge m g node :=
    fun node => funext (fun edge => weatherEdge_congr m g _ rfl node edge)
  simp only [applyWeatherMult, h1, h2]
  simp only [applyRushHour, congestionOnlyRushHour]
  rw [weather_rushHourNodes m g rand 0 g.adjList
    (fun node hn edge he => originalWeight_ok _ g hg node hn edge he)]

theorem shortestPath_congr (fuel : Nat) (g g' : Graph) (incidents : List Incident)
    (cw : WeatherType) (src dest : String) (vehicle : Vehicle)
    (h : applyWeatherEffects cw g = applyWeatherEffects cw g') :
    (shortestPath fuel ⟨g, incidents, cw⟩ src dest vehicle).map Prod.fst
      = (shortestPath fuel ⟨g', incidents, cw⟩ src dest vehicle).map Prod.fst := by
  have hkeys : ∀ x, (mapFind g.adjList x).isNone = (mapFind g'.adjList x).isNone := by
    intro x
    have hx := congrArg (fun G : Graph => (mapFind G.adjList x).isNone) h
    simpa [applyWeatherEffects, mapFind_applyWeatherMult] using hx
  simp only [shortestPath, hkeys src, hkeys dest, h]
  split_ifs <;> rfl

theorem shortestPath32_congr (fuel : Nat) (g g' : Graph) (incidents : List Incident)
    (cw : WeatherType) (src dest : String) (vehicle : Vehicle)
    (h : applyWeatherEffects cw g = applyWeatherEffects cw g') :
    (shortestPath32 fuel ⟨g, incidents, cw⟩ src dest vehicle).map Prod.fst
      = (shortestPath32 fuel ⟨g', incidents, cw⟩ src dest vehicle).map Prod.fst := by
  have hkeys : ∀ x, (mapFind g.adjList x).isNone = (mapFind g'.adjList x).isNone := by
    intro x
    have hx := congrArg (fun G : Graph => (mapFind G.adjList x).isNone) h
    simpa [applyWeatherEffects, mapFind_applyWeatherMult] using hx
  simp only [shortestPath32, hkeys src, hkeys dest, h]
  split_ifs <;> rfl

/-- C25: on a network built from the empty one by `addRoad` calls with positive weights (and
by menu requests, earlier rush hours, weather rewrites and manual blocks), for every weather,
incident list, vehicle and query, the query made after a rush-hour application reports what
it would report had the rush hour only assigned the same congestion levels and left the
weights alone: the weather rewrite at the start of a validated query gives both networks the
same weights, so the outcome (error, "no path", or route with its total time) is the same,
whether the sums of the search are exact or 32-bit. -/
theorem rushHour_weights_overwritten (ops : List Op)
    (hops : ∀ op ∈ ops, op.WeightOK (fun q => 0 < q)) (rand : Nat → Nat) (cw : WeatherType)
    (incidents : List Incident) (vehicle : Vehicle) (src dest : String) (fuel : Nat) :
    applyWeatherEffects cw (applyRushHour rand (runOps Graph.empty ops))
      = applyWeatherEffects cw (congestionOnlyRushHour rand (runOps Graph.empty ops)) ∧
    (shortestPath fuel ⟨applyRushHour rand (runOps Graph.empty ops), incidents, cw⟩
        src dest vehicle).map Prod.fst
      = (shortestPath fuel ⟨congestionOnlyRushHour rand (runOps Graph.empty ops), incidents, cw⟩
        src dest vehicle).map Prod.fst ∧
    (shortestPath32 fuel ⟨applyRushHour rand (runOps Graph.empty ops), incidents, cw⟩
        src dest vehicle).map Prod.fst
      = (shortestPath32 fuel ⟨congestionOnlyRushHour rand (runOps Graph.empty ops), incidents, cw⟩
        src dest vehicle).map Prod.fst := by
  have hwb : (runOps Graph.empty ops).WellBased (fun q => q ≠ 0) :=
    runOps_wellBased _ (fun w hw => by exact_mod_cast (ne_of_gt hw)) ops Graph.empty
      (fun op hop => by
        have h := hops op hop
        cases op with
        | addRoad u v w sd rt => exact ne_of_gt h
        | menuAddRoad u v w sd type => trivial
        | rushHour r => trivial
        | weather m => trivial
        | manualBlock u v b => trivial)
      (Graph.empty_wellBased _)
  have hg := weather_after_rushHour (getWeatherMultiplier cw) (runOps Graph.empty ops) rand hwb
  exact ⟨hg, shortestPath_congr fuel _ _ incidents cw src dest vehicle hg,
    shortestPath32_congr fuel _ _ incidents cw src dest vehicle hg⟩

/-- C25 on the single road A-B of weight 100 under STORM weather, with the draws of `rand()`
being 0, 1, 2, ...: after rush hour the edge A->B has weight 150 and congestion 1, the query
rewrites the weight to 500/3, and a car takes 183 seconds, as it does when only the
congestion level is assigned. -/
theorem rushHour_weights_overwritten_witness :
    mapFind (applyRushHour (fun k => k) (runOps Graph.empty [Op.addRoad "A" "B" 100 0 "General"])).adjList
        "A" = some [⟨"B", 150, 0, false, 1, "General"⟩] ∧
    mapFind (congestionOnlyRushHour (fun k => k)
        (runOps Graph.empty [Op.addRoad "A" "B" 100 0 "General"])).adjList "A"
      = some [⟨"B", 100, 0, false, 1, "General"⟩] ∧
    (shortestPath 5 ⟨applyRushHour (fun k => k) (runOps Graph.empty [Op.addRoad "A" "B" 100 0 "General"]),
        [], WeatherType.STORM⟩ "A" "B" car).map Prod.fst
      = some (Outcome.route ⟨["A", "B"], 183, 0, 100⟩) ∧
    (shortestPath 5 ⟨applyRushHour (fun k => k) (runOps Graph.empty [Op.addRoad "A" "B" 100 0 "General"]),
        [], WeatherType.STORM⟩ "A" "B" car).map Prod.fst
      = (shortestPath 5 ⟨congestionOnlyRushHour (fun k => k)
          (runOps Graph.empty [Op.addRoad "A" "B" 100 0 "General"]), [], WeatherType.STORM⟩
          "A" "B" car).map Prod.fst :=
  ⟨by decide!, by decide!, by decide!,
   (rushHour_weights_overwritten [Op.addRoad "A" "B" 100 0 "General"]
      (by
        intro op hop
        rw [List.mem_singleton.mp hop]
        show (0 : ℚ) < ((100 : Int) : ℚ)
        norm_num)
      (fun k => k) WeatherType.STORM [] car "A" "B" 5).2.1⟩

/-! ### The car and the ambulance in emergency mode -/

theorem wrapInt_of_inRange (x : Int) (h1 : INT_MIN ≤ x) (h2 : x ≤ INT_MAX) : wrapInt x = x := by
  simp only [INT_MIN, INT_MAX] at h1 h2
  simp only [wrapInt]
  omega

theorem relaxEdge32_of_inRange (g : Graph) (incidents : List Incident) (vehicle : Vehicle)
    (u : String) (st : Search) (edge : Edge)
    (h : ∀ du, mapFind st.dist u = some du →
      INT_MIN ≤ du + timeCost edge vehicle ∧ du + timeCost edge vehicle ≤ INT_MAX) :
    relaxEdge32 g incidents vehicle u st edge = relaxEdge g incidents vehicle u st edge := by
  simp only [relaxEdge32, relaxEdge]
  cases hdu : mapFind st.dist u with
  | none => rfl
  | some du =>
    cases hdv : mapFind st.dist edge.destination with
    | none => rfl
    | some dv => simp only [wrapInt_of_inRange _ (h du hdu).1 (h du hdu).2]

theorem dijkstraLoop32_mono (g : Graph) (incidents : List Incident) (vehicle : Vehicle)
    (dest : String) :
    ∀ (fuel : Nat) (st st' : Search), dijkstraLoop32 g incidents vehicle dest fuel st = Run.ok st' →
      ∀ fuel', fuel ≤ fuel' → dijkstraLoop32 g incidents vehicle dest fuel' st = Run.ok st' := by
  intro fuel
  induction fuel with
  | zero =>
    intro st st' h fuel' _
    rw [dijkstraLoop32] at h ⊢
    cases hpop : pqPop st.pq with
    | none => simpa [hpop] using h
    | some cr => simp [hpop] at h
  | succ fuel ih =>
    intro st st' h fuel' hle
    obtain ⟨f', rfl⟩ : ∃ f', fuel' = f' + 1 := ⟨fuel' - 1, by omega⟩
    have hle' : fuel ≤ f' := by omega
    rw [dijkstraLoop32] at h ⊢
    cases hpop : pqPop st.pq with
    | none => simpa [hpop] using h
    | some cr =>
      obtain ⟨c, rest⟩ := cr
      simp only [hpop] at h ⊢
      by_cases hdest : c.2 = dest
      · simpa [hdest] using h
      · simp only [hdest, if_false] at h ⊢
        split_ifs at h ⊢ with hstale
        · exact ih _ _ h _ hle'
        · cases hes : mapFind g.adjList c.2 with
          | none => simp [hes] at h
          | some edges =>
            simp only [hes] at h ⊢
            cases hrel : relaxEdges32 g incidents vehicle c.2 edges { st with pq := rest } with
            | none => simp [hrel] at h
            | some st2 =>
              simp only [hrel] at h ⊢
              exact ih _ _ h _ hle'

theorem walkParents_cycle (fuel : Nat) :
    walkParents [("B", "C"), ("C", "B"), ("D", "B")] "A" fuel "B" = Run.fuelOut ∧
    walkParents [("B", "C"), ("C", "B"), ("D", "B")] "A" fuel "C" = Run.fuelOut := by
  induction fuel with
  | zero => exact ⟨by decide, by decide⟩
  | succ f ih =>
    constructor
    · have hne : ¬ ("B" = "A") := by decide
      have hp : mapFind [("B", "C"), ("C", "B"), ("D", "B")] "B" = some "C" := by decide
      rw [walkParents.eq_def]
      simp only [if_neg hne, hp, ih.2]
    · have hne : ¬ ("C" = "A") := by decide
      have hp : mapFind [("B", "C"), ("C", "B"), ("D", "B")] "C" = some "B" := by decide
      rw [walkParents.eq_def]
      simp only [if_neg hne, hp, ih.1]

/-- C23 (evaluation at the failing input): on the roads A-B (weight 1), B-C (weight
2147483647) and B-D (weight 1), under SUNNY weather, the only way for a car from A to C is
the edge A->B of cost 1 followed by the edge B->C of cost 2147483647, of total cost
2147483648; with the sum computed in 32-bit `int` arithmetic the query returns the path
A, B, C with the total time -2147483648. -/
theorem total_time_after_overflow :
    mapFind (applyWeatherEffects WeatherType.SUNNY (runOps Graph.empty heavyRoadOps)).adjList "A"
      = some [⟨"B", 1, 0, false, 0, "General"⟩] ∧
    mapFind (applyWeatherEffects WeatherType.SUNNY (runOps Graph.empty heavyRoadOps)).adjList "B"
      = some [⟨"A", 1, 0, false, 0, "General"⟩, ⟨"C", 2147483647, 0, false, 0, "General"⟩,
          ⟨"D", 1, 0, false, 0, "General"⟩] ∧
    pathCost car [⟨"B", 1, 0, false, 0, "General"⟩, ⟨"C", 2147483647, 0, false, 0, "General"⟩]
      = 2147483648 ∧
    wrapInt 2147483648 = -2147483648 ∧
    (shortestPath32 5 ⟨runOps Graph.empty heavyRoadOps, [], WeatherType.SUNNY⟩ "A" "C" car).map
        Prod.fst
      = some (Outcome.route ⟨["A", "B", "C"], -2147483648, 0, 2147483648⟩) := by
  refine ⟨by decide!, by decide!, by decide!, by decide!, by decide!⟩

/-- C24 (evaluation at the failing input): on the roads A-B (weight 1), B-C (weight
2147483647) and B-D (weight 1), under SUNNY weather, the query of a car from A to D, with
the sums computed in 32-bit `int` arithmetic, leaves the search loop after five iterations
with `dist[D] = 0`, `parent[D] = B`, `parent[B] = C` and `parent[C] = B`: the parent
pointers contain a cycle, the loop that follows them from D never reaches A, and the query
never returns, whatever the step budget. -/
theorem parent_cycle_after_overflow :
    dijkstraLoop32 (applyWeatherEffects WeatherType.SUNNY (runOps Graph.empty heavyRoadOps)) [] car
        "D" 5
        ⟨initDist (applyWeatherEffects WeatherType.SUNNY (runOps Graph.empty heavyRoadOps)) "A", [],
          [(0, "A")]⟩
      = Run.ok ⟨[("A", 0), ("B", -1), ("C", -2147483648), ("D", 0)],
          [("B", "C"), ("C", "B"), ("D", "B")], [(2, "D")]⟩ ∧
    (∀ fuel, walkParents [("B", "C"), ("C", "B"), ("D", "B")] "A" fuel "D" = Run.fuelOut) ∧
    (∀ fuel, shortestPath32 fuel ⟨runOps Graph.empty heavyRoadOps, [], WeatherType.SUNNY⟩
        "A" "D" car = none) := by
  have hloop : dijkstraLoop32
      (applyWeatherEffects WeatherType.SUNNY (runOps Graph.empty heavyRoadOps)) [] car "D" 5
      ⟨initDist (applyWeatherEffects WeatherType.SUNNY (runOps Graph.empty heavyRoadOps)) "A", [],
        [(0, "A")]⟩
      = Run.ok ⟨[("A", 0), ("B", -1), ("C", -2147483648), ("D", 0)],
          [("B", "C"), ("C", "B"), ("D", "B")], [(2, "D")]⟩ := by decide!
  have hwalk : ∀ fuel, walkParents [("B", "C"), ("C", "B"), ("D", "B")] "A" fuel "D"
      = Run.fuelOut := by
    intro fuel
    cases fuel with
    | zero => decide
    | succ f =>
      have hne : ¬ ("D" = "A") := by decide
      have hp : mapFind [("B", "C"), ("C", "B"), ("D", "B")] "D" = some "B" := by decide
      rw [walkParents.eq_def]
      simp only [if_neg hne, hp, (walkParents_cycle f).1]
  refine ⟨hloop, hwalk, fun fuel => ?_⟩
  rcases Nat.lt_or_ge fuel 5 with hlt | hge
  · interval_cases fuel <;> decide!
  · have hl := dijkstraLoop32_mono _ _ _ _ _ _ _ hloop fuel hge
    have h1 : (mapFind (runOps Graph.empty heavyRoadOps).adjList "A").isNone = false := by decide!
    have h2 : (mapFind (runOps Graph.empty heavyRoadOps).adjList "D").isNone = false := by decide!
    have h3 : mapFind [("A", (0 : Int)), ("B", -1), ("C", -2147483648), ("D", 0)] "D" = some 0 := by
      decide
    have h4 : ¬ ((0 : Int) = INT_MAX) := by decide
    have h5 : ¬ ("A" = "D") := by decide
    rw [shortestPath32]
    simp only [h5, if_false, h1, h2, Bool.false_eq_true, hl, h3, h4, hwalk fuel]

/-! ### Toggling the emergency mode -/

/-- C19 (evaluation at the failing input): `Vehicle(BUS)` is constructed with the `double`
nearest to 0.7; the first `toggleEmergency` sets the flag and multiplies the stored value
by 1.5, the second clears the flag and divides by 1.5, and the stored value is then
6305039478318693 / 2^53 (0.6999999999999998), below the constructed
3152519739159347 / 2^52 (0.7): the flag is clear and the multiplier is not the base
speed. -/
theorem toggleEmergency_drifts :
    (Vehicle.make VehicleType.BUS false).speedMultiplier
      = 3152519739159347 / 4503599627370496 ∧
    (Vehicle.make VehicleType.BUS false).toggleEmergency.emergency = true ∧
    (Vehicle.make VehicleType.BUS false).toggleEmergency.speedMultiplier
      = 1182194902184755 / 1125899906842624 ∧
    (Vehicle.make VehicleType.BUS false).toggleEmergency.toggleEmergency.emergency = false ∧
    (Vehicle.make VehicleType.BUS false).toggleEmergency.toggleEmergency.speedMultiplier
      = 6305039478318693 / 9007199254740992 ∧
    (Vehicle.make VehicleType.BUS false).toggleEmergency.toggleEmergency.speedMultiplier
      ≠ (Vehicle.make VehicleType.BUS false).speedMultiplier := by
  refine ⟨by decide!, by decide!, by decide!, by decide!, by decide!, by decide!⟩

/-! ### Rounding to `double` -/

theorem roundHalfEven_ge_floor (q : ℚ) : ⌊q⌋ ≤ roundHalfEven q := by
  unfold roundHalfEven
  split_ifs <;> omega

theorem roundHalfEven_nonneg {q : ℚ} (h : 0 ≤ q) : 0 ≤ roundHalfEven q :=
  le_trans (Int.floor_nonneg.mpr h) (roundHalfEven_ge_floor q)

theorem toDouble_nonneg {x : ℚ} (h : 0 ≤ x) : 0 ≤ toDouble x := by
  unfold toDouble
  rw [if_pos h]
  have h2 : (0 : ℚ) < (2 : ℚ) ^ doubleExponent x := zpow_pos (by norm_num) _
  have h3 : (0 : ℚ) ≤ (roundHalfEven (x / (2 : ℚ) ^ doubleExponent x) : ℚ) := by
    exact_mod_cast roundHalfEven_nonneg (div_nonneg h (le_of_lt h2))
  positivity

theorem truncToInt_intCast (t : Int) : truncToInt (t : ℚ) = t := by
  simp [truncToInt]

theorem timeCost_costEdge (vehicle : Vehicle) (edge : Edge) :
    timeCost (costEdge vehicle edge) (unitSpeed vehicle) = timeCostMachine edge vehicle := by
  simp [timeCost, costEdge, unitSpeed, truncToInt_intCast]

theorem isBlockedByIncident_costEdge (vehicle : Vehicle) (g : Graph) (incidents : List Incident)
    (u : String) (edge : Edge) :
    isBlockedByIncident (costGraph vehicle g) incidents u (costEdge vehicle edge)
      = isBlockedByIncident g incidents u edge := rfl

theorem edgeUsable_costEdge (vehicle : Vehicle) (g : Graph) (incidents : List Incident)
    (u : String) (edge : Edge) :
    edgeUsable (costGraph vehicle g) incidents (unitSpeed vehicle) u (costEdge vehicle edge)
      = edgeUsable g incidents vehicle u edge := rfl

theorem mapFind_costGraph (vehicle : Vehicle) (g : Graph) (x : String) :
    mapFind (costGraph vehicle g).adjList x
      = (mapFind g.adjList x).map (List.map (costEdge vehicle)) := by
  simp only [costGraph]
  exact mapFind_map_snd (fun _ es => es.map (costEdge vehicle)) g.adjList x

theorem initDist_costGraph (vehicle : Vehicle) (g : Graph) (src : String) :
    initDist (costGraph vehicle g) src = initDist g src := by
  simp [initDist, costGraph, List.map_map, Function.comp_def]

theorem relaxEdge_costEdge (g : Graph) (incidents : List Incident) (vehicle : Vehicle)
    (u : String) (st : Search) (edge : Edge)
    (h : edgeInRange g incidents vehicle u st edge = true) :
    relaxEdgeMachine g incidents vehicle u st edge
      = relaxEdge (costGraph vehicle g) incidents (unitSpeed vehicle) u st
          (costEdge vehicle edge) := by
  have hb : (costEdge vehicle edge).blocked = edge.blocked := rfl
  have hd : (costEdge vehicle edge).destination = edge.destination := rfl
  have hr : (unitSpeed vehicle).canUseRoad (costEdge vehicle edge).roadType
      = vehicle.canUseRoad edge.roadType := rfl
  simp only [relaxEdgeMachine, relaxEdge, isBlockedByIncident_costEdge, timeCost_costEdge, hb,
    hd, hr]
  simp only [edgeInRange] at h
  by_cases h1 : (edge.blocked || isBlockedByIncident g incidents u edge) = true
  · simp only [h1, if_true]
  · simp only [h1, Bool.false_eq_true, if_false] at h ⊢
    by_cases h2 : (!vehicle.canUseRoad edge.roadType) = true
    · simp only [h2, if_true]
    · simp only [h2, Bool.false_eq_true, if_false] at h ⊢
      cases hdu : mapFind st.dist u with
      | none => rfl
      | some du =>
        simp only [hdu, Bool.and_eq_true, decide_eq_true_eq] at h
        cases hdv : mapFind st.dist edge.destination with
        | none => rfl
        | some dv => simp only [wrapInt_of_inRange _ h.1 h.2]

theorem relaxEdges_costEdge (g : Graph) (incidents : List Incident) (vehicle : Vehicle)
    (u : String) : ∀ (edges : List Edge) (st : Search),
    edgesInRange g incidents vehicle u edges st = true →
    relaxEdgesMachine g incidents vehicle u edges st
      = relaxEdges (costGraph vehicle g) incidents (unitSpeed vehicle) u
          (edges.map (costEdge vehicle)) st := by
  intro edges
  induction edges with
  | nil => intro st _; rfl
  | cons edge rest ih =>
    intro st h
    simp only [edgesInRange, Bool.and_eq_true] at h
    simp only [relaxEdgesMachine, List.map_cons, relaxEdges,
      ← relaxEdge_costEdge g incidents vehicle u st edge h.1]
    cases hrel : relaxEdgeMachine g incidents vehicle u st edge with
    | none => rfl
    | some st1 =>
      simp only
      have h2 := h.2
      rw [hrel] at h2
      exact ih st1 h2

theorem dijkstraLoop_costGraph (g : Graph) (incidents : List Incident) (vehicle : Vehicle)
    (dest : String) : ∀ (fuel : Nat) (st : Search),
    sumsInRange g incidents vehicle dest fuel st = true →
    dijkstraLoopMachine g incidents vehicle dest fuel st
      = dijkstraLoop (costGraph vehicle g) incidents (unitSpeed vehicle) dest fuel st := by
  intro fuel
  induction fuel with
  | zero =>
    intro st _
    rw [dijkstraLoopMachine, dijkstraLoop]
  | succ fuel ih =>
    intro st h
    rw [sumsInRange] at h
    rw [dijkstraLoopMachine, dijkstraLoop]
    cases hpop : pqPop st.pq with
    | none => rfl
    | some cr =>
      obtain ⟨c, rest⟩ := cr
      simp only [hpop] at h ⊢
      by_cases hdest : c.2 = dest
      · simp only [hdest, if_true]
      · simp only [hdest, if_false] at h ⊢
        by_cases hstale : c.1 > (mapFind st.dist c.2).getD 0
        · simp only [hstale, if_true] at h ⊢
          exact ih _ h
        · simp only [hstale, if_false] at h ⊢
          rw [mapFind_costGraph]
          cases hes : mapFind g.adjList c.2 with
          | none => rfl
          | some edges =>
            simp only [hes, Bool.and_eq_true, Option.map_some'] at h ⊢
            rw [← relaxEdges_costEdge g incidents vehicle c.2 edges _ h.1]
            cases hrel : relaxEdgesMachine g incidents vehicle c.2 edges { st with pq := rest } with
            | none => rfl
            | some st2 =>
              simp only
              have h2 := h.2
              rw [hrel] at h2
              exact ih st2 h2

/-! ### The whole query in machine arithmetic -/

theorem mapFind_applyWeatherMultMachine (m : ℚ) (g : Graph) (x : String) :
    mapFind (applyWeatherMultMachine m g).adjList x
      = (mapFind g.adjList x).map (List.map (weatherEdgeMachine m g x)) := by
  simp only [applyWeatherMultMachine]
  exact mapFind_map_snd (fun n es => es.map (weatherEdgeMachine m g n)) g.adjList x

theorem segmentTotalsMachine_isSome (g : Graph) (path : List String)
    (h : ∀ x ∈ path, (mapFind g.adjList x).isSome = true) (totals : ℚ × Int) :
    ∃ t, segmentTotalsMachine g path totals = some t := by
  induction path generalizing totals with
  | nil => exact ⟨_, rfl⟩
  | cons a rest ih =>
    cases rest with
    | nil => exact ⟨_, rfl⟩
    | cons b rest =>
      obtain ⟨es, hes⟩ := Option.isSome_iff_exists.mp (h a (List.mem_cons_self _ _))
      have ih' := ih (fun x hx => h x (List.mem_cons_of_mem _ hx))
      simp only [segmentTotalsMachine, hes]
      cases List.find? (fun edge => decide (edge.destination = b)) es with
      | none => exact ih' totals
      | some e => exact ih' _

theorem pathCost_costEdge (vehicle : Vehicle) (p : List Edge) :
    pathCost (unitSpeed vehicle) (p.map (costEdge vehicle)) = pathCostMachine vehicle p := by
  simp [pathCost, pathCostMachine, List.map_map, Function.comp_def, timeCost_costEdge]

theorem isPath_costGraph {g : Graph} {incidents : List Incident} {vehicle : Vehicle} {src : String}
    {p : List Edge} {x : String} (hp : IsPath g incidents vehicle src p x) :
    IsPath (costGraph vehicle g) incidents (unitSpeed vehicle) src (p.map (costEdge vehicle)) x := by
  induction hp with
  | nil => exact IsPath.nil
  | snoc p u edges edge _ hes he hus ih =>
    rw [List.map_append, List.map_singleton]
    exact IsPath.snoc (p.map (costEdge vehicle)) u (edges.map (costEdge vehicle))
      (costEdge vehicle edge) ih (by rw [mapFind_costGraph, hes]; rfl)
      (List.mem_map_of_mem _ he) (by rw [edgeUsable_costEdge]; exact hus)

theorem isPath_of_costGraph {g : Graph} {incidents : List Incident} {vehicle : Vehicle}
    {src : String} {q : List Edge} {x : String}
    (hq : IsPath (costGraph vehicle g) incidents (unitSpeed vehicle) src q x) :
    ∃ p, IsPath g incidents vehicle src p x ∧ q = p.map (costEdge vehicle) := by
  induction hq with
  | nil => exact ⟨[], IsPath.nil, rfl⟩
  | snoc q u edges edge _ hes he hus ih =>
    obtain ⟨p, hp, hpq⟩ := ih
    rw [mapFind_costGraph] at hes
    cases hes0 : mapFind g.adjList u with
    | none => simp [hes0] at hes
    | some es0 =>
      simp only [hes0, Option.map_some', Option.some.injEq] at hes
      subst hes
      obtain ⟨e0, he0, rfl⟩ := List.mem_map.mp he
      refine ⟨p ++ [e0], IsPath.snoc p u es0 e0 hp hes0 he0 ?_, ?_⟩
      · rw [← edgeUsable_costEdge]; exact hus
      · rw [List.map_append, List.map_singleton, hpq]

theorem routeSpec_costGraph {g : Graph} {incidents : List Incident} {vehicle : Vehicle}
    {src dest : String} {out : Outcome}
    (h : RouteSpec (costGraph vehicle g) incidents (unitSpeed vehicle) src dest out) :
    (out = Outcome.noPathFound ∧
      ∀ p, IsPath g incidents vehicle src p dest → INT_MAX ≤ pathCostMachine vehicle p) ∨
    (∃ r, out = Outcome.route r ∧ r.totalTime < INT_MAX ∧
      (∃ p, IsPath g incidents vehicle src p dest ∧ pathCostMachine vehicle p = r.totalTime) ∧
      ∀ p, IsPath g incidents vehicle src p dest → r.totalTime ≤ pathCostMachine vehicle p) := by
  rcases h with ⟨h1, h2⟩ | ⟨r, h1, h2, ⟨q, hq, hqc⟩, h4⟩
  · left
    refine ⟨h1, fun p hp => ?_⟩
    rw [← pathCost_costEdge]
    exact h2 _ (isPath_costGraph hp)
  · right
    obtain ⟨p, hp, rfl⟩ := isPath_of_costGraph hq
    refine ⟨r, h1, h2, ⟨p, hp, by rw [← pathCost_costEdge]; exact hqc⟩, fun p' hp' => ?_⟩
    rw [← pathCost_costEdge]
    exact h4 _ (isPath_costGraph hp')

theorem shortestPathMachine_spec (w : World) (src dest : String) (vehicle : Vehicle)
    (hne : src ≠ dest)
    (hsrc : (mapFind w.graph.adjList src).isSome = true)
    (hdest : (mapFind w.graph.adjList dest).isSome = true)
    (hclosed : (costGraph vehicle (applyWeatherEffectsMachine w.currentWeather w.graph)).Closed)
    (hcost : (costGraph vehicle (applyWeatherEffectsMachine w.currentWeather w.graph)).NonnegCosts
      (unitSpeed vehicle))
    (hrange : ∀ fuel, sumsInRange (applyWeatherEffectsMachine w.currentWeather w.graph) w.incidents
      vehicle dest fuel
      ⟨initDist (applyWeatherEffectsMachine w.currentWeather w.graph) src, [], [(0, src)]⟩ = true) :
    (∀ fuel out w', shortestPathMachine fuel w src dest vehicle = some (out, w') →
      w' = { w with graph := applyWeatherEffectsMachine w.currentWeather w.graph } ∧
      RouteSpec (costGraph vehicle (applyWeatherEffectsMachine w.currentWeather w.graph))
        w.incidents (unitSpeed vehicle) src dest out) ∧
    (∃ N, ∀ fuel, N ≤ fuel →
      ∃ out w', shortestPathMachine fuel w src dest vehicle = some (out, w')) := by
  generalize hgM : applyWeatherEffectsMachine w.currentWeather w.graph = gM at *
  have hkeys : ∀ x, (mapFind gM.adjList x).isSome = (mapFind w.graph.adjList x).isSome := by
    intro x
    rw [← hgM]
    simp only [applyWeatherEffectsMachine, mapFind_applyWeatherMultMachine, Option.isSome_map']
  have hkeysC : ∀ x, (mapFind (costGraph vehicle gM).adjList x).isSome
      = (mapFind gM.adjList x).isSome := by
    intro x
    simp only [mapFind_costGraph, Option.isSome_map']
  have hsrc' : (mapFind (costGraph vehicle gM).adjList src).isSome = true := by
    rw [hkeysC, hkeys]; exact hsrc
  have hdest' : (mapFind (costGraph vehicle gM).adjList dest).isSome = true := by
    rw [hkeysC, hkeys]; exact hdest
  have hinit := searchInv_init (costGraph vehicle gM) w.incidents (unitSpeed vehicle) src hsrc'
  rw [initDist_costGraph] at hinit
  have hloop : ∀ fuel, dijkstraLoopMachine gM w.incidents vehicle dest fuel
      ⟨initDist gM src, [], [(0, src)]⟩
      = dijkstraLoop (costGraph vehicle gM) w.incidents (unitSpeed vehicle) dest fuel
          ⟨initDist gM src, [], [(0, src)]⟩ :=
    fun fuel => dijkstraLoop_costGraph gM w.incidents vehicle dest fuel _ (hrange fuel)
  have hspec := fun fuel => dijkstraLoop_spec hclosed hcost dest fuel _ hinit
  have hunfold : ∀ fuel, shortestPathMachine fuel w src dest vehicle =
      match dijkstraLoop (costGraph vehicle gM) w.incidents (unitSpeed vehicle) dest fuel
          ⟨initDist gM src, [], [(0, src)]⟩ with
      | .fuelOut => none
      | .thrown => some (.outOfRange, { w with graph := gM })
      | .ok st =>
        match mapFind st.dist dest with
        | none => some (.outOfRange, { w with graph := gM })
        | some total =>
          if total = INT_MAX then some (.noPathFound, { w with graph := gM })
          else
            match walkParents st.parent src fuel dest with
            | .fuelOut => none
            | .thrown => some (.outOfRange, { w with graph := gM })
            | .ok rev =>
              match segmentTotalsMachine gM (rev ++ [src]).reverse (0, 0) with
              | none => some (.outOfRange, { w with graph := gM })
              | some (totalDistance, totalToll) =>
                some (.route ⟨(rev ++ [src]).reverse, total, totalToll, totalDistance⟩,
                  { w with graph := gM }) := by
    intro fuel
    have h1 : (mapFind w.graph.adjList src).isNone = false := by
      cases hm : mapFind w.graph.adjList src with
      | none => simp [hm] at hsrc
      | some _ => rfl
    have h2 : (mapFind w.graph.adjList dest).isNone = false := by
      cases hm : mapFind w.graph.adjList dest with
      | none => simp [hm] at hdest
      | some _ => rfl
    rw [shortestPathMachine]
    simp only [hne, if_false, h1, h2, Bool.false_eq_true, hgM, hloop fuel]
    try rfl
  have hfinal : ∀ st, SearchCore (costGraph vehicle gM) w.incidents (unitSpeed vehicle) src st →
      ∃ dd, mapFind st.dist dest = some dd ∧
        (dd ≠ INT_MAX → ∃ n rev t,
          (∀ fuel, n ≤ fuel → walkParents st.parent src fuel dest = Run.ok rev) ∧
          (∀ fuel, walkParents st.parent src fuel dest = Run.fuelOut ∨
            walkParents st.parent src fuel dest = Run.ok rev) ∧
          segmentTotalsMachine gM (rev ++ [src]).reverse (0, 0) = some t) := by
    intro st hcore
    obtain ⟨dd, hdd⟩ : ∃ dd, mapFind st.dist dest = some dd := by
      have := hcore.keys dest
      rw [hdest'] at this
      exact Option.isSome_iff_exists.mp this
    refine ⟨dd, hdd, fun hmax => ?_⟩
    have hlt : dd < INT_MAX := lt_of_le_of_ne (hcore.le_max _ _ hdd) hmax
    obtain ⟨n, rev, hok, hor, hmem, _⟩ :=
      walkParents_spec hcore.par (hcore.rooted dest dd hdd hlt) (by simp [hdd])
    obtain ⟨t, ht⟩ := segmentTotalsMachine_isSome gM (rev ++ [src]).reverse (by
        intro x hx
        simp only [List.mem_reverse, List.mem_append, List.mem_singleton] at hx
        rcases hx with hx | hx
        · rw [← hkeysC, ← hcore.keys x]; exact hmem x hx
        · rw [hx, ← hkeysC]; exact hsrc') (0, 0)
    exact ⟨n, rev, t, hok, hor, ht⟩
  constructor
  · intro fuel out w' h
    rw [hunfold fuel] at h
    have hs := hspec fuel
    revert h hs
    cases dijkstraLoop (costGraph vehicle gM) w.incidents (unitSpeed vehicle) dest fuel
        ⟨initDist gM src, [], [(0, src)]⟩ with
    | fuelOut => intro h; simp at h
    | thrown => intro _ hs; exact absurd hs (by simp)
    | ok st =>
      intro h hs
      simp only at hs h
      obtain ⟨hcore, hlow⟩ := hs
      obtain ⟨dd, hdd, hroute⟩ := hfinal st hcore
      simp only [hdd] at h
      by_cases hmax : dd = INT_MAX
      · rw [if_pos hmax] at h
        simp only [Option.some.injEq, Prod.mk.injEq] at h
        refine ⟨h.2.symm, Or.inl ⟨h.1.symm, fun p hp => ?_⟩⟩
        obtain ⟨dd', hdd', hle⟩ := hlow p hp
        rw [hdd] at hdd'
        cases hdd'
        omega
      · rw [if_neg hmax] at h
        obtain ⟨n, rev, t, _, hor, ht⟩ := hroute hmax
        rcases hor fuel with hw | hw
        · rw [hw] at h; simp at h
        · rw [hw] at h
          simp only [ht, Option.some.injEq, Prod.mk.injEq] at h
          have hlt : dd < INT_MAX := lt_of_le_of_ne (hcore.le_max _ _ hdd) hmax
          refine ⟨h.2.symm, Or.inr ⟨_, h.1.symm, hlt, hcore.walk dest dd hdd hlt, fun p hp => ?_⟩⟩
          obtain ⟨dd', hdd', hle⟩ := hlow p hp
          rw [hdd] at hdd'
          cases hdd'
          exact hle
  · have hs := hspec (searchPotential (costGraph vehicle gM) ⟨initDist gM src, [], [(0, src)]⟩)
    revert hs
    cases hl : dijkstraLoop (costGraph vehicle gM) w.incidents (unitSpeed vehicle) dest
        (searchPotential (costGraph vehicle gM) ⟨initDist gM src, [], [(0, src)]⟩)
        ⟨initDist gM src, [], [(0, src)]⟩ with
    | fuelOut => intro hs; simp only at hs; omega
    | thrown => intro hs; exact absurd hs (by simp)
    | ok st =>
      intro hs
      simp only at hs
      obtain ⟨hcore, _⟩ := hs
      obtain ⟨dd, hdd, hroute⟩ := hfinal st hcore
      by_cases hmax : dd = INT_MAX
      · refine ⟨searchPotential (costGraph vehicle gM) ⟨initDist gM src, [], [(0, src)]⟩,
          fun fuel hle => ?_⟩
        rw [hunfold fuel, dijkstraLoop_mono _ _ _ _ _ _ _ hl fuel hle]
        simp only [hdd, if_pos hmax]
        exact ⟨_, _, rfl⟩
      · obtain ⟨n, rev, t, hok, _, ht⟩ := hroute hmax
        refine ⟨max (searchPotential (costGraph vehicle gM) ⟨initDist gM src, [], [(0, src)]⟩) n,
          fun fuel hle => ?_⟩
        rw [hunfold fuel, dijkstraLoop_mono _ _ _ _ _ _ _ hl fuel (le_trans (le_max_left _ _) hle)]
        simp only [hdd, if_neg hmax, hok fuel (le_trans (le_max_right _ _) hle), ht]
        exact ⟨_, _, rfl⟩

/-! ### Networks built by the operations are fit for the machine search -/

theorem getWeatherMultiplierMachine_pos (cw : WeatherType) :
    0 < getWeatherMultiplierMachine cw := by
  cases cw <;> decide!

theorem costDouble_nonneg (edge : Edge) (vehicle : Vehicle) (hw : 0 ≤ edge.weight)
    (hc : 0 ≤ edge.congestion) (hsd : 0 ≤ edge.signalDelay) (hv : 0 < vehicle.speedMultiplier) :
    0 ≤ costDouble edge vehicle := by
  have h1 : (0 : ℚ) ≤ (edge.congestion : ℚ) := by exact_mod_cast hc
  have h2 : (0 : ℚ) ≤ (edge.signalDelay : ℚ) := by exact_mod_cast hsd
  have h3 : (0 : ℚ) ≤ toDouble (1 / 10) := toDouble_nonneg (by norm_num)
  have h4 : (0 : ℚ) ≤ dmul (edge.congestion : ℚ) (toDouble (1 / 10)) :=
    toDouble_nonneg (mul_nonneg h1 h3)
  have h5 : (0 : ℚ) ≤ dadd 1 (dmul (edge.congestion : ℚ) (toDouble (1 / 10))) :=
    toDouble_nonneg (by linarith)
  have h6 : (0 : ℚ) ≤ dmul edge.weight (dadd 1 (dmul (edge.congestion : ℚ) (toDouble (1 / 10)))) :=
    toDouble_nonneg (mul_nonneg hw h5)
  have h7 : (0 : ℚ) ≤ dadd (dmul edge.weight
      (dadd 1 (dmul (edge.congestion : ℚ) (toDouble (1 / 10))))) (edge.signalDelay : ℚ) :=
    toDouble_nonneg (by linarith)
  exact toDouble_nonneg (div_nonneg h7 (le_of_lt hv))

theorem timeCostMachine_of_fit (edge : Edge) (vehicle : Vehicle)
    (hnn : 0 ≤ costDouble edge vehicle)
    (hfit : truncToInt (costDouble edge vehicle) ≤ INT_MAX) :
    timeCostMachine edge vehicle = truncToInt (costDouble edge vehicle) ∧
      0 ≤ timeCostMachine edge vehicle := by
  have h0 := truncToInt_nonneg _ hnn
  have hmin : INT_MIN ≤ truncToInt (costDouble edge vehicle) := by
    simp only [INT_MIN]; omega
  have heq : timeCostMachine edge vehicle = truncToInt (costDouble edge vehicle) := by
    simp only [timeCostMachine, castInt, if_pos (And.intro hmin hfit)]
  exact ⟨heq, heq ▸ h0⟩

theorem weatherMachine_nonneg (g : Graph) (hg : g.WellBased (fun q => 0 < q))
    (hf : g.NonnegFields) (m : ℚ) (hm : 0 < m) (vehicle : Vehicle)
    (hv : 0 < vehicle.speedMultiplier) :
    ∀ u edges edge, mapFind (applyWeatherMultMachine m g).adjList u = some edges → edge ∈ edges →
      0 ≤ costDouble edge vehicle ∧
      (mapFind (applyWeatherMultMachine m g).adjList edge.destination).isSome = true := by
  intro u edges edge hes he
  rw [mapFind_applyWeatherMultMachine] at hes
  cases hes0 : mapFind g.adjList u with
  | none => simp [hes0] at hes
  | some es0 =>
    simp only [hes0, Option.map_some', Option.some.injEq] at hes
    subst hes
    simp only [List.mem_map] at he
    obtain ⟨e0, he0, rfl⟩ := he
    have hmem := mapFind_mem _ _ _ hes0
    have hpos : 0 < originalWeight g u e0.destination := originalWeight_ok _ g hg (u, es0) hmem e0 he0
    obtain ⟨hsd, hcg⟩ := hf (u, es0) hmem e0 he0
    constructor
    · refine costDouble_nonneg (weatherEdgeMachine m g u e0) vehicle ?_ hcg hsd hv
      simp only [weatherEdgeMachine, if_neg (ne_of_gt hpos)]
      exact toDouble_nonneg (div_nonneg (le_of_lt hpos) (le_of_lt hm))
    · rw [mapFind_applyWeatherMultMachine, Option.isSome_map']
      exact hg.closed (u, es0) hmem e0 he0

theorem runOps_fitMachine (ops : List Op) (hops : ∀ op ∈ ops, op.Positive) (cw : WeatherType)
    (vehicle : Vehicle) (hv : 0 < vehicle.speedMultiplier)
    (hfit : (applyWeatherEffectsMachine cw (runOps Graph.empty ops)).CostsFit vehicle) :
    (costGraph vehicle (applyWeatherEffectsMachine cw (runOps Graph.empty ops))).Closed ∧
    (costGraph vehicle (applyWeatherEffectsMachine cw (runOps Graph.empty ops))).NonnegCosts
      (unitSpeed vehicle) ∧
    (∀ u edges edge,
      mapFind (applyWeatherEffectsMachine cw (runOps Graph.empty ops)).adjList u = some edges →
      edge ∈ edges → 0 ≤ costDouble edge vehicle ∧ 0 ≤ timeCostMachine edge vehicle ∧
        timeCostMachine edge vehicle = truncToInt (costDouble edge vehicle)) := by
  have hwb : (runOps Graph.empty ops).WellBased (fun q => 0 < q) :=
    runOps_wellBased _ (fun w hw => Int.cast_pos.mpr hw) ops Graph.empty
      (fun op hop => (hops op hop).weightOK) (Graph.empty_wellBased _)
  have hnf : (runOps Graph.empty ops).NonnegFields :=
    runOps_nonnegFields ops Graph.empty hops (fun _ h => by simp [Graph.empty] at h)
  have hw := weatherMachine_nonneg _ hwb hnf _ (getWeatherMultiplierMachine_pos cw) vehicle hv
  have hedge : ∀ u edges edge,
      mapFind (applyWeatherEffectsMachine cw (runOps Graph.empty ops)).adjList u = some edges →
      edge ∈ edges → 0 ≤ costDouble edge vehicle ∧ 0 ≤ timeCostMachine edge vehicle ∧
        timeCostMachine edge vehicle = truncToInt (costDouble edge vehicle) := by
    intro u edges edge hes he
    have h1 := (hw u edges edge hes he).1
    have h2 := timeCostMachine_of_fit edge vehicle h1 (hfit u edges edge hes he)
    exact ⟨h1, h2.2, h2.1⟩
  refine ⟨?_, ?_, hedge⟩
  · intro u edges edge hes he
    rw [mapFind_costGraph] at hes
    cases hes0 : mapFind (applyWeatherEffectsMachine cw (runOps Graph.empty ops)).adjList u with
    | none => simp [hes0] at hes
    | some es0 =>
      simp only [hes0, Option.map_some', Option.some.injEq] at hes
      subst hes
      obtain ⟨e0, he0, rfl⟩ := List.mem_map.mp he
      rw [mapFind_costGraph, Option.isSome_map']
      exact (hw u es0 e0 hes0 he0).2
  · intro u edges edge hes he
    rw [mapFind_costGraph] at hes
    cases hes0 : mapFind (applyWeatherEffectsMachine cw (runOps Graph.empty ops)).adjList u with
    | none => simp [hes0] at hes
    | some es0 =>
      simp only [hes0, Option.map_some', Option.some.injEq] at hes
      subst hes
      obtain ⟨e0, he0, rfl⟩ := List.mem_map.mp he
      rw [timeCost_costEdge]
      exact (hedge u es0 e0 hes0 he0).2.1

theorem costsFit_of_all (g : Graph) (vehicle : Vehicle)
    (h : g.adjList.all (fun nodePair => nodePair.2.all (fun edge =>
      decide (truncToInt (costDouble edge vehicle) ≤ INT_MAX))) = true) :
    g.CostsFit vehicle := by
  intro u edges edge hes he
  rw [List.all_eq_true] at h
  have h1 := h (u, edges) (mapFind_mem _ _ _ hes)
  rw [List.all_eq_true] at h1
  exact of_decide_eq_true (h1 edge he)

theorem sumsInRange_of_ok (g : Graph) (incidents : List Incident) (vehicle : Vehicle)
    (dest : String) : ∀ (fuel : Nat) (st st' : Search),
    dijkstraLoopMachine g incidents vehicle dest fuel st = Run.ok st' →
    sumsInRange g incidents vehicle dest fuel st = true →
    ∀ fuel', sumsInRange g incidents vehicle dest fuel' st = true := by
  intro fuel
  induction fuel with
  | zero =>
    intro st st' h _ fuel'
    rw [dijkstraLoopMachine] at h
    rw [sumsInRange]
    cases hpop : pqPop st.pq with
    | none => rfl
    | some cr => simp [hpop] at h
  | succ fuel ih =>
    intro st st' h hs fuel'
    rw [dijkstraLoopMachine] at h
    rw [sumsInRange] at hs ⊢
    cases hpop : pqPop st.pq with
    | none => rfl
    | some cr =>
      obtain ⟨c, rest⟩ := cr
      simp only [hpop] at h hs ⊢
      cases fuel' with
      | zero => rfl
      | succ f' =>
        simp only
        by_cases hdest : c.2 = dest
        · simp only [hdest, if_true]
        · simp only [hdest, if_false] at h hs ⊢
          by_cases hstale : c.1 > (mapFind st.dist c.2).getD 0
          · simp only [hstale, if_true] at h hs ⊢
            exact ih _ _ h hs f'
          · simp only [hstale, if_false] at h hs ⊢
            cases hes : mapFind g.adjList c.2 with
            | none => rfl
            | some edges =>
              simp only [hes, Bool.and_eq_true] at h hs ⊢
              refine ⟨hs.1, ?_⟩
              cases hrel : relaxEdgesMachine g incidents vehicle c.2 edges { st with pq := rest } with
              | none => rfl
              | some st2 =>
                have h2 := hs.2
                simp only [hrel] at h h2 ⊢
                exact ih _ _ h h2 f'

theorem sumsInRange_of_isOk (g : Graph) (incidents : List Incident) (vehicle : Vehicle)
    (dest : String) (fuel : Nat) (st : Search)
    (hok : (dijkstraLoopMachine g incidents vehicle dest fuel st).isOk = true)
    (hs : sumsInRange g incidents vehicle dest fuel st = true) :
    ∀ fuel', sumsInRange g incidents vehicle dest fuel' st = true := by
  cases h : dijkstraLoopMachine g incidents vehicle dest fuel st with
  | ok st' => exact sumsInRange_of_ok g incidents vehicle dest fuel st st' h hs
  | fuelOut => rw [h] at hok; cases hok
  | thrown => rw [h] at hok; cases hok

/-! ### Optimal routes and absent routes -/

/-- C1 (as amended): on a network built from the empty one by `addRoad` calls with positive
weights and non-negative signal delays (and by any menu requests, rush-hour applications,
weather rewrites and manual blocks), for every incident list, weather and vehicle with a
positive speed multiplier, when int arithmetic does not overflow (every edge's time cost
fits an `int` and no sum `dist.at(u) + timeCost` taken by the search leaves the range of
`int`), for every pair of distinct known nodes joined by an admissible path whose cost is
below `INT_MAX`, the query in machine arithmetic, given enough step budget, returns a route,
and its total time is the cost of an admissible path and is at most the cost of every
admissible path from `src` to `dest`: it is the minimum, also when the loop stops at the
first pop of `dest`. Costs are the ones the code computes, in rounded `double` arithmetic
truncated to `int`. -/
theorem shortestPath_optimal (ops : List Op) (hops : ∀ op ∈ ops, op.Positive)
    (incidents : List Incident) (cw : WeatherType) (vehicle : Vehicle)
    (hv : 0 < vehicle.speedMultiplier) (src dest : String) (hne : src ≠ dest)
    (hsrc : (mapFind (runOps Graph.empty ops).adjList src).isSome = true)
    (hdest : (mapFind (runOps Graph.empty ops).adjList dest).isSome = true)
    (hfit : (applyWeatherEffectsMachine cw (runOps Graph.empty ops)).CostsFit vehicle)
    (hrange : ∀ fuel, sumsInRange (applyWeatherEffectsMachine cw (runOps Graph.empty ops))
      incidents vehicle dest fuel
      ⟨initDist (applyWeatherEffectsMachine cw (runOps Graph.empty ops)) src, [], [(0, src)]⟩
        = true)
    (p0 : List Edge)
    (hp0 : IsPath (applyWeatherEffectsMachine cw (runOps Graph.empty ops)) incidents vehicle src
      p0 dest)
    (hbound : pathCostMachine vehicle p0 < INT_MAX) :
    ∃ N, ∀ fuel, N ≤ fuel → ∃ r w',
      shortestPathMachine fuel ⟨runOps Graph.empty ops, incidents, cw⟩ src dest vehicle
        = some (Outcome.route r, w') ∧
      (∃ p, IsPath (applyWeatherEffectsMachine cw (runOps Graph.empty ops)) incidents vehicle
          src p dest ∧ pathCostMachine vehicle p = r.totalTime) ∧
      ∀ p, IsPath (applyWeatherEffectsMachine cw (runOps Graph.empty ops)) incidents vehicle
          src p dest → r.totalTime ≤ pathCostMachine vehicle p := by
  obtain ⟨hclosed, hcost, _⟩ := runOps_fitMachine ops hops cw vehicle hv hfit
  obtain ⟨hpart, N, htotal⟩ := shortestPathMachine_spec ⟨runOps Graph.empty ops, incidents, cw⟩
    src dest vehicle hne hsrc hdest hclosed hcost hrange
  refine ⟨N, fun fuel hle => ?_⟩
  obtain ⟨out, w', hout⟩ := htotal fuel hle
  rcases routeSpec_costGraph (hpart fuel out w' hout).2 with ⟨_, hnone⟩ | ⟨r, hr, _, hex, hmin⟩
  · have := hnone p0 hp0
    omega
  · exact ⟨r, w', hr ▸ hout, hex, hmin⟩

/-- C1 (as amended) at the triangle A-B, B-C, A-C for a car going from A to C, the direct
road being an admissible path of cost 300: every cost fits, no sum leaves the range, and
the route found takes 200 seconds. -/
theorem shortestPath_optimal_witness :
    (∃ N, ∀ fuel, N ≤ fuel → ∃ r w',
      shortestPathMachine fuel ⟨runOps Graph.empty triangleOps, [], WeatherType.SUNNY⟩ "A" "C" car
        = some (Outcome.route r, w') ∧
      (∃ p, IsPath (applyWeatherEffectsMachine WeatherType.SUNNY (runOps Graph.empty triangleOps))
          [] car "A" p "C" ∧ pathCostMachine car p = r.totalTime) ∧
      ∀ p, IsPath (applyWeatherEffectsMachine WeatherType.SUNNY (runOps Graph.empty triangleOps))
          [] car "A" p "C" → r.totalTime ≤ pathCostMachine car p) ∧
    (shortestPathMachine 10 ⟨runOps Graph.empty triangleOps, [], WeatherType.SUNNY⟩ "A" "C"
        car).map Prod.fst
      = some (Outcome.route ⟨["A", "B", "C"], 200, 0, 200⟩) :=
  ⟨shortestPath_optimal triangleOps
    (by
      intro op hop
      simp only [triangleOps, List.mem_cons, List.mem_singleton, List.not_mem_nil, or_false] at hop
      rcases hop with h | h | h <;> subst h <;> simp [Op.Positive])
    [] WeatherType.SUNNY car (by decide!) "A" "C" (by decide) (by decide!) (by decide!)
    (costsFit_of_all _ _ (by decide!))
    (sumsInRange_of_isOk _ _ _ _ 10 _ (by decide!) (by decide!))
    [⟨"C", 300, 0, false, 0, "General"⟩]
    (IsPath.snoc [] "A"
      [⟨"B", 100, 0, false, 0, "General"⟩, ⟨"C", 300, 0, false, 0, "General"⟩]
      ⟨"C", 300, 0, false, 0, "General"⟩
      IsPath.nil (by decide!) (by decide!) (by decide!))
    (by decide!),
   by decide!⟩

/-- C1 (the claim as stated fails): on the single road A-B of weight 2147483647 (signal
delay 0, SUNNY weather, a car) the only edge out of A is an admissible path to B whose cost
2147483647 is an `int`, every edge's cost fits an `int`, the one sum the search takes is
0 + 2147483647 and does not overflow, yet the query reports "no path" and no total time at
all. -/
theorem optimal_time_not_reported :
    IsPath (applyWeatherEffectsMachine WeatherType.SUNNY (runOps Graph.empty maxWeightOps)) [] car
      "A" [⟨"B", 2147483647, 0, false, 0, "General"⟩] "B" ∧
    pathCostMachine car [⟨"B", 2147483647, 0, false, 0, "General"⟩] = 2147483647 ∧
    (applyWeatherEffectsMachine WeatherType.SUNNY (runOps Graph.empty maxWeightOps)).CostsFit car ∧
    (∀ fuel, sumsInRange (applyWeatherEffectsMachine WeatherType.SUNNY
        (runOps Graph.empty maxWeightOps)) [] car "B" fuel
      ⟨initDist (applyWeatherEffectsMachine WeatherType.SUNNY (runOps Graph.empty maxWeightOps))
        "A", [], [(0, "A")]⟩ = true) ∧
    shortestPathMachine 3 ⟨runOps Graph.empty maxWeightOps, [], WeatherType.SUNNY⟩ "A" "B" car
      = some (Outcome.noPathFound,
          ⟨applyWeatherEffectsMachine WeatherType.SUNNY (runOps Graph.empty maxWeightOps), [],
            WeatherType.SUNNY⟩) :=
  ⟨IsPath.snoc [] "A" [⟨"B", 2147483647, 0, false, 0, "General"⟩]
      ⟨"B", 2147483647, 0, false, 0, "General"⟩ IsPath.nil
      (by decide!) (by decide!) (by decide!),
   by decide!, costsFit_of_all _ _ (by decide!),
   sumsInRange_of_isOk _ _ _ _ 3 _ (by decide!) (by decide!), by decide!⟩

/-- C4 (as amended): on a network built by `addRoad` calls with positive weights and
non-negative delays (and the other operations), for every vehicle with a positive speed
multiplier and pair of distinct known nodes, when int arithmetic does not overflow (every
edge's time cost fits an `int` and no sum taken by the search leaves the range of `int`),
the query in machine arithmetic, given enough step budget, ends, and it reports "no path"
if and only if there is no admissible path from `src` to `dest` whose cost is below
`INT_MAX`. The road A-B with the edge A->B blocked gives "no path" for a car, and the
"Bus Lane" road A-B gives "no path" for a bike. -/
theorem noPathFound_iff (ops : List Op) (hops : ∀ op ∈ ops, op.Positive)
    (incidents : List Incident) (cw : WeatherType) (vehicle : Vehicle)
    (hv : 0 < vehicle.speedMultiplier) (src dest : String) (hne : src ≠ dest)
    (hsrc : (mapFind (runOps Graph.empty ops).adjList src).isSome = true)
    (hdest : (mapFind (runOps Graph.empty ops).adjList dest).isSome = true)
    (hfit : (applyWeatherEffectsMachine cw (runOps Graph.empty ops)).CostsFit vehicle)
    (hrange : ∀ fuel, sumsInRange (applyWeatherEffectsMachine cw (runOps Graph.empty ops))
      incidents vehicle dest fuel
      ⟨initDist (applyWeatherEffectsMachine cw (runOps Graph.empty ops)) src, [], [(0, src)]⟩
        = true) :
    (∃ N, ∀ fuel, N ≤ fuel → ∃ out w',
      shortestPathMachine fuel ⟨runOps Graph.empty ops, incidents, cw⟩ src dest vehicle
        = some (out, w') ∧
      (out = Outcome.noPathFound ↔
        ¬ ∃ p, IsPath (applyWeatherEffectsMachine cw (runOps Graph.empty ops)) incidents vehicle
            src p dest ∧ pathCostMachine vehicle p < INT_MAX)) ∧
    (shortestPathMachine 5 ⟨runOps Graph.empty scenarioBOps, [], WeatherType.SUNNY⟩ "A" "B"
        car).map Prod.fst = some Outcome.noPathFound ∧
    (shortestPathMachine 5 ⟨runOps Graph.empty scenarioCOps, [], WeatherType.SUNNY⟩ "A" "B"
        bike).map Prod.fst = some Outcome.noPathFound := by
  refine ⟨?_, by decide!, by decide!⟩
  obtain ⟨hclosed, hcost, _⟩ := runOps_fitMachine ops hops cw vehicle hv hfit
  obtain ⟨hpart, N, htotal⟩ := shortestPathMachine_spec ⟨runOps Graph.empty ops, incidents, cw⟩
    src dest vehicle hne hsrc hdest hclosed hcost hrange
  refine ⟨N, fun fuel hle => ?_⟩
  obtain ⟨out, w', hout⟩ := htotal fuel hle
  refine ⟨out, w', hout, ?_⟩
  rcases routeSpec_costGraph (hpart fuel out w' hout).2 with
    ⟨h1, hnone⟩ | ⟨r, hr, hlt, ⟨p, hp, hpc⟩, _⟩
  · refine ⟨fun _ => ?_, fun _ => h1⟩
    rintro ⟨p, hp, hlt⟩
    have := hnone p hp
    omega
  · refine ⟨fun h => ?_, fun h => absurd ⟨p, hp, by omega⟩ h⟩
    rw [hr] at h
    cases h

/-- C4 (as amended) at Scenario B: the road A-B with the edge A->B blocked, for a car. -/
theorem noPathFound_iff_witness :
    (∃ N, ∀ fuel, N ≤ fuel → ∃ out w',
      shortestPathMachine fuel ⟨runOps Graph.empty scenarioBOps, [], WeatherType.SUNNY⟩ "A" "B"
        car = some (out, w') ∧
      (out = Outcome.noPathFound ↔
        ¬ ∃ p, IsPath (applyWeatherEffectsMachine WeatherType.SUNNY
            (runOps Graph.empty scenarioBOps)) [] car "A" p "B" ∧
          pathCostMachine car p < INT_MAX)) ∧
    (shortestPathMachine 5 ⟨runOps Graph.empty scenarioBOps, [], WeatherType.SUNNY⟩ "A" "B"
        car).map Prod.fst = some Outcome.noPathFound ∧
    (shortestPathMachine 5 ⟨runOps Graph.empty scenarioCOps, [], WeatherType.SUNNY⟩ "A" "B"
        bike).map Prod.fst = some Outcome.noPathFound :=
  noPathFound_iff scenarioBOps
    (by
      intro op hop
      simp only [scenarioBOps, List.mem_cons, List.mem_singleton, List.not_mem_nil, or_false] at hop
      rcases hop with h | h <;> subst h <;> simp [Op.Positive])
    [] WeatherType.SUNNY car (by decide!) "A" "B" (by decide) (by decide!) (by decide!)
    (costsFit_of_all _ _ (by decide!))
    (sumsInRange_of_isOk _ _ _ _ 5 _ (by decide!) (by decide!))

/-- C4 (the claim as stated fails): on the single road A-B of weight 2147483647 (signal
delay 0, SUNNY weather) the edge A->B is an admissible path for a car, of cost 2147483647,
every edge's cost fits an `int` and no sum overflows, yet the query reports "no path": the cost equals `INT_MAX`, so the
test `dist.at(u) + timeCost < dist.at(edge.destination)` fails against the initial
distance. -/
theorem noPathFound_despite_path :
    IsPath (applyWeatherEffectsMachine WeatherType.SUNNY (runOps Graph.empty maxWeightOps)) [] car
      "A" [⟨"B", 2147483647, 0, false, 0, "General"⟩] "B" ∧
    timeCostMachine ⟨"B", 2147483647, 0, false, 0, "General"⟩ car = 2147483647 ∧
    (applyWeatherEffectsMachine WeatherType.SUNNY (runOps Graph.empty maxWeightOps)).CostsFit car ∧
    (∀ fuel, sumsInRange
      (applyWeatherEffectsMachine WeatherType.SUNNY (runOps Graph.empty maxWeightOps)) [] car "B"
      fuel
      ⟨initDist (applyWeatherEffectsMachine WeatherType.SUNNY (runOps Graph.empty maxWeightOps))
        "A", [], [(0, "A")]⟩ = true) ∧
    (shortestPathMachine 5 ⟨runOps Graph.empty maxWeightOps, [], WeatherType.SUNNY⟩ "A" "B"
        car).map Prod.fst = some Outcome.noPathFound :=
  ⟨IsPath.snoc [] "A" [⟨"B", 2147483647, 0, false, 0, "General"⟩]
      ⟨"B", 2147483647, 0, false, 0, "General"⟩ IsPath.nil
      (by decide!) (by decide!) (by decide!),
   by decide!, costsFit_of_all _ _ (by decide!),
   sumsInRange_of_isOk _ _ _ _ 5 _ (by decide!) (by decide!), by decide!⟩

/-! ### Blocking an edge next to a road of weight `INT_MAX` -/

theorem dijkstraLoopMachine_mono (g : Graph) (incidents : List Incident) (vehicle : Vehicle)
    (dest : String) :
    ∀ (fuel : Nat) (st st' : Search),
      dijkstraLoopMachine g incidents vehicle dest fuel st = Run.ok st' →
      ∀ fuel', fuel ≤ fuel' → dijkstraLoopMachine g incidents vehicle dest fuel' st = Run.ok st' := by
  intro fuel
  induction fuel with
  | zero =>
    intro st st' h fuel' _
    rw [dijkstraLoopMachine] at h ⊢
    cases hpop : pqPop st.pq with
    | none => simpa [hpop] using h
    | some cr => simp [hpop] at h
  | succ fuel ih =>
    intro st st' h fuel' hle
    obtain ⟨f', rfl⟩ : ∃ f', fuel' = f' + 1 := ⟨fuel' - 1, by omega⟩
    have hle' : fuel ≤ f' := by omega
    rw [dijkstraLoopMachine] at h ⊢
    cases hpop : pqPop st.pq with
    | none => simpa [hpop] using h
    | some cr =>
      obtain ⟨c, rest⟩ := cr
      simp only [hpop] at h ⊢
      by_cases hdest : c.2 = dest
      · simpa [hdest] using h
      · simp only [hdest, if_false] at h ⊢
        split_ifs at h ⊢ with hstale
        · exact ih _ _ h _ hle'
        · cases hes : mapFind g.adjList c.2 with
          | none => simp [hes] at h
          | some edges =>
            simp only [hes] at h ⊢
            cases hrel : relaxEdgesMachine g incidents vehicle c.2 edges { st with pq := rest } with
            | none => simp [hrel] at h
            | some st2 =>
              simp only [hrel] at h ⊢
              exact ih _ _ h _ hle'

/-- C5 (evaluation at the failing input): on the roads A-B (weight 1), B-C (weight
2147483647) and B-D (weight 1), under SUNNY weather, every edge costs a car a non-negative
time (1, 2147483647 and 1 second). With the blocked flag of the edge B->C (the second edge
out of B) set, the query of a car from A to D returns the route A, B, D with the total
time 2. With the flag clear, which is the network as built, the search loop ends with the
parent pointers B -> C -> B, and the query returns no route, whatever the step budget. -/
theorem unblocked_query_lost :
    mapFind (applyWeatherEffectsMachine WeatherType.SUNNY
        (setEdgeBlocked (runOps Graph.empty heavyRoadOps) "B" 1 true)).adjList "B"
      = some [⟨"A", 1, 0, false, 0, "General"⟩, ⟨"C", 2147483647, 0, true, 0, "General"⟩,
          ⟨"D", 1, 0, false, 0, "General"⟩] ∧
    setEdgeBlocked (runOps Graph.empty heavyRoadOps) "B" 1 false
      = runOps Graph.empty heavyRoadOps ∧
    timeCostMachine ⟨"B", 1, 0, false, 0, "General"⟩ car = 1 ∧
    timeCostMachine ⟨"C", 2147483647, 0, false, 0, "General"⟩ car = 2147483647 ∧
    (shortestPathMachine 5
        ⟨setEdgeBlocked (runOps Graph.empty heavyRoadOps) "B" 1 true, [], WeatherType.SUNNY⟩
        "A" "D" car).map Prod.fst
      = some (Outcome.route ⟨["A", "B", "D"], 2, 0, 2⟩) ∧
    dijkstraLoopMachine
        (applyWeatherEffectsMachine WeatherType.SUNNY
          (setEdgeBlocked (runOps Graph.empty heavyRoadOps) "B" 1 false)) [] car "D" 5
        ⟨initDist (applyWeatherEffectsMachine WeatherType.SUNNY
          (setEdgeBlocked (runOps Graph.empty heavyRoadOps) "B" 1 false)) "A", [], [(0, "A")]⟩
      = Run.ok ⟨[("A", 0), ("B", -1), ("C", -2147483648), ("D", 0)],
          [("B", "C"), ("C", "B"), ("D", "B")], [(2, "D")]⟩ ∧
    (∀ fuel, shortestPathMachine fuel
        ⟨setEdgeBlocked (runOps Graph.empty heavyRoadOps) "B" 1 false, [], WeatherType.SUNNY⟩
        "A" "D" car = none) := by
  have hloop : dijkstraLoopMachine
      (applyWeatherEffectsMachine WeatherType.SUNNY
        (setEdgeBlocked (runOps Graph.empty heavyRoadOps) "B" 1 false)) [] car "D" 5
      ⟨initDist (applyWeatherEffectsMachine WeatherType.SUNNY
        (setEdgeBlocked (runOps Graph.empty heavyRoadOps) "B" 1 false)) "A", [], [(0, "A")]⟩
      = Run.ok ⟨[("A", 0), ("B", -1), ("C", -2147483648), ("D", 0)],
          [("B", "C"), ("C", "B"), ("D", "B")], [(2, "D")]⟩ := by decide!
  have hwalk : ∀ fuel, walkParents [("B", "C"), ("C", "B"), ("D", "B")] "A" fuel "D"
      = Run.fuelOut := by
    intro fuel
    cases fuel with
    | zero => decide
    | succ f =>
      have hne : ¬ ("D" = "A") := by decide
      have hp : mapFind [("B", "C"), ("C", "B"), ("D", "B")] "D" = some "B" := by decide
      rw [walkParents.eq_def]
      simp only [if_neg hne, hp, (walkParents_cycle f).1]
  refine ⟨by decide!, by decide!, by decide!, by decide!, by decide!, hloop, fun fuel => ?_⟩
  rcases Nat.lt_or_ge fuel 5 with hlt | hge
  · interval_cases fuel <;> decide!
  · have hl := dijkstraLoopMachine_mono _ _ _ _ _ _ _ hloop fuel hge
    have h1 : (mapFind (setEdgeBlocked (runOps Graph.empty heavyRoadOps) "B" 1 false).adjList
        "A").isNone = false := by decide!
    have h2 : (mapFind (setEdgeBlocked (runOps Graph.empty heavyRoadOps) "B" 1 false).adjList
        "D").isNone = false := by decide!
    have h3 : mapFind [("A", (0 : Int)), ("B", -1), ("C", -2147483648), ("D", 0)] "D" = some 0 := by
      decide
    have h4 : ¬ ((0 : Int) = INT_MAX) := by decide
    have h5 : ¬ ("A" = "D") := by decide
    rw [shortestPathMachine]
    simp only [h5, if_false, h1, h2, Bool.false_eq_true, hl, h3, h4, hwalk fuel]

/-! ### The car and the ambulance in machine arithmetic -/

theorem applyWeatherMultMachine_setEdgeBlocked (m : ℚ) (g : Graph) (u : String) (i : Nat)
    (b : Bool) :
    applyWeatherMultMachine m (setEdgeBlocked g u i b)
      = setEdgeBlocked (applyWeatherMultMachine m g) u i b := by
  have hw : ∀ n, weatherEdgeMachine m (setEdgeBlocked g u i b) n = weatherEdgeMachine m g n :=
    fun _ => rfl
  simp only [applyWeatherMultMachine, setEdgeBlocked, List.map_map, hw]
  congr 1
  apply List.map_congr_left
  intro node _
  simp only [Function.comp, Prod.mk.injEq, true_and]
  split_ifs
  · exact setBlockedAt_map b _ (fun e => rfl) i node.2
  · rfl

theorem costGraph_setEdgeBlocked (vehicle : Vehicle) (g : Graph) (u : String) (i : Nat)
    (b : Bool) :
    costGraph vehicle (setEdgeBlocked g u i b) = setEdgeBlocked (costGraph vehicle g) u i b := by
  simp only [costGraph, setEdgeBlocked, List.map_map]
  congr 1
  apply List.map_congr_left
  intro node _
  simp only [Function.comp, Prod.mk.injEq, true_and]
  split_ifs
  · exact setBlockedAt_map b (costEdge vehicle) (fun e => rfl) i node.2
  · rfl

/-- Blocking is monotone while int arithmetic does not overflow: on a network whose edges
lead to nodes and have non-negative machine time costs, when no sum taken by the search
leaves the range of `int` on either network, a route found with the `i`-th edge out of `u`
blocked implies that the query with that edge unblocked, given enough step budget, finds a
route whose total time is at most the blocked one. -/
theorem blocking_monotone_inRange (g : Graph) (incidents : List Incident) (cw : WeatherType)
    (vehicle : Vehicle) (src dest : String) (u : String) (i : Nat) (hne : src ≠ dest)
    (hsrc : (mapFind g.adjList src).isSome = true)
    (hdest : (mapFind g.adjList dest).isSome = true)
    (hclosed : (costGraph vehicle (applyWeatherEffectsMachine cw g)).Closed)
    (hcost : (costGraph vehicle (applyWeatherEffectsMachine cw g)).NonnegCosts (unitSpeed vehicle))
    (hrangeB : ∀ fuel, sumsInRange (applyWeatherEffectsMachine cw (setEdgeBlocked g u i true))
      incidents vehicle dest fuel
      ⟨initDist (applyWeatherEffectsMachine cw (setEdgeBlocked g u i true)) src, [], [(0, src)]⟩
        = true)
    (hrangeU : ∀ fuel, sumsInRange (applyWeatherEffectsMachine cw (setEdgeBlocked g u i false))
      incidents vehicle dest fuel
      ⟨initDist (applyWeatherEffectsMachine cw (setEdgeBlocked g u i false)) src, [], [(0, src)]⟩
        = true)
    (fuel : Nat) (r : RouteResult) (w' : World)
    (hblocked : shortestPathMachine fuel ⟨setEdgeBlocked g u i true, incidents, cw⟩ src dest
      vehicle = some (Outcome.route r, w')) :
    ∃ N, ∀ fuel', N ≤ fuel' → ∃ r' w'',
      shortestPathMachine fuel' ⟨setEdgeBlocked g u i false, incidents, cw⟩ src dest vehicle
        = some (Outcome.route r', w'') ∧
      r'.totalTime ≤ r.totalTime := by
  have hkey : ∀ b x, (mapFind g.adjList x).isSome = true →
      (mapFind (setEdgeBlocked g u i b).adjList x).isSome = true := by
    intro b x hx
    rw [mapFind_setEdgeBlocked]
    simpa using hx
  have hcomm : ∀ b, applyWeatherEffectsMachine cw (setEdgeBlocked g u i b)
      = setEdgeBlocked (applyWeatherEffectsMachine cw g) u i b :=
    fun b => applyWeatherMultMachine_setEdgeBlocked _ g u i b
  obtain ⟨hpartB, _⟩ := shortestPathMachine_spec ⟨setEdgeBlocked g u i true, incidents, cw⟩
    src dest vehicle hne (hkey true src hsrc) (hkey true dest hdest)
    (by
      show (costGraph vehicle (applyWeatherEffectsMachine cw (setEdgeBlocked g u i true))).Closed
      rw [hcomm, costGraph_setEdgeBlocked]
      exact setEdgeBlocked_closed _ u i true hclosed)
    (by
      show (costGraph vehicle
        (applyWeatherEffectsMachine cw (setEdgeBlocked g u i true))).NonnegCosts (unitSpeed vehicle)
      rw [hcomm, costGraph_setEdgeBlocked]
      exact setEdgeBlocked_nonnegCosts _ u i true _ hcost)
    hrangeB
  obtain ⟨hpartU, N, htotU⟩ := shortestPathMachine_spec ⟨setEdgeBlocked g u i false, incidents, cw⟩
    src dest vehicle hne (hkey false src hsrc) (hkey false dest hdest)
    (by
      show (costGraph vehicle (applyWeatherEffectsMachine cw (setEdgeBlocked g u i false))).Closed
      rw [hcomm, costGraph_setEdgeBlocked]
      exact setEdgeBlocked_closed _ u i false hclosed)
    (by
      show (costGraph vehicle
        (applyWeatherEffectsMachine cw (setEdgeBlocked g u i false))).NonnegCosts (unitSpeed vehicle)
      rw [hcomm, costGraph_setEdgeBlocked]
      exact setEdgeBlocked_nonnegCosts _ u i false _ hcost)
    hrangeU
  have hspecB := routeSpec_costGraph (hpartB fuel _ w' hblocked).2
  simp only [hcomm] at hspecB
  rcases hspecB with ⟨h, _⟩ | ⟨r0, hr0, hlt, ⟨p, hp, hpc⟩, _⟩
  · cases h
  cases hr0
  have hp' := isPath_unblock _ incidents vehicle u i hp
  refine ⟨N, fun fuel' hle => ?_⟩
  obtain ⟨out, w'', hout⟩ := htotU fuel' hle
  have hspecU := routeSpec_costGraph (hpartU fuel' out w'' hout).2
  simp only [hcomm] at hspecU
  rcases hspecU with ⟨_, hnone⟩ | ⟨r', hr', _, _, hmin⟩
  · have := hnone p hp'
    omega
  · exact ⟨r', w'', hr' ▸ hout, by rw [← hpc]; exact hmin p hp'⟩

/-! ### Runs in which a sum leaves the range of `int` -/

/-- On the roads of `heavyRoadOps` (A-B of weight 1, B-C of weight 2147483647, B-D of
weight 1) the car's search from A to C takes the sum 1 + 2147483647, which leaves the range
of `int`: `sumsInRange` is false. The only admissible path from A to C costs 2147483648, not
less than `INT_MAX`, yet the query in machine arithmetic reports the route A, B, C with the
total time -2147483648, and the ambulance in emergency mode, whose sums stay in the range,
reports 1431655764. The statements that assume `sumsInRange` say nothing about such
runs. -/
theorem sums_leave_range :
    sumsInRange (applyWeatherEffectsMachine WeatherType.SUNNY (runOps Graph.empty heavyRoadOps))
      [] car "C" 5
      ⟨initDist (applyWeatherEffectsMachine WeatherType.SUNNY (runOps Graph.empty heavyRoadOps))
        "A", [], [(0, "A")]⟩ = false ∧
    pathCostMachine car
      [⟨"B", 1, 0, false, 0, "General"⟩, ⟨"C", 2147483647, 0, false, 0, "General"⟩]
      = 2147483648 ∧
    (shortestPathMachine 5 ⟨runOps Graph.empty heavyRoadOps, [], WeatherType.SUNNY⟩ "A" "C"
        car).map Prod.fst
      = some (Outcome.route ⟨["A", "B", "C"], -2147483648, 0, 2147483648⟩) ∧
    (∀ fuel, sumsInRange
      (applyWeatherEffectsMachine WeatherType.SUNNY (runOps Graph.empty heavyRoadOps)) []
      ambulance "C" fuel
      ⟨initDist (applyWeatherEffectsMachine WeatherType.SUNNY (runOps Graph.empty heavyRoadOps))
        "A", [], [(0, "A")]⟩ = true) ∧
    (shortestPathMachine 5 ⟨runOps Graph.empty heavyRoadOps, [], WeatherType.SUNNY⟩ "A" "C"
        ambulance).map Prod.fst
      = some (Outcome.route ⟨["A", "B", "C"], 1431655764, 0, 2147483648⟩) :=
  ⟨by decide!, by decide!, by decide!,
   sumsInRange_of_isOk _ _ _ _ 5 _ (by decide!) (by decide!), by decide!⟩

/-! ### Values of the rounding -/

/-- The `double` values of the literals 0.1, 0.6, 0.7, 0.8 and 0.85 (with the bit patterns
3FB999999999999A, 3FE3333333333333, 3FE6666666666666, 3FE999999999999A and
3FEB333333333333), and integers below 2^53, which are `double` values themselves. -/
theorem toDouble_values :
    toDouble (1 / 10) = 3602879701896397 / 36028797018963968 ∧
    toDouble (6 / 10) = 5404319552844595 / 9007199254740992 ∧
    toDouble (7 / 10) = 3152519739159347 / 4503599627370496 ∧
    toDouble (8 / 10) = 3602879701896397 / 4503599627370496 ∧
    toDouble (85 / 100) = 7656119366529843 / 9007199254740992 ∧
    toDouble 100 = 100 ∧ toDouble 2147483647 = 2147483647 ∧
    toDouble (-3) = -3 ∧ toDouble 9007199254740993 = 9007199254740992 := by
  refine ⟨by decide!, by decide!, by decide!, by decide!, by decide!, by decide!, by decide!,
    by decide!, by decide!⟩

/-- An edge of weight 45 with congestion 4 costs a car 62 seconds in machine arithmetic:
`1.0 + 4 * 0.1` is the `double` nearest to 1.4, which lies below 1.4, and its product with
45 rounds to 62.99999999999999 (8866461766385663 / 2^47); in exact arithmetic the cost
is 63. -/
theorem timeCostMachine_rounding :
    costDouble ⟨"B", 45, 0, false, 4, "General"⟩ car = 8866461766385663 / 140737488355328 ∧
    timeCostMachine ⟨"B", 45, 0, false, 4, "General"⟩ car = 62 ∧
    timeCost ⟨"B", 45, 0, false, 4, "General"⟩ car = 63 := by
  refine ⟨by decide!, by decide!, by decide!⟩

end TrafficSim
